import Mathlib

/-!
# The spreadsheet model (`model.c`)

A shallow embedding of `model.c`: the grid of cells, the formula evaluator
`evaluate_formula`, the propagation `update_dependents`, and the three entry
points `set_cell_value`, `clear_cell` and `get_textual_value`.

Conventions of the embedding.

* A C string is the list of its characters before the terminating NUL.
* A `double` is an IEEE-754 binary64 value (`Dbl`): arithmetic rounds to
  nearest, ties to even; `strtod` and `%.1f` are correctly rounded, as in
  glibc, and read the "C" locale.
* `ROW` and `COL` come from `model.h`, which is not part of the sources read
  here; they are taken as `int`, of four bytes.
* Behaviour that C leaves undefined is a `Fault`: indexing the grid outside
  `ROWS x COLS`, passing a null string to `strtod`/`strdup`, writing more than
  the 20 bytes allocated for a rendered number.  Recursion that needs more
  depth than the fuel supplied is the fault `outOfFuel`; a call that is
  `outOfFuel` for every fuel does not return.
* `model_init` does not set `computed_value` and `formula`; they are read as
  `NULL`.
* `strtok` keeps a single position for the whole program.  When a recursive
  `evaluate_formula` has returned, that position is the terminating NUL of the
  inner `formula_copy`, at offset `strlen(formula)` of a block that line 90 has
  freed.  The next `malloc` of the program is the one of line 77, for a
  `dependencyNode` of 16 bytes (two `int`s and a pointer); with glibc it is
  served by the block freed last when that block has room for at most 24
  bytes, and then the node is written over the copy.  The read made by
  `strtok(NULL, "+")` on line 88 is followed where the program determines the
  bytes: from offset 16 on the block is as the copy left it, so the read
  finds the NUL; at offsets 0 to 7 it finds the bytes of `newNode->row` and
  `newNode->col`, lowest byte first.  Where it would find the bytes of the
  pointer `next` (the model has no addresses), bytes the allocator wrote in a
  block no node was given, or a byte that is `'+'` or above 127, the read is
  not followed and the run ends in the fault `freedMemory`.
-/

namespace Spreadsheet

/-! ## Doubles -/

/-- A binary64 value: `fin neg m e` is `(-1)^neg * m * 2^e`. -/
inductive Dbl where
  | fin (neg : Bool) (m : Nat) (e : Int)
  | inf (neg : Bool)
  | nan (neg : Bool)
  deriving DecidableEq, Repr

namespace Dbl

/-- Positive zero, the initial value of `result`. -/
def zero : Dbl := .fin false 0 0

/-- Round the nonnegative fraction `n / d` to the nearest integer, ties to even. -/
def roundHalfEven (n d : Nat) : Nat :=
  let q := n / d
  let r := n % d
  if 2 * r > d ∨ (2 * r = d ∧ q % 2 = 1) then q + 1 else q

/-- The position of the highest set bit of `n`, `floor (log2 n)`, and `0` for
`n < 2` (`fuel` bounds the number of bits). -/
def log2 : Nat → Nat → Nat
  | 0, _ => 0
  | fuel + 1, n => if n < 2 then 0 else log2 fuel (n / 2) + 1

/-- The binary64 value nearest to `(-1)^neg * n / d` (`d > 0`), ties to even:
53 significant bits, exponents from `-1074` (subnormals) to `971`, overflow to
infinity. -/
def round (neg : Bool) (n d : Nat) : Dbl :=
  if n = 0 then .fin neg 0 0 else
  let e0 : Int := (log2 n n : Int) - (log2 d d : Int) - 52
  -- `2^52 <= n / (d * 2^e) < 2^53` holds for `e = e0` or `e = e0 - 1`
  let big : Bool :=
    if 0 ≤ e0 + 52 then d * 2 ^ (e0 + 52).toNat ≤ n else d ≤ n * 2 ^ (-(e0 + 52)).toNat
  let e1 : Int := if big then e0 else e0 - 1
  let e : Int := max e1 (-1074)
  let q : Nat :=
    if 0 ≤ e then roundHalfEven n (d * 2 ^ e.toNat) else roundHalfEven (n * 2 ^ (-e).toNat) d
  if q = 0 then .fin neg 0 0
  else if q = 2 ^ 53 then (if e + 1 > 971 then .inf neg else .fin neg (2 ^ 52) (e + 1))
  else if e > 971 then .inf neg
  else .fin neg q e

/-- The sum of two doubles, `a + b` in C.  The NaN made by adding opposite
infinities has the sign bit set, as on x86-64. -/
def add : Dbl → Dbl → Dbl
  | .nan s, _ => .nan s
  | _, .nan s => .nan s
  | .inf s, .inf t => if s = t then .inf s else .nan true
  | .inf s, .fin _ _ _ => .inf s
  | .fin _ _ _, .inf t => .inf t
  | .fin s m e, .fin t k f =>
    let g : Int := min e f
    let a : Int := (if s then -1 else 1) * ((m * 2 ^ (e - g).toNat : Nat) : Int)
    let b : Int := (if t then -1 else 1) * ((k * 2 ^ (f - g).toNat : Nat) : Int)
    let c : Int := a + b
    if c = 0 then .fin (s && t) 0 0
    else if 0 ≤ g then round (decide (c < 0)) (c.natAbs * 2 ^ g.toNat) 1
    else round (decide (c < 0)) c.natAbs (2 ^ (-g).toNat)

instance : Add Dbl := ⟨add⟩

/-- The character of the last decimal digit of `d`. -/
def digitChar (d : Nat) : Char :=
  match d % 10 with
  | 0 => '0'
  | 1 => '1'
  | 2 => '2'
  | 3 => '3'
  | 4 => '4'
  | 5 => '5'
  | 6 => '6'
  | 7 => '7'
  | 8 => '8'
  | _ => '9'

/-- The decimal digits of `n`, most significant first, in front of `acc`
(`fuel` bounds the number of digits). -/
def decDigits : Nat → Nat → List Char → List Char
  | 0, _, acc => acc
  | fuel + 1, n, acc =>
    if n < 10 then digitChar n :: acc else decDigits fuel (n / 10) (digitChar n :: acc)

/-- The decimal numeral of `n`. -/
def natRepr (n : Nat) : List Char := decDigits (n + 1) n []

/-- The text `printf("%.1f", x)` produces. -/
def fmt1 : Dbl → List Char
  | .nan s => (if s then ['-'] else []) ++ ['n', 'a', 'n']
  | .inf s => (if s then ['-'] else []) ++ ['i', 'n', 'f']
  | .fin s m e =>
    let t : Nat :=
      if 0 ≤ e then m * 2 ^ e.toNat * 10 else roundHalfEven (m * 10) (2 ^ (-e).toNat)
    (if s then ['-'] else []) ++ natRepr (t / 10) ++ ['.', digitChar (t % 10)]

/-- Whether the value is finite (neither an infinity nor a NaN). -/
def isFinite : Dbl → Bool
  | .fin _ _ _ => true
  | _ => false

end Dbl

/-! ## `strtod` -/

/-- The `isspace` of the "C" locale. -/
def isspace (c : Char) : Bool :=
  c = ' ' || (9 ≤ c.toNat && c.toNat ≤ 13)

/-- The `toupper` of the "C" locale, on character codes. -/
def toupper (c : Nat) : Nat :=
  if 97 ≤ c ∧ c ≤ 122 then c - 32 else c

/-- The value of a hexadecimal digit, if the character is one. -/
def hexVal (c : Char) : Option Nat :=
  let n := c.toNat
  if 48 ≤ n ∧ n ≤ 57 then some (n - 48)
  else if 97 ≤ n ∧ n ≤ 102 then some (n - 87)
  else if 65 ≤ n ∧ n ≤ 70 then some (n - 55)
  else none

/-- The value of a digit in base 10 or 16, if the character is one. -/
def digitVal (base : Nat) (c : Char) : Option Nat :=
  match hexVal c with
  | some v => if v < base then some v else none
  | none => none

/-- Read the longest run of digits in the given base: the value accumulated on
`acc`, the number of digits read, and the text that follows. -/
def readDigits (base : Nat) : List Char → Nat → Nat → Nat × Nat × List Char
  | [], acc, k => (acc, k, [])
  | c :: cs, acc, k =>
    match digitVal base c with
    | some v => readDigits base cs (acc * base + v) (k + 1)
    | none => (acc, k, c :: cs)

/-- Read an exponent part: the marker (`e` or `p`, either case), an optional
sign and at least one decimal digit.  Without a digit nothing is read. -/
def readExponent (marker : Char) (cs : List Char) : Int × List Char :=
  match cs with
  | [] => (0, cs)
  | c :: rest =>
    if toupper c.toNat = marker.toNat then
      let (neg, rest1) : Bool × List Char :=
        match rest with
        | '-' :: r => (true, r)
        | '+' :: r => (false, r)
        | _ => (false, rest)
      match readDigits 10 rest1 0 0 with
      | (_, 0, _) => (0, cs)
      | (v, _, rest2) => ((if neg then -(v : Int) else (v : Int)), rest2)
    else (0, cs)

/-- The value `(-1)^neg * n * base^x`, rounded to a double. -/
def scale (neg : Bool) (n : Nat) (base : Nat) (x : Int) : Dbl :=
  if 0 ≤ x then Dbl.round neg (n * base ^ x.toNat) 1 else Dbl.round neg n (base ^ (-x).toNat)

/-- Read a mantissa in the given base, digits with at most one point among
them and at least one digit, then the exponent part.  `none` when there is no
digit. -/
def readNumber (base : Nat) (marker : Char) (expBase : Nat) (bitsPerDigit : Nat)
    (neg : Bool) (cs : List Char) : Option (Dbl × List Char) :=
  let (i, ki, rest) := readDigits base cs 0 0
  let (m, kf, rest1) : Nat × Nat × List Char :=
    match rest with
    | '.' :: r => readDigits base r i 0
    | _ => (i, 0, rest)
  if ki + kf = 0 then none
  else
    let (x, rest2) := readExponent marker rest1
    some (scale neg m expBase (x - (bitsPerDigit * kf : Nat)), rest2)

/-- Whether `cs` starts with the upper-case word `w`, whatever the case of `cs`;
the text after it. -/
def stripWord : List Char → List Char → Option (List Char)
  | [], cs => some cs
  | _ :: _, [] => none
  | w :: ws, c :: cs => if toupper c.toNat = w.toNat then stripWord ws cs else none

/-- The text after a `(n-char-sequence)` that may follow `nan`: letters, digits
and underscores between parentheses.  Without one, the text itself. -/
def skipNanPayload (cs : List Char) : List Char :=
  match cs with
  | '(' :: r =>
    match r.dropWhile (fun c => c.isAlphanum || c = '_') with
    | ')' :: r1 => r1
    | _ => cs
  | _ => cs

/-- The subject sequence of `strtod` after white space and sign. -/
def readUnsigned (neg : Bool) (cs : List Char) : Option (Dbl × List Char) :=
  match stripWord ['I', 'N', 'F'] cs with
  | some rest =>
    match stripWord ['I', 'N', 'I', 'T', 'Y'] rest with
    | some rest1 => some (.inf neg, rest1)
    | none => some (.inf neg, rest)
  | none =>
    match stripWord ['N', 'A', 'N'] cs with
    | some rest => some (.nan neg, skipNanPayload rest)
    | none =>
      match stripWord ['0', 'X'] cs with
      | some rest =>
        match readNumber 16 'P' 2 4 neg rest with
        | some r => some r
        | none => readNumber 10 'E' 10 1 neg cs
      | none => readNumber 10 'E' 10 1 neg cs

/-- The C function `strtod(text, &end)`: the value converted and the text `end`
points at.  When no conversion is performed the value is zero and `end` is
`text`. -/
def strtod (text : List Char) : Dbl × List Char :=
  let body := text.dropWhile isspace
  let (neg, rest) : Bool × List Char :=
    match body with
    | '-' :: r => (true, r)
    | '+' :: r => (false, r)
    | _ => (false, body)
  match readUnsigned neg rest with
  | some r => r
  | none => (Dbl.zero, text)

/-- Source `is_number`, model.c lines 40-44:
`strtod(text, &end); return end != text && *end == '\0';`.  `end` points into
`text`, so it differs from `text` exactly when fewer characters remain. -/
def is_number (text : List Char) : Bool :=
  let e := (strtod text).2
  e.length ≠ text.length && e = []

/-! ## The grid -/

/-- Source `ROWS`, model.c line 10. -/
def ROWS : Int := 10

/-- Source `COLS`, model.c line 11. -/
def COLS : Int := 10

/-- Source `valueType`, model.c lines 14-18. -/
inductive valueType where
  | TEXT
  | NUMBER
  | FORMULA
  deriving DecidableEq, Repr

/-- Source `cell`, model.c lines 28-34.  A string pointer is `none` when it is
`NULL`.  `dependencies` is the linked list of `dependencyNode`s, head first,
each node being its `(row, col)`. -/
structure cell where
  value : Option (List Char)
  computed_value : Option (List Char)
  type : valueType
  formula : Option (List Char)
  dependencies : List (Int × Int)

/-- The state of the program: the global `spreadsheet`, the position `strtok`
keeps between calls, and the calls of `update_cell_display` made so far, the
latest first.  Of the position of `strtok` the state holds the text from it to
the next NUL (`strtok_save`, what remains to be split) and whether it lies in
the `formula_copy` of the call of `evaluate_formula` that is running or has
just returned (`strtok_in_copy`). -/
structure Model where
  spreadsheet : Int → Int → cell
  strtok_save : List Char
  display : List (Int × Int × List Char)
  strtok_in_copy : Bool

/-- What a run can end in instead of a result. -/
inductive Fault where
  | outOfFuel
  | outOfBounds
  | nullPointer
  | bufferOverflow
  | freedMemory
  deriving DecidableEq, Repr

/-- Whether `spreadsheet[row][col]` is inside the allocated grid. -/
def inBounds (row col : Int) : Bool :=
  decide (0 ≤ row) && decide (row < ROWS) && decide (0 ≤ col) && decide (col < COLS)

/-- The state after the assignment `spreadsheet[row][col] = c`. -/
def setCell (s : Model) (row col : Int) (c : cell) : Model :=
  { s with spreadsheet := fun r k => if r = row ∧ k = col then c else s.spreadsheet r k }

/-- The C function `strtok` with the delimiter `"+"`, from the position `s`:
the next token, if any, and the position saved for the next call.  Delimiters
in front are skipped; the token runs to the next `+`, which is overwritten and
stepped over, or to the end of the string. -/
def strtok (s : List Char) : Option (List Char) × List Char :=
  match s.dropWhile (fun c => c = '+') with
  | [] => (none, [])
  | c :: cs =>
    (some ((c :: cs).takeWhile (fun c => c ≠ '+')),
      ((c :: cs).dropWhile (fun c => c ≠ '+')).tail)

/-- The character code `component[i]`; at the end of the string this is the
terminating NUL. -/
def charAt (component : List Char) (i : Nat) : Int :=
  ((component.getD i (Char.ofNat 0)).toNat : Int)

/-- The row a component names when read as a cell reference, model.c line 56:
`component[1] - '1'`. -/
def ref_row (component : List Char) : Int := charAt component 1 - 49

/-- The column a component names when read as a cell reference, model.c line
57: `toupper(component[0]) - 'A'`. -/
def ref_col (component : List Char) : Int := (toupper (charAt component 0).toNat : Int) - 65

/-- The call `sprintf(buffer, "%.1f", x)` into the 20 bytes of
`malloc(20 * sizeof(char))`: the text and its terminator must fit. -/
def sprintf_1f (x : Dbl) : Except Fault (List Char) :=
  if (Dbl.fmt1 x).length + 1 ≤ 20 then .ok (Dbl.fmt1 x) else .error .bufferOverflow

/-- Whether the scan of model.c lines 66-73 stops at a node: it compares each
node of the list of the referenced cell `(row, col)` with `(row, col)`. -/
def scan_finds (s : Model) (row col : Int) : Bool :=
  (s.spreadsheet row col).dependencies.any (fun n => decide (n.1 = row) && decide (n.2 = col))

/-- Source `evaluate_formula`, model.c lines 66-82: the scan of the referenced
cell's list compares each node with `(row, col)`, the referenced cell itself, and
a node for `(drow, dcol)` is put in front when the scan finds none. -/
def add_dependency (s : Model) (row col drow dcol : Int) : Model :=
  if scan_finds s row col then s
  else
    setCell s row col
      { s.spreadsheet row col with
        dependencies := (drow, dcol) :: (s.spreadsheet row col).dependencies }

/-- The four bytes of an `int`, lowest byte first (two's complement). -/
def int_bytes (x : Int) : List Nat :=
  [(x % 256).toNat, (x / 256 % 256).toNat, (x / 65536 % 256).toNat, (x / 16777216 % 256).toNat]

/-- The C string that starts at the head of a list of bytes: the characters
before the first NUL, and nothing when the bytes end before a NUL. -/
def c_string : List Nat → Option (List Char)
  | [] => none
  | b :: rest => if b = 0 then some [] else (c_string rest).map (fun t => Char.ofNat b :: t)

/-- The position of `strtok` when line 88 is reached after the recursive call
of line 63 on the formula `f` of the cell `(row, col)` has returned into the
evaluation for `(drow, dcol)`, in the state `s` the call returned.  If the
position was in the copy of the inner call, it is at offset `strlen(f)` of the
block freed on line 90: the bytes from offset 16 on are as they were left; the
bytes before are those of `newNode->row` and `newNode->col` when lines 77-81
allocated a node, and are not followed otherwise.  If the position was
elsewhere it has not moved. -/
def strtok_after_call (f : List Char) (row col drow dcol : Int) (s : Model) :
    Except Fault Model :=
  if s.strtok_in_copy then
    if 16 ≤ f.length then .ok { s with strtok_in_copy := false }
    else if scan_finds s row col then .error .freedMemory
    else
      match c_string ((int_bytes drow ++ int_bytes dcol).drop f.length) with
      | some t =>
        if t.all (fun c => decide (c ≠ '+') && decide (c.toNat < 128)) then
          .ok { s with strtok_save := t, strtok_in_copy := false }
        else .error .freedMemory
      | none => .error .freedMemory
  else .ok s

mutual

/-- Source `evaluate_formula`, model.c lines 47-92.  The copy of the formula is
split from its second character on; the loop is `evaluate_formula_loop`. -/
def evaluate_formula : Nat → List Char → Int → Int → Model → Except Fault (Dbl × Model)
  | 0, _, _, _, _ => .error .outOfFuel
  | _ + 1, [], _, _, _ => .error .outOfBounds
  | fuel + 1, _ :: body, drow, dcol, s =>
    evaluate_formula_loop fuel (strtok body).1 Dbl.zero drow dcol
      { s with strtok_save := (strtok body).2, strtok_in_copy := true }

/-- The `while (component != NULL)` loop of `evaluate_formula`, model.c lines
53-89, entered with the current `component` and `result`.  `strtok(NULL, "+")`
continues from the position saved by the latest call of `strtok`, which after
a recursive evaluation is given by `strtok_after_call`. -/
def evaluate_formula_loop :
    Nat → Option (List Char) → Dbl → Int → Int → Model → Except Fault (Dbl × Model)
  | 0, _, _, _, _, _ => .error .outOfFuel
  | _ + 1, none, result, _, _, s => .ok (result, s)
  | fuel + 1, some component, result, drow, dcol, s =>
    if is_number component then
      evaluate_formula_loop fuel (strtok s.strtok_save).1 (result + (strtod component).1)
        drow dcol { s with strtok_save := (strtok s.strtok_save).2 }
    else
      if inBounds (ref_row component) (ref_col component) then
        let referenced : Except Fault (Dbl × Model) :=
          match (s.spreadsheet (ref_row component) (ref_col component)).type with
          | .NUMBER =>
            match (s.spreadsheet (ref_row component) (ref_col component)).value with
            | some v => .ok (result + (strtod v).1, s)
            | none => .error .nullPointer
          | .FORMULA =>
            match (s.spreadsheet (ref_row component) (ref_col component)).formula with
            | some f =>
              match evaluate_formula fuel f (ref_row component) (ref_col component) s with
              | .ok (v, s1) =>
                match strtok_after_call f (ref_row component) (ref_col component)
                    drow dcol s1 with
                | .ok s2 => .ok (result + v, s2)
                | .error e => .error e
              | .error e => .error e
            | none => .error .nullPointer
          | .TEXT => .ok (result, s)
        match referenced with
        | .ok (result1, s1) =>
          evaluate_formula_loop fuel (strtok s1.strtok_save).1 result1 drow dcol
            { add_dependency s1 (ref_row component) (ref_col component) drow dcol with
              strtok_save := (strtok s1.strtok_save).2 }
        | .error e => .error e
      else .error .outOfBounds

end

/-- Source `model_init`, model.c lines 95-105.  The source sets `value`, `type`
and `dependencies` and leaves `computed_value` and `formula` as `malloc`
returned them; they are taken to be `NULL` here. -/
def model_init : Model :=
  { spreadsheet := fun _ _ =>
      { value := none, computed_value := none, type := .TEXT, formula := none,
        dependencies := [] }
    strtok_save := []
    display := []
    strtok_in_copy := false }

/-- The call `update_cell_display(row, col, text)` of `interface.h`. -/
def update_cell_display (row col : Int) (text : List Char) (s : Model) : Model :=
  { s with display := (row, col, text) :: s.display }

/-- The loop of `update_dependents`, model.c lines 110-123, from the node
`current` on: the nodes that remain are the list given.  Nodes added while the
loop runs are put in front of the heads of lists, so the nodes after `current`
are those that were there when the loop started. -/
def update_dependents_loop (fuel : Nat) : List (Int × Int) → Model → Except Fault Model
  | [], s => .ok s
  | (row, col) :: rest, s =>
    if inBounds row col then
      if (s.spreadsheet row col).type = .FORMULA then
        match (s.spreadsheet row col).formula with
        | some f =>
          match evaluate_formula fuel f row col s with
          | .ok (result, s1) =>
            match sprintf_1f result with
            | .ok result_str =>
              update_dependents_loop fuel rest
                (update_cell_display row col result_str
                  (setCell s1 row col
                    { s1.spreadsheet row col with computed_value := some result_str }))
            | .error e => .error e
          | .error e => .error e
        | none => .error .nullPointer
      else update_dependents_loop fuel rest s
    else .error .outOfBounds

/-- Source `update_dependents`, model.c lines 108-124. -/
def update_dependents (fuel : Nat) (row col : Int) (s : Model) : Except Fault Model :=
  if inBounds row col then
    update_dependents_loop fuel (s.spreadsheet row col).dependencies s
  else .error .outOfBounds

/-- The display text of the cell just written is shown and its dependents are
recomputed: model.c lines 162-164. -/
def show_and_update (fuel : Nat) (row col : Int) (s : Model) : Except Fault Model :=
  update_dependents fuel row col
    (update_cell_display row col (((s.spreadsheet row col).computed_value).getD []) s)

/-- Source `set_cell_value`, model.c lines 127-168. -/
def set_cell_value (fuel : Nat) (row col : Int) (text : List Char) (s : Model) :
    Except Fault Model :=
  if inBounds row col then
    if text.head? = some '=' then
      match evaluate_formula fuel text row col
          (setCell s row col
            { s.spreadsheet row col with type := .FORMULA, formula := some text }) with
      | .ok (result, s1) =>
        match sprintf_1f result with
        | .ok result_str =>
          show_and_update fuel row col
            (setCell s1 row col
              { s1.spreadsheet row col with
                value := some text, computed_value := some result_str })
        | .error e => .error e
      | .error e => .error e
    else if is_number text then
      match sprintf_1f (strtod text).1 with
      | .ok value_str =>
        show_and_update fuel row col
          (setCell s row col
            { s.spreadsheet row col with
              type := .NUMBER, value := some value_str, computed_value := some value_str,
              formula := none })
      | .error e => .error e
    else
      show_and_update fuel row col
        (setCell s row col
          { s.spreadsheet row col with
            type := .TEXT, value := some text, computed_value := some text, formula := none })
  else .error .outOfBounds

/-- Source `clear_cell`, model.c lines 171-185. -/
def clear_cell (row col : Int) (s : Model) : Except Fault Model :=
  if inBounds row col then
    .ok (update_cell_display row col []
      (setCell s row col
        { s.spreadsheet row col with value := none, formula := none, type := .TEXT }))
  else .error .outOfBounds

/-- Source `get_textual_value`, model.c lines 188-197. -/
def get_textual_value (row col : Int) (s : Model) : Except Fault (List Char) :=
  if inBounds row col then
    if (s.spreadsheet row col).type = .FORMULA then
      .ok (((s.spreadsheet row col).value).getD [])
    else
      .ok (((s.spreadsheet row col).computed_value).getD [])
  else .error .outOfBounds

/-! ## Relations between states -/

/-- The kinds, raw texts and formula sources of all cells are the same in `s`
and `t`, and each dependents list of `s` is the tail end of the list in `t`. -/
structure SameContent (s t : Model) : Prop where
  type_eq : ∀ r c, (t.spreadsheet r c).type = (s.spreadsheet r c).type
  value_eq : ∀ r c, (t.spreadsheet r c).value = (s.spreadsheet r c).value
  formula_eq : ∀ r c, (t.spreadsheet r c).formula = (s.spreadsheet r c).formula
  deps_suffix : ∀ r c, (s.spreadsheet r c).dependencies <:+ (t.spreadsheet r c).dependencies

/-- The computed texts of all cells and the display log are the same. -/
structure SameShown (s t : Model) : Prop where
  computed_eq : ∀ r c, (t.spreadsheet r c).computed_value = (s.spreadsheet r c).computed_value
  display_eq : t.display = s.display


deriving instance DecidableEq for Except

/-- Whether a run ended in a result. -/
def returns {α : Type} (e : Except Fault α) : Bool :=
  match e with
  | .ok _ => true
  | .error _ => false

/-- The state a run ended in, and the initial state when it ended in a fault. -/
def final (e : Except Fault Model) : Model :=
  match e with
  | .ok s => s
  | .error _ => model_init

/-- The computed text of the cell at `(row, col)` at the end of a run. -/
def computed_text (row col : Int) (e : Except Fault Model) :
    Except Fault (Option (List Char)) :=
  match e with
  | .ok s => .ok (s.spreadsheet row col).computed_value
  | .error f => .error f

/-- The dependents list of the cell at `(row, col)` at the end of a run. -/
def dependents (row col : Int) (e : Except Fault Model) : Except Fault (List (Int × Int)) :=
  match e with
  | .ok s => .ok (s.spreadsheet row col).dependencies
  | .error f => .error f

/-- The calls of `update_cell_display` made by the end of a run, the latest
first. -/
def displayed (e : Except Fault Model) : Except Fault (List (Int × Int × List Char)) :=
  match e with
  | .ok s => .ok s.display
  | .error f => .error f

/-- The kinds, raw texts and formula sources of all cells are the same in `s`
and `t`; dependents lists, computed texts, the display log and the position of
`strtok` may differ. -/
structure ContentEq (s t : Model) : Prop where
  type_eq : ∀ r c, (t.spreadsheet r c).type = (s.spreadsheet r c).type
  value_eq : ∀ r c, (t.spreadsheet r c).value = (s.spreadsheet r c).value
  formula_eq : ∀ r c, (t.spreadsheet r c).formula = (s.spreadsheet r c).formula

/-- The scan of model.c lines 66-73 has the same outcome in `s` and `t` for
every cell. -/
def ScanEq (s t : Model) : Prop :=
  ∀ r c, scan_finds t r c = scan_finds s r c

/-- Two results of an evaluation agree: the same fault, or the same value in
states of the same content with `strtok` at the same position. -/
def ResEq : Except Fault (Dbl × Model) → Except Fault (Dbl × Model) → Prop
  | .ok (v, t), .ok (w, u) =>
    v = w ∧ ContentEq t u ∧ ScanEq t u ∧ u.strtok_save = t.strtok_save ∧
      u.strtok_in_copy = t.strtok_in_copy
  | .error e, .error f => e = f
  | _, _ => False

/-- What `strtok` finds after a recursive call made for a cell of the grid:
the end of a string, or one character that is no number and that, read as a
reference, names a cell outside the grid. -/
def AfterCall (t : Model) : Prop :=
  t.strtok_save = [] ∨
    ∃ c, t.strtok_save = [c] ∧ strtok [c] = (some [c], []) ∧ is_number [c] = false ∧
      inBounds (ref_row [c]) (ref_col [c]) = false

/-- The grid after `A1 = "1"`, `B1 = "=A1"`, `C1 = "=B1"` on the initial grid. -/
def chain_sheet : Model :=
  final (set_cell_value 10 0 0 "1".toList model_init >>= set_cell_value 10 0 1 "=A1".toList
    >>= set_cell_value 10 0 2 "=B1".toList)

/-- The states the program can be in: the initial grid, and what returning
calls of `set_cell_value` and `clear_cell` make of a state it can be in. -/
inductive Reachable : Model → Prop where
  | init : Reachable model_init
  | set (fuel : Nat) (row col : Int) (text : List Char) (s t : Model) :
      Reachable s → set_cell_value fuel row col text s = .ok t → Reachable t
  | clear (row col : Int) (s t : Model) :
      Reachable s → clear_cell row col s = .ok t → Reachable t

/-- A text of the form `%.1f` gives to a finite number: an optional minus sign,
one or more digits, a point, one digit. -/
def OneDecimal (t : List Char) : Prop :=
  ∃ sign ds d, t = sign ++ ds ++ ['.', d] ∧ (sign = [] ∨ sign = ['-']) ∧ ds ≠ [] ∧
    (∀ c ∈ ds, c.isDigit = true) ∧ d.isDigit = true

/-- What holds of every Formula cell in a state the program can be in: raw text
and formula source are the same text, which begins with `=`, and the computed
text is the rendering of a number. -/
def FormulaInv (s : Model) : Prop :=
  ∀ r c, (s.spreadsheet r c).type = valueType.FORMULA →
    ∃ f, (s.spreadsheet r c).value = some f ∧ (s.spreadsheet r c).formula = some f ∧
      f.head? = some '=' ∧ ∃ v, (s.spreadsheet r c).computed_value = some (Dbl.fmt1 v)

/-- The grid after `A1 = "3.0"` on the initial grid. -/
def number_sheet : Model := final (set_cell_value 4 0 0 "3.0".toList model_init)

/-- The grid after `A1 = "3.0"` and `B1 = "=A1+5"` on the initial grid. -/
def formula_sheet : Model := final (set_cell_value 4 0 1 "=A1+5".toList number_sheet)

/-- The grid after `A1 = "=B1"` on the initial grid. -/
def half_cycle_sheet : Model := final (set_cell_value 4 0 0 "=B1".toList model_init)

/-- The components `strtok` yields from the position `s` on, at most `k` of
them. -/
def tokens : Nat → List Char → List (List Char)
  | 0, _ => []
  | k + 1, s =>
    match strtok s with
    | (some t, rest) => t :: tokens k rest
    | (none, _) => []

/-- The cell `a` is named by the formula of the Formula cell `b`: some component
of that formula is not a number and, read as a reference, gives the
coordinates `a`, which are inside the grid. -/
def Refers (s : Model) (a b : Int × Int) : Prop :=
  (s.spreadsheet b.1 b.2).type = valueType.FORMULA ∧
  ∃ f comp k, (s.spreadsheet b.1 b.2).formula = some f ∧ comp ∈ tokens k f.tail ∧
    is_number comp = false ∧ inBounds (ref_row comp) (ref_col comp) = true ∧
    a = (ref_row comp, ref_col comp)

/-- The kinds and formula sources of all cells are the same in `s` and `t`. -/
structure ShapeEq (s t : Model) : Prop where
  type_eq : ∀ r c, (t.spreadsheet r c).type = (s.spreadsheet r c).type
  formula_eq : ∀ r c, (t.spreadsheet r c).formula = (s.spreadsheet r c).formula

/-- The kind `set_cell_value` gives a cell for a text. -/
def classify (text : List Char) : valueType :=
  if text.head? = some '=' then .FORMULA else if is_number text then .NUMBER else .TEXT

/-- The grid with the kind and formula source that `set_cell_value(row, col,
text)` stores in the cell, as far as references between formulas go. -/
def written (s : Model) (row col : Int) (text : List Char) : Model :=
  setCell s row col
    { s.spreadsheet row col with
      type := classify text
      formula := if text.head? = some '=' then some text else none }

/-- Evaluating the formula `f` for a cell of the grid ends, given enough fuel,
in every state with the kinds and formula sources of `s0`: in a value or in a
fault other than running out of fuel. -/
def Halts (s0 : Model) (f : List Char) : Prop :=
  ∃ N, ∀ fuel, N ≤ fuel → ∀ s drow dcol, inBounds drow dcol = true → ShapeEq s0 s →
    evaluate_formula fuel f drow dcol s ≠ .error .outOfFuel

/-- If the component refers to a Formula cell of the grid, evaluating that
cell's formula ends. -/
def GoodComponent (s0 : Model) (comp : List Char) : Prop :=
  is_number comp = false → inBounds (ref_row comp) (ref_col comp) = true →
    (s0.spreadsheet (ref_row comp) (ref_col comp)).type = valueType.FORMULA →
    ∀ g, (s0.spreadsheet (ref_row comp) (ref_col comp)).formula = some g → Halts s0 g

/-! ## States and predicates for the later statements -/

/-- The grid after `A1 = "42"` on the initial grid. -/
def answer_sheet : Model := final (set_cell_value 0 0 0 "42".toList model_init)

/-- The grid after `B1 = "=A1"` on the initial grid. -/
def ref_sheet : Model := final (set_cell_value 4 0 1 "=A1".toList model_init)

/-- The grid after `A1 = "=2+3"` on the initial grid. -/
def sum_sheet : Model := final (set_cell_value 10 0 0 "=2+3".toList model_init)

/-- The fault a run ended in, if it did. -/
def fault_of {α : Type} (e : Except Fault α) : Option Fault :=
  match e with
  | .ok _ => none
  | .error f => some f

/-- One operation takes the state `s` to the state `t`: a returning call of
`set_cell_value`, `clear_cell`, `evaluate_formula` or `update_dependents`
(`get_textual_value` changes no state). -/
def Step (s t : Model) : Prop :=
  (∃ fuel row col text, set_cell_value fuel row col text s = .ok t) ∨
  (∃ row col, clear_cell row col s = .ok t) ∨
  (∃ fuel f drow dcol v, evaluate_formula fuel f drow dcol s = .ok (v, t)) ∨
  (∃ fuel row col, update_dependents fuel row col s = .ok t)

/-- The states the program can be in, each with the text last entered into
every cell: none on the initial grid and after `clear_cell`, the text given to
the latest returning `set_cell_value` otherwise. -/
inductive Entered : Model → (Int → Int → Option (List Char)) → Prop where
  | init : Entered model_init (fun _ _ => none)
  | set (fuel : Nat) (row col : Int) (text : List Char) (s t : Model)
      (e : Int → Int → Option (List Char)) :
      Entered s e → set_cell_value fuel row col text s = .ok t →
      Entered t (fun r c => if r = row ∧ c = col then some text else e r c)
  | clear (row col : Int) (s t : Model) (e : Int → Int → Option (List Char)) :
      Entered s e → clear_cell row col s = .ok t →
      Entered t (fun r c => if r = row ∧ c = col then none else e r c)

/-- A formula source is present in Formula cells only, where it is the text
last entered, which begins with `=`. -/
def SourceInv (s : Model) (e : Int → Int → Option (List Char)) : Prop :=
  ∀ r c, ((s.spreadsheet r c).formula ≠ none → (s.spreadsheet r c).type = valueType.FORMULA) ∧
    ((s.spreadsheet r c).type = valueType.FORMULA →
      ∃ f, (s.spreadsheet r c).formula = some f ∧ e r c = some f ∧ f.head? = some '=')

/-- The calls `set_cell_value(A1, text)` for each of the texts in turn, while
they return. -/
def set_A1_each (fuel : Nat) : List (List Char) → Model → Except Fault Model
  | [], s => .ok s
  | text :: rest, s =>
    match set_cell_value fuel 0 0 text s with
    | .ok t => set_A1_each fuel rest t
    | .error e => .error e

/-- B1 is a Formula cell with the source `"=A1"` and every node of A1's
dependents list is B1. -/
def OnlyB1 (s : Model) : Prop :=
  (s.spreadsheet 0 1).type = valueType.FORMULA ∧
  (s.spreadsheet 0 1).formula = some ['=', 'A', '1'] ∧
  ∀ x ∈ (s.spreadsheet 0 0).dependencies, x = ((0 : Int), (1 : Int))

/-- No cell is on its own dependents list. -/
def NoSelf (s : Model) : Prop :=
  ∀ r c, (r, c) ∉ (s.spreadsheet r c).dependencies

/-- The loop of `evaluate_formula` goes on to the next component after this
one: the component is a number, or a reference to a cell of the grid that
holds no formula and, if it is a Number cell, has a raw text. -/
def Passed (s : Model) (comp : List Char) : Prop :=
  is_number comp = true ∨
    (inBounds (ref_row comp) (ref_col comp) = true ∧
      (s.spreadsheet (ref_row comp) (ref_col comp)).type ≠ valueType.FORMULA ∧
      ((s.spreadsheet (ref_row comp) (ref_col comp)).type = valueType.NUMBER →
        (s.spreadsheet (ref_row comp) (ref_col comp)).value ≠ none))

/-- The loop of `evaluate_formula` for the cell `(drow, dcol)`, at the component
`comp` with `strtok` at `save`, comes to a reference to `(drow, dcol)` itself
before it comes to a reference to a Formula cell or to the end: the current
component is that reference (`hit`), or the loop goes on after it (`skip`). -/
inductive SelfLoop (s : Model) (drow dcol : Int) : List Char → List Char → Prop where
  | hit (comp save : List Char) :
      is_number comp = false → ref_row comp = drow → ref_col comp = dcol →
      SelfLoop s drow dcol comp save
  | skip (comp save next rest : List Char) :
      Passed s comp → strtok save = (some next, rest) → SelfLoop s drow dcol next rest →
      SelfLoop s drow dcol comp save

/-- The loop of `evaluate_formula`, at the component `comp` with `strtok` at
`save`, comes to a component that is no number and names a cell outside the
grid before it comes to a reference to a Formula cell or to the end: the
current component is that one (`hit`), or the loop goes on after it (`skip`). -/
inductive OutsideLoop (s : Model) : List Char → List Char → Prop where
  | hit (comp save : List Char) :
      is_number comp = false → inBounds (ref_row comp) (ref_col comp) = false →
      OutsideLoop s comp save
  | skip (comp save next rest : List Char) :
      Passed s comp → strtok save = (some next, rest) → OutsideLoop s next rest →
      OutsideLoop s comp save

/-- All the components `strtok` yields from the position `x` on. -/
def components (x : List Char) : List (List Char) := tokens (x.length + 1) x

/-- The running sum with one more term, in the words of the statement about
sums rather than of the source: a literal adds its value, a reference to a
Number cell adds the value of the text that cell displays, any other reference
adds nothing. -/
def add_term (s : Model) (acc : Dbl) (comp : List Char) : Dbl :=
  if is_number comp then acc + (strtod comp).1
  else
    match (s.spreadsheet (ref_row comp) (ref_col comp)).type with
    | .NUMBER =>
      acc + (strtod (((s.spreadsheet (ref_row comp) (ref_col comp)).computed_value).getD [])).1
    | _ => acc

/-- The sum of the terms of a formula, in the words of the statement about
sums rather than of the source, starting from zero. -/
def sum_of_terms (s : Model) (comps : List (List Char)) : Dbl :=
  comps.foldl (add_term s) Dbl.zero

/-- Every Number cell has its computed text as raw text. -/
def NumVal (s : Model) : Prop :=
  ∀ r c, (s.spreadsheet r c).type = valueType.NUMBER →
    (s.spreadsheet r c).value = (s.spreadsheet r c).computed_value

/-- The component is a number or a reference to a cell of the grid that holds
no formula. -/
def Simple (s : Model) (comp : List Char) : Prop :=
  is_number comp = true ∨
    (inBounds (ref_row comp) (ref_col comp) = true ∧
      (s.spreadsheet (ref_row comp) (ref_col comp)).type ≠ valueType.FORMULA)

/-! ## What evaluation and propagation leave unchanged -/

theorem SameContent.refl_content (s : Model) : SameContent s s :=
  ⟨fun _ _ => rfl, fun _ _ => rfl, fun _ _ => rfl, fun _ _ => List.suffix_refl _⟩

theorem SameContent.trans_content {s t u : Model} (h : SameContent s t) (k : SameContent t u) :
    SameContent s u :=
  ⟨fun r c => (k.type_eq r c).trans (h.type_eq r c),
   fun r c => (k.value_eq r c).trans (h.value_eq r c),
   fun r c => (k.formula_eq r c).trans (h.formula_eq r c),
   fun r c => (h.deps_suffix r c).trans (k.deps_suffix r c)⟩

theorem SameShown.refl_shown (s : Model) : SameShown s s := ⟨fun _ _ => rfl, rfl⟩

theorem SameShown.trans_shown {s t u : Model} (h : SameShown s t) (k : SameShown t u) :
    SameShown s u :=
  ⟨fun r c => (k.computed_eq r c).trans (h.computed_eq r c), k.display_eq.trans h.display_eq⟩

@[simp] theorem setCell_same (s : Model) (row col : Int) (c : cell) :
    (setCell s row col c).spreadsheet row col = c := by
  simp [setCell]

theorem setCell_other (s : Model) (row col : Int) (c : cell) (r k : Int)
    (h : ¬ (r = row ∧ k = col)) : (setCell s row col c).spreadsheet r k = s.spreadsheet r k := by
  simp [setCell, h]

@[simp] theorem setCell_display (s : Model) (row col : Int) (c : cell) :
    (setCell s row col c).display = s.display := rfl

@[simp] theorem setCell_strtok_save (s : Model) (row col : Int) (c : cell) :
    (setCell s row col c).strtok_save = s.strtok_save := rfl

/-- Recording a dependency changes one dependents list, by putting a node in
front, and nothing else. -/
theorem add_dependency_frame (s : Model) (row col drow dcol : Int) :
    SameContent s (add_dependency s row col drow dcol) ∧
    SameShown s (add_dependency s row col drow dcol) := by
  unfold add_dependency
  split
  · exact ⟨SameContent.refl_content _, SameShown.refl_shown _⟩
  · refine ⟨⟨?_, ?_, ?_, ?_⟩, ⟨?_, rfl⟩⟩ <;> intro r c <;> by_cases h : r = row ∧ c = col
    all_goals first
      | (obtain ⟨rfl, rfl⟩ := h; simp)
      | simp [setCell_other _ _ _ _ _ _ h]

theorem strtok_save_frame (s : Model) (save : List Char) :
    SameContent s { s with strtok_save := save } ∧ SameShown s { s with strtok_save := save } :=
  ⟨⟨fun _ _ => rfl, fun _ _ => rfl, fun _ _ => rfl, fun _ _ => List.suffix_refl _⟩,
   ⟨fun _ _ => rfl, rfl⟩⟩

/-- A state that differs in the position of `strtok` only has the same cells
and the same display log. -/
theorem grid_frame (s t : Model) (h : t.spreadsheet = s.spreadsheet) (hd : t.display = s.display) :
    SameContent s t ∧ SameShown s t :=
  ⟨⟨fun _ _ => by rw [h], fun _ _ => by rw [h], fun _ _ => by rw [h],
    fun _ _ => by rw [h]⟩, ⟨fun _ _ => by rw [h], hd⟩⟩

@[simp] theorem setCell_strtok_in_copy (s : Model) (row col : Int) (c : cell) :
    (setCell s row col c).strtok_in_copy = s.strtok_in_copy := rfl


/-! ## The steps of the evaluator -/

theorem evaluate_formula_zero (f : List Char) (drow dcol : Int) (s : Model) :
    evaluate_formula 0 f drow dcol s = .error .outOfFuel := by
  simp [evaluate_formula]

theorem evaluate_formula_succ (fuel : Nat) (c : Char) (body : List Char) (drow dcol : Int)
    (s : Model) :
    evaluate_formula (fuel + 1) (c :: body) drow dcol s =
      evaluate_formula_loop fuel (strtok body).1 Dbl.zero drow dcol
        { s with strtok_save := (strtok body).2, strtok_in_copy := true } := by
  simp [evaluate_formula]

theorem loop_zero (comp : Option (List Char)) (res : Dbl) (drow dcol : Int) (s : Model) :
    evaluate_formula_loop 0 comp res drow dcol s = .error .outOfFuel := by
  simp [evaluate_formula_loop]

theorem loop_none (fuel : Nat) (res : Dbl) (drow dcol : Int) (s : Model) :
    evaluate_formula_loop (fuel + 1) none res drow dcol s = .ok (res, s) := by
  simp [evaluate_formula_loop]

theorem loop_number (fuel : Nat) (comp : List Char) (res : Dbl) (drow dcol : Int) (s : Model)
    (h : is_number comp = true) :
    evaluate_formula_loop (fuel + 1) (some comp) res drow dcol s =
      evaluate_formula_loop fuel (strtok s.strtok_save).1 (res + (strtod comp).1) drow dcol
        { s with strtok_save := (strtok s.strtok_save).2 } := by
  simp [evaluate_formula_loop, h]

theorem loop_out_of_bounds (fuel : Nat) (comp : List Char) (res : Dbl) (drow dcol : Int)
    (s : Model) (h : is_number comp = false)
    (hb : inBounds (ref_row comp) (ref_col comp) = false) :
    evaluate_formula_loop (fuel + 1) (some comp) res drow dcol s = .error .outOfBounds := by
  simp [evaluate_formula_loop, h, hb]

theorem loop_ref_number (fuel : Nat) (comp : List Char) (res : Dbl) (drow dcol : Int)
    (s : Model) (v : List Char) (h : is_number comp = false)
    (hb : inBounds (ref_row comp) (ref_col comp) = true)
    (hty : (s.spreadsheet (ref_row comp) (ref_col comp)).type = valueType.NUMBER)
    (hv : (s.spreadsheet (ref_row comp) (ref_col comp)).value = some v) :
    evaluate_formula_loop (fuel + 1) (some comp) res drow dcol s =
      evaluate_formula_loop fuel (strtok s.strtok_save).1 (res + (strtod v).1) drow dcol
        { add_dependency s (ref_row comp) (ref_col comp) drow dcol with
          strtok_save := (strtok s.strtok_save).2 } := by
  simp [evaluate_formula_loop, h, hb, hty, hv]

theorem loop_ref_text (fuel : Nat) (comp : List Char) (res : Dbl) (drow dcol : Int)
    (s : Model) (h : is_number comp = false)
    (hb : inBounds (ref_row comp) (ref_col comp) = true)
    (hty : (s.spreadsheet (ref_row comp) (ref_col comp)).type = valueType.TEXT) :
    evaluate_formula_loop (fuel + 1) (some comp) res drow dcol s =
      evaluate_formula_loop fuel (strtok s.strtok_save).1 res drow dcol
        { add_dependency s (ref_row comp) (ref_col comp) drow dcol with
          strtok_save := (strtok s.strtok_save).2 } := by
  simp [evaluate_formula_loop, h, hb, hty]

theorem loop_ref_formula (fuel : Nat) (comp : List Char) (res : Dbl) (drow dcol : Int)
    (s : Model) (f : List Char) (h : is_number comp = false)
    (hb : inBounds (ref_row comp) (ref_col comp) = true)
    (hty : (s.spreadsheet (ref_row comp) (ref_col comp)).type = valueType.FORMULA)
    (hf : (s.spreadsheet (ref_row comp) (ref_col comp)).formula = some f) :
    evaluate_formula_loop (fuel + 1) (some comp) res drow dcol s =
      match evaluate_formula fuel f (ref_row comp) (ref_col comp) s with
      | .ok (v, s1) =>
        match strtok_after_call f (ref_row comp) (ref_col comp) drow dcol s1 with
        | .ok s2 =>
          evaluate_formula_loop fuel (strtok s2.strtok_save).1 (res + v) drow dcol
            { add_dependency s2 (ref_row comp) (ref_col comp) drow dcol with
              strtok_save := (strtok s2.strtok_save).2 }
        | .error e => .error e
      | .error e => .error e := by
  simp only [evaluate_formula_loop, h, hb, hty, hf, if_true, Bool.false_eq_true, if_false]
  cases evaluate_formula fuel f (ref_row comp) (ref_col comp) s with
  | error e => rfl
  | ok p =>
    obtain ⟨v, s1⟩ := p
    simp only
    cases strtok_after_call f (ref_row comp) (ref_col comp) drow dcol s1 with
    | error e => rfl
    | ok s2 => rfl

theorem loop_ref_number_null (fuel : Nat) (comp : List Char) (res : Dbl) (drow dcol : Int)
    (s : Model) (h : is_number comp = false)
    (hb : inBounds (ref_row comp) (ref_col comp) = true)
    (hty : (s.spreadsheet (ref_row comp) (ref_col comp)).type = valueType.NUMBER)
    (hv : (s.spreadsheet (ref_row comp) (ref_col comp)).value = none) :
    evaluate_formula_loop (fuel + 1) (some comp) res drow dcol s = .error .nullPointer := by
  simp [evaluate_formula_loop, h, hb, hty, hv]

theorem loop_ref_formula_null (fuel : Nat) (comp : List Char) (res : Dbl) (drow dcol : Int)
    (s : Model) (h : is_number comp = false)
    (hb : inBounds (ref_row comp) (ref_col comp) = true)
    (hty : (s.spreadsheet (ref_row comp) (ref_col comp)).type = valueType.FORMULA)
    (hf : (s.spreadsheet (ref_row comp) (ref_col comp)).formula = none) :
    evaluate_formula_loop (fuel + 1) (some comp) res drow dcol s = .error .nullPointer := by
  simp [evaluate_formula_loop, h, hb, hty, hf]

theorem strtok_nil : strtok [] = (none, []) := rfl

theorem strtok_none (x : List Char) (h : (strtok x).1 = none) : (strtok x).2 = [] := by
  unfold strtok at h ⊢
  split
  · rfl
  · rename_i c cs heq
    rw [heq] at h
    simp at h

/-! ## The position of `strtok` after a recursive call -/

/-- After a recursive call the position of `strtok` is no longer in the copy
of a running call; cells and display log are as the call left them. -/
theorem strtok_after_call_ok (f : List Char) (row col drow dcol : Int) (s t : Model)
    (h : strtok_after_call f row col drow dcol s = .ok t) :
    t.spreadsheet = s.spreadsheet ∧ t.display = s.display ∧ t.strtok_in_copy = false := by
  unfold strtok_after_call at h
  split at h
  · split at h
    · simp only [Except.ok.injEq] at h
      subst h
      exact ⟨rfl, rfl, rfl⟩
    · split at h
      · simp at h
      · split at h
        · split at h
          · simp only [Except.ok.injEq] at h
            subst h
            exact ⟨rfl, rfl, rfl⟩
          · simp at h
        · simp at h
  · rename_i hown
    simp only [Except.ok.injEq] at h
    subst h
    exact ⟨rfl, rfl, by simpa using hown⟩

theorem int_bytes_small (x : Int) (h0 : 0 ≤ x) (h1 : x < 10) : int_bytes x = [x.toNat, 0, 0, 0] := by
  interval_cases x <;> rfl

/-- The strings that start in the bytes of two small coordinates. -/
theorem c_string_small (a b n : Nat) (t : List Char)
    (h : c_string (([a, 0, 0, 0] ++ [b, 0, 0, 0]).drop n) = some t) :
    t = [] ∨ (a ≠ 0 ∧ t = [Char.ofNat a]) ∨ (b ≠ 0 ∧ t = [Char.ofNat b]) := by
  rcases n with _ | _ | _ | _ | _ | _ | _ | _ | n
  · simp only [List.cons_append, List.nil_append, List.drop_zero, c_string] at h
    by_cases ha : a = 0
    · simp [ha] at h
      exact Or.inl h
    · simp [ha] at h
      exact Or.inr (Or.inl ⟨ha, h.symm⟩)
  · simp [c_string] at h
    exact Or.inl h
  · simp [c_string] at h
    exact Or.inl h
  · simp [c_string] at h
    exact Or.inl h
  · simp only [List.cons_append, List.nil_append, List.drop_succ_cons, List.drop_zero,
      c_string] at h
    by_cases hb : b = 0
    · simp [hb] at h
      exact Or.inl h
    · simp [hb] at h
      exact Or.inr (Or.inr ⟨hb, h.symm⟩)
  · simp [c_string] at h
    exact Or.inl h
  · simp [c_string] at h
    exact Or.inl h
  · simp [c_string] at h
    exact Or.inl h
  · simp [c_string] at h

/-- A component that is one byte of a coordinate of the grid is no number, and
read as a reference it names a row outside the grid. -/
theorem small_component (n : Nat) (h0 : n ≠ 0) (h1 : n < 10) :
    strtok [Char.ofNat n] = (some [Char.ofNat n], []) ∧ is_number [Char.ofNat n] = false ∧
      inBounds (ref_row [Char.ofNat n]) (ref_col [Char.ofNat n]) = false := by
  interval_cases n
  · exact absurd rfl h0
  all_goals decide

/-- After a recursive call made while the formula of a cell of the grid is
evaluated, `strtok` is at the end of a string or at one byte of a coordinate. -/
theorem strtok_after_call_grid (f : List Char) (row col drow dcol : Int) (s t : Model)
    (hb : inBounds drow dcol = true) (hsv : s.strtok_save = [])
    (h : strtok_after_call f row col drow dcol s = .ok t) : AfterCall t := by
  simp only [inBounds, ROWS, COLS, Bool.and_eq_true, decide_eq_true_eq] at hb
  obtain ⟨⟨⟨h1, h2⟩, h3⟩, h4⟩ := hb
  unfold strtok_after_call at h
  split at h
  · split at h
    · simp only [Except.ok.injEq] at h
      subst h
      exact Or.inl hsv
    · split at h
      · simp at h
      · rw [int_bytes_small drow h1 h2, int_bytes_small dcol h3 h4] at h
        split at h
        · rename_i x hx
          split at h
          · simp only [Except.ok.injEq] at h
            subst h
            rcases c_string_small _ _ _ _ hx with e | ⟨hne, e⟩ | ⟨hne, e⟩
            · exact Or.inl e
            · refine Or.inr ⟨Char.ofNat drow.toNat, e, ?_⟩
              exact small_component _ hne (by omega)
            · refine Or.inr ⟨Char.ofNat dcol.toNat, e, ?_⟩
              exact small_component _ hne (by omega)
          · simp at h
        · simp at h
  · simp only [Except.ok.injEq] at h
    subst h
    exact Or.inl hsv

/-- After a recursive call made while the formula of a cell of the grid is
evaluated, the loop ends: `strtok` returns `NULL`, or a component that makes
line 59 index the grid outside its rows. -/
theorem loop_after_call (fuel : Nat) (res : Dbl) (row col drow dcol : Int) (t : Model)
    (h : AfterCall t) :
    evaluate_formula_loop (fuel + 1) (strtok t.strtok_save).1 res drow dcol
        { add_dependency t row col drow dcol with strtok_save := (strtok t.strtok_save).2 }
      = .ok (res, { add_dependency t row col drow dcol with strtok_save := [] }) ∨
    evaluate_formula_loop (fuel + 1) (strtok t.strtok_save).1 res drow dcol
        { add_dependency t row col drow dcol with strtok_save := (strtok t.strtok_save).2 }
      = .error .outOfBounds := by
  rcases h with h | ⟨c, h, h1, h2, h3⟩
  · left
    rw [h, strtok_nil, loop_none]
  · right
    rw [h, h1]
    exact loop_out_of_bounds fuel [c] res drow dcol _ h2 h3

/-- Evaluating a formula changes only dependents lists and the position of
`strtok`. -/
theorem evaluate_frame (fuel : Nat) :
    (∀ f drow dcol s v t, evaluate_formula fuel f drow dcol s = .ok (v, t) →
      SameContent s t ∧ SameShown s t) ∧
    (∀ comp res drow dcol s v t, evaluate_formula_loop fuel comp res drow dcol s = .ok (v, t) →
      SameContent s t ∧ SameShown s t) := by
  induction fuel with
  | zero =>
    constructor
    · intro f drow dcol s v t h
      simp [evaluate_formula] at h
    · intro comp res drow dcol s v t h
      simp [evaluate_formula_loop] at h
  | succ n ih =>
    obtain ⟨ihE, ihL⟩ := ih
    have step : ∀ (s1 : Model) (row col drow dcol : Int) (x : Option (List Char)) (res : Dbl)
        (y : List Char) (v : Dbl) (t : Model),
        evaluate_formula_loop n x res drow dcol
          { add_dependency s1 row col drow dcol with strtok_save := y } = .ok (v, t) →
        SameContent s1 t ∧ SameShown s1 t := by
      intro s1 row col drow dcol x res y v t h
      have h1 := ihL _ _ _ _ _ _ _ h
      have h0 := add_dependency_frame s1 row col drow dcol
      have h2 := strtok_save_frame (add_dependency s1 row col drow dcol) y
      exact ⟨(h0.1.trans_content h2.1).trans_content h1.1,
        (h0.2.trans_shown h2.2).trans_shown h1.2⟩
    constructor
    · intro f drow dcol s v t h
      cases f with
      | nil => simp [evaluate_formula] at h
      | cons c body =>
        rw [evaluate_formula_succ] at h
        have h1 := ihL _ _ _ _ _ _ _ h
        have h0 := grid_frame s
          { s with strtok_save := (strtok body).2, strtok_in_copy := true } rfl rfl
        exact ⟨h0.1.trans_content h1.1, h0.2.trans_shown h1.2⟩
    · intro comp res drow dcol s v t h
      cases comp with
      | none =>
        simp only [evaluate_formula_loop, Except.ok.injEq, Prod.mk.injEq] at h
        obtain ⟨-, rfl⟩ := h
        exact ⟨SameContent.refl_content _, SameShown.refl_shown _⟩
      | some comp =>
        by_cases hnum : is_number comp = true
        · rw [loop_number _ _ _ _ _ _ hnum] at h
          have h1 := ihL _ _ _ _ _ _ _ h
          have h0 := strtok_save_frame s (strtok s.strtok_save).2
          exact ⟨h0.1.trans_content h1.1, h0.2.trans_shown h1.2⟩
        · have hnum' : is_number comp = false := by simpa using hnum
          by_cases hb : inBounds (ref_row comp) (ref_col comp) = true
          · cases htype : (s.spreadsheet (ref_row comp) (ref_col comp)).type with
            | TEXT =>
              rw [loop_ref_text _ _ _ _ _ s hnum' hb htype] at h
              exact step _ _ _ _ _ _ _ _ _ _ h
            | NUMBER =>
              cases hval : (s.spreadsheet (ref_row comp) (ref_col comp)).value with
              | none =>
                rw [loop_ref_number_null _ _ _ _ _ s hnum' hb htype hval] at h
                simp at h
              | some w =>
                rw [loop_ref_number _ _ _ _ _ s w hnum' hb htype hval] at h
                exact step _ _ _ _ _ _ _ _ _ _ h
            | FORMULA =>
              cases hfor : (s.spreadsheet (ref_row comp) (ref_col comp)).formula with
              | none =>
                rw [loop_ref_formula_null _ _ _ _ _ s hnum' hb htype hfor] at h
                simp at h
              | some f =>
                rw [loop_ref_formula _ _ _ _ _ s f hnum' hb htype hfor] at h
                cases hev : evaluate_formula n f (ref_row comp) (ref_col comp) s with
                | error e =>
                  rw [hev] at h
                  simp at h
                | ok q =>
                  obtain ⟨w, s1⟩ := q
                  rw [hev] at h
                  simp only at h
                  cases hac : strtok_after_call f (ref_row comp) (ref_col comp) drow dcol s1 with
                  | error e =>
                    rw [hac] at h
                    simp at h
                  | ok s2 =>
                    rw [hac] at h
                    simp only at h
                    have h1 := ihE _ _ _ _ _ _ hev
                    obtain ⟨g1, g2, -⟩ := strtok_after_call_ok _ _ _ _ _ _ _ hac
                    have h2 := grid_frame s1 s2 g1 g2
                    have h3 := step _ _ _ _ _ _ _ _ _ _ h
                    exact ⟨(h1.1.trans_content h2.1).trans_content h3.1,
                      (h1.2.trans_shown h2.2).trans_shown h3.2⟩
          · have hb' : inBounds (ref_row comp) (ref_col comp) = false := by simpa using hb
            rw [loop_out_of_bounds _ _ _ _ _ s hnum' hb'] at h
            simp at h

theorem update_cell_display_content (row col : Int) (text : List Char) (s : Model) :
    SameContent s (update_cell_display row col text s) :=
  ⟨fun _ _ => rfl, fun _ _ => rfl, fun _ _ => rfl, fun _ _ => List.suffix_refl _⟩

/-- Storing a computed text in a cell keeps kinds, raw texts, formula sources
and dependents lists. -/
theorem store_computed_content (s : Model) (row col : Int) (text : Option (List Char)) :
    SameContent s (setCell s row col { s.spreadsheet row col with computed_value := text }) := by
  refine ⟨?_, ?_, ?_, ?_⟩ <;> intro r c <;> by_cases h : r = row ∧ c = col
  all_goals first
    | (obtain ⟨rfl, rfl⟩ := h; simp)
    | simp [setCell_other _ _ _ _ _ _ h]

/-- Recomputing dependents changes no kind, raw text or formula source, and
removes no dependency. -/
theorem update_dependents_loop_content (fuel : Nat) (l : List (Int × Int)) :
    ∀ s t, update_dependents_loop fuel l s = .ok t → SameContent s t := by
  induction l with
  | nil =>
    intro s t h
    simp only [update_dependents_loop, Except.ok.injEq] at h
    subst h
    exact SameContent.refl_content _
  | cons d rest ih =>
    intro s t h
    obtain ⟨row, col⟩ := d
    simp only [update_dependents_loop] at h
    split at h
    · split at h
      · split at h
        · split at h
          · rename_i result s1 hev
            split at h
            · rename_i result_str hstr
              have h1 := ((evaluate_frame fuel).1 _ _ _ _ _ _ hev).1
              have h2 := store_computed_content s1 row col (some result_str)
              have h3 := update_cell_display_content row col result_str
                (setCell s1 row col { s1.spreadsheet row col with computed_value := some result_str })
              exact ((h1.trans_content h2).trans_content h3).trans_content (ih _ _ h)
            · simp at h
          · simp at h
        · simp at h
      · exact ih _ _ h
    · simp at h

theorem update_dependents_content (fuel : Nat) (row col : Int) (s t : Model)
    (h : update_dependents fuel row col s = .ok t) : SameContent s t := by
  unfold update_dependents at h
  split at h
  · exact update_dependents_loop_content fuel _ _ _ h
  · simp at h

theorem show_and_update_content (fuel : Nat) (row col : Int) (s t : Model)
    (h : show_and_update fuel row col s = .ok t) : SameContent s t :=
  (update_cell_display_content row col _ s).trans_content (update_dependents_content fuel row col _ _ h)


/-! ## Classification of the input text (C1) -/

/-- C1. Whenever `set_cell_value` returns, the coordinates were inside the grid
and the cell's kind is Formula if the text begins with `=`, otherwise Number if
`is_number` accepts the whole text, otherwise Text; a Formula cell holds the
text as raw text and as formula source, a Text cell holds it as raw text. -/
theorem set_cell_value_classifies (fuel : Nat) (row col : Int) (text : List Char)
    (s t : Model) (h : set_cell_value fuel row col text s = .ok t) :
    inBounds row col = true ∧
    (t.spreadsheet row col).type =
      (if text.head? = some '=' then valueType.FORMULA
       else if is_number text = true then valueType.NUMBER else valueType.TEXT) ∧
    ((t.spreadsheet row col).type = valueType.FORMULA →
      (t.spreadsheet row col).value = some text ∧
      (t.spreadsheet row col).formula = some text) ∧
    ((t.spreadsheet row col).type = valueType.TEXT →
      (t.spreadsheet row col).value = some text) := by
  unfold set_cell_value at h
  split at h
  · rename_i hb
    refine ⟨hb, ?_⟩
    split at h
    · rename_i heq
      split at h
      · rename_i result s1 hev
        split at h
        · have h1 := ((evaluate_frame fuel).1 _ _ _ _ _ _ hev).1
          have h2 := show_and_update_content fuel row col _ _ h
          have ht := (h2.type_eq row col).trans (by simpa using h1.type_eq row col)
          have hv := h2.value_eq row col
          have hf := (h2.formula_eq row col).trans (by simpa using h1.formula_eq row col)
          simp only [setCell_same] at ht hv hf
          simp [heq, ht, hv, hf]
        · simp at h
      · simp at h
    · rename_i hne
      split at h
      · rename_i hnum
        split at h
        · have h2 := show_and_update_content fuel row col _ _ h
          have ht := h2.type_eq row col
          simp only [setCell_same] at ht
          simp [hne, hnum, ht]
        · simp at h
      · rename_i hnum
        have h2 := show_and_update_content fuel row col _ _ h
        have ht := h2.type_eq row col
        have hv := h2.value_eq row col
        simp only [setCell_same] at ht hv
        simp [hne, hnum, ht, hv]
  · simp at h

theorem returns_iff {α : Type} (e : Except Fault α) : returns e = true ↔ ∃ a, e = .ok a := by
  cases e <;> simp [returns]

theorem set_cell_value_classifies_witness :
    ∃ t, set_cell_value 4 0 1 "=A1+5".toList model_init = .ok t ∧
      (t.spreadsheet 0 1).type = valueType.FORMULA ∧
      (t.spreadsheet 0 1).value = some "=A1+5".toList := by
  obtain ⟨t, ht⟩ := (returns_iff _).1
    (show returns (set_cell_value 4 0 1 "=A1+5".toList model_init) = true by decide)
  have h := set_cell_value_classifies 4 0 1 "=A1+5".toList model_init t ht
  exact ⟨t, ht, by simpa using h.2.1, (h.2.2.1 (by simpa using h.2.1)).1⟩

/-! ## A formula over a Number cell (C2) -/

/-- Dependents that are inside the grid and are not Formula cells are passed
over by `update_dependents`. -/
theorem update_dependents_loop_skip (fuel : Nat) (l : List (Int × Int)) (s : Model)
    (h : ∀ d ∈ l, inBounds d.1 d.2 = true ∧ (s.spreadsheet d.1 d.2).type ≠ valueType.FORMULA) :
    update_dependents_loop fuel l s = .ok s := by
  induction l with
  | nil => rfl
  | cons d rest ih =>
    obtain ⟨row, col⟩ := d
    have hd := h (row, col) (List.mem_cons_self _ _)
    simp only [update_dependents_loop, hd.1, hd.2, if_true, if_false]
    exact ih (fun d hmem => h d (List.mem_cons_of_mem _ hmem))

theorem evaluate_A1_plus_5 (fuel : Nat) (r c : Int) (s : Model)
    (hty : (s.spreadsheet 0 0).type = valueType.NUMBER)
    (hval : (s.spreadsheet 0 0).value = some ['3', '.', '0']) :
    evaluate_formula (fuel + 4) ['=', 'A', '1', '+', '5'] r c s =
      .ok (Dbl.fin false 4503599627370496 (-49),
        { add_dependency { s with strtok_save := ['5'], strtok_in_copy := true } 0 0 r c with
          strtok_save := [] }) := by
  have e1 : strtok ['A', '1', '+', '5'] = (some ['A', '1'], ['5']) := by decide
  have e2 : is_number ['A', '1'] = false := by decide
  have e3 : ref_row ['A', '1'] = 0 := by decide
  have e4 : ref_col ['A', '1'] = 0 := by decide
  have e5 : strtok ['5'] = (some ['5'], []) := by decide
  have e6 : is_number ['5'] = true := by decide
  have e7 : strtok [] = (none, []) := by decide
  have e8 : Dbl.zero + (strtod ['3', '.', '0']).1 + (strtod ['5']).1
      = Dbl.fin false 4503599627370496 (-49) := by decide
  rw [evaluate_formula_succ, e1]
  rw [loop_ref_number (fuel + 2) ['A', '1'] _ _ _ _ ['3', '.', '0'] e2 (by rw [e3, e4]; decide)
    (by rw [e3, e4]; exact hty) (by rw [e3, e4]; exact hval)]
  simp only [e3, e4, e5]
  rw [loop_number _ _ _ _ _ _ e6]
  simp only [e7, e8]
  rw [loop_none]

theorem add_dependency_other (s : Model) (row col drow dcol r k : Int)
    (h : ¬ (r = row ∧ k = col)) :
    (add_dependency s row col drow dcol).spreadsheet r k = s.spreadsheet r k := by
  unfold add_dependency
  split
  · rfl
  · exact setCell_other _ _ _ _ _ _ h

theorem add_dependency_type (s : Model) (row col drow dcol r k : Int) :
    ((add_dependency s row col drow dcol).spreadsheet r k).type = (s.spreadsheet r k).type :=
  (add_dependency_frame s row col drow dcol).1.type_eq r k

/-- C2, as amended. In every state where A1 is the Number cell `"3.0"`, for
every cell `(r, c)` of the grid other than A1 whose dependents are cells of the
grid that hold no formula, `set_cell_value(r, c, "=A1+5")` returns; the cell's
computed text is then `"8.0"`, which is what the display was last told for
`(r, c)`, and `get_textual_value(r, c)` returns the source text `"=A1+5"`. -/
theorem formula_over_number_cell (fuel : Nat) (r c : Int) (s : Model)
    (hb : inBounds r c = true) (hne : ¬ (r = 0 ∧ c = 0))
    (hty : (s.spreadsheet 0 0).type = valueType.NUMBER)
    (hval : (s.spreadsheet 0 0).value = some "3.0".toList)
    (hdeps : ∀ d ∈ (s.spreadsheet r c).dependencies,
      inBounds d.1 d.2 = true ∧ d ≠ (r, c) ∧ (s.spreadsheet d.1 d.2).type ≠ valueType.FORMULA) :
    ∃ t, set_cell_value (fuel + 4) r c "=A1+5".toList s = .ok t ∧
      (t.spreadsheet r c).computed_value = some "8.0".toList ∧
      t.display.head? = some (r, c, "8.0".toList) ∧
      get_textual_value r c t = .ok "=A1+5".toList := by
  have hne' : ¬ ((0 : Int) = r ∧ (0 : Int) = c) := fun h => hne ⟨h.1.symm, h.2.symm⟩
  have t1 : "=A1+5".toList = ['=', 'A', '1', '+', '5'] := rfl
  have t2 : "8.0".toList = ['8', '.', '0'] := rfl
  have t3 : "3.0".toList = ['3', '.', '0'] := rfl
  have e1 : sprintf_1f (Dbl.fin false 4503599627370496 (-49)) = .ok ['8', '.', '0'] := by decide
  rw [t1, t2]
  rw [t3] at hval
  have hev := evaluate_A1_plus_5 fuel r c
    (setCell s r c { s.spreadsheet r c with
      type := valueType.FORMULA, formula := some ['=', 'A', '1', '+', '5'] })
    (by rw [setCell_other _ _ _ _ _ _ hne']; exact hty)
    (by rw [setCell_other _ _ _ _ _ _ hne']; exact hval)
  simp only [set_cell_value, hb, if_true, List.head?_cons, hev, e1, show_and_update,
    update_dependents, setCell_same, Option.getD_some]
  rw [update_dependents_loop_skip]
  · refine ⟨_, rfl, ?_, ?_, ?_⟩
    · simp [update_cell_display]
    · simp [update_cell_display]
    · simp [get_textual_value, hb, update_cell_display, add_dependency_type]
  · intro d hd
    simp only [update_cell_display, setCell_same] at hd ⊢
    rw [add_dependency_other _ _ _ _ _ _ _ hne] at hd
    simp only [setCell_same] at hd
    obtain ⟨h1, h2, h3⟩ := hdeps d hd
    refine ⟨h1, ?_⟩
    have hd' : ¬ (d.1 = r ∧ d.2 = c) := fun h => h2 (Prod.ext h.1 h.2)
    rw [setCell_other _ _ _ _ _ _ hd']
    simp only [add_dependency_type]
    rw [setCell_other _ _ _ _ _ _ hd']
    exact h3

/-- C2, the claim as stated fails: with A1 the number `"3.0"`, after
`set_cell_value(B1, "=A1+5")` the call `get_textual_value(B1)` returns the
source text `"=A1+5"`, which is not `"8.0"`. -/
theorem get_textual_value_not_computed :
    (set_cell_value 4 0 0 "3.0".toList model_init >>= set_cell_value 4 0 1 "=A1+5".toList
      >>= get_textual_value 0 1) = .ok "=A1+5".toList ∧
    "=A1+5".toList ≠ "8.0".toList := by
  decide

theorem formula_over_number_cell_witness :
    ∃ t, set_cell_value 4 0 1 "=A1+5".toList
        (final (set_cell_value 0 0 0 "3.0".toList model_init)) = .ok t ∧
      (t.spreadsheet 0 1).computed_value = some "8.0".toList ∧
      t.display.head? = some (0, 1, "8.0".toList) ∧
      get_textual_value 0 1 t = .ok "=A1+5".toList :=
  formula_over_number_cell 0 0 1 (final (set_cell_value 0 0 0 "3.0".toList model_init))
    (by decide) (by decide) (by decide) (by decide)
    (by
      have e : ((final (set_cell_value 0 0 0 "3.0".toList model_init)).spreadsheet 0 1).dependencies
          = [] := by decide
      rw [e]
      intro d hd
      cases hd)

/-! ## Terms after a reference to a Formula cell (C3) -/

/-- Evaluating `"=2+3"` changes the position of `strtok` only, and leaves it in
the copy of the formula. -/
theorem evaluate_2_plus_3 (fuel : Nat) (drow dcol : Int) (s t : Model) (v : Dbl)
    (h : evaluate_formula fuel ['=', '2', '+', '3'] drow dcol s = .ok (v, t)) :
    t = { s with strtok_save := [], strtok_in_copy := true } := by
  have e1 : strtok ['2', '+', '3'] = (some ['2'], ['3']) := by decide
  have e2 : is_number ['2'] = true := by decide
  have e3 : strtok ['3'] = (some ['3'], []) := by decide
  have e4 : is_number ['3'] = true := by decide
  rcases fuel with _ | _ | _ | _ | n
  · rw [evaluate_formula_zero] at h
    simp at h
  · rw [evaluate_formula_succ, e1, loop_zero] at h
    simp at h
  · rw [evaluate_formula_succ, e1, loop_number _ _ _ _ _ _ e2, loop_zero] at h
    simp at h
  · rw [evaluate_formula_succ, e1, loop_number _ _ _ _ _ _ e2] at h
    simp only [e3] at h
    rw [loop_number _ _ _ _ _ _ e4, loop_zero] at h
    simp at h
  · rw [evaluate_formula_succ, e1, loop_number _ _ _ _ _ _ e2] at h
    simp only [e3] at h
    rw [loop_number _ _ _ _ _ _ e4] at h
    simp only [strtok_nil] at h
    rw [loop_none] at h
    simp only [Except.ok.injEq, Prod.mk.injEq] at h
    exact h.2.symm

/-- With A1 = `"=2+3"`, no evaluation of `"=A1+1"` for B1 returns. -/
theorem evaluate_A1_plus_1 (fuel : Nat) (s : Model)
    (hty : (s.spreadsheet 0 0).type = valueType.FORMULA)
    (hfor : (s.spreadsheet 0 0).formula = some ['=', '2', '+', '3'])
    (hdeps : scan_finds s 0 0 = false) :
    returns (evaluate_formula fuel ['=', 'A', '1', '+', '1'] 0 1 s) = false := by
  have e1 : strtok ['A', '1', '+', '1'] = (some ['A', '1'], ['1']) := by decide
  have e2 : is_number ['A', '1'] = false := by decide
  have e3 : ref_row ['A', '1'] = 0 := by decide
  have e4 : ref_col ['A', '1'] = 0 := by decide
  have e5 : strtok [Char.ofNat 1] = (some [Char.ofNat 1], []) := by decide
  have e6 : is_number [Char.ofNat 1] = false := by decide
  have e7 : inBounds (ref_row [Char.ofNat 1]) (ref_col [Char.ofNat 1]) = false := by decide
  rcases fuel with _ | _ | n
  · rw [evaluate_formula_zero]
    rfl
  · rw [evaluate_formula_succ, e1, loop_zero]
    rfl
  · rw [evaluate_formula_succ, e1,
      loop_ref_formula n ['A', '1'] _ _ _ _ ['=', '2', '+', '3'] e2 (by rw [e3, e4]; decide)
        (by rw [e3, e4]; exact hty) (by rw [e3, e4]; exact hfor)]
    rw [e3, e4]
    cases hev : evaluate_formula n ['=', '2', '+', '3'] 0 0
        { s with strtok_save := ['1'], strtok_in_copy := true } with
    | error e => rfl
    | ok q =>
      obtain ⟨v, s1⟩ := q
      have hs1 := evaluate_2_plus_3 _ _ _ _ _ _ hev
      subst hs1
      have hac : strtok_after_call ['=', '2', '+', '3'] 0 0 0 1
          { s with strtok_save := [], strtok_in_copy := true }
          = .ok { s with strtok_save := [Char.ofNat 1], strtok_in_copy := false } := by
        have hd : scan_finds { s with strtok_save := [], strtok_in_copy := true } 0 0 = false :=
          hdeps
        have hc : c_string ((int_bytes 0 ++ int_bytes 1).drop ['=', '2', '+', '3'].length)
            = some [Char.ofNat 1] := by decide
        have hl : ¬ (16 ≤ ['=', '2', '+', '3'].length) := by decide
        have ha : ([Char.ofNat 1].all fun c => decide (c ≠ '+') && decide (c.toNat < 128))
            = true := by decide
        simp only [strtok_after_call, hd, hl, hc, ha, if_true, if_false, Bool.false_eq_true]
      simp only [hac, e5]
      cases n with
      | zero =>
        rw [evaluate_formula_zero] at hev
        simp at hev
      | succ m =>
        rw [loop_out_of_bounds m _ _ _ _ _ e6 e7]
        rfl

/-- C3, the code at the failing input.  With A1 = `"=2+3"`, which evaluates to
`"5.0"`, the call `set_cell_value(B1, "=A1+1")` does not give B1 the text
`"6.0"`, with any fuel.  When the recursive evaluation of A1's formula has
returned, `strtok` is at offset 4 of the freed copy of `"=2+3"`, where the new
node for B1 has the lowest byte of its column, 1; `strtok(NULL, "+")` returns
that byte as a component, lines 56-57 read it as row -49 and column -64, and
line 59 indexes `spreadsheet` outside the grid.  With A1 = `"=5"` the position
is at a zero byte of the node, `strtok` returns `NULL`, and B1 gets `"5.0"`:
the term `1` is not added. -/
theorem formula_reference_loses_terms :
    computed_text 0 0 (set_cell_value 10 0 0 "=2+3".toList model_init)
      = .ok (some "5.0".toList) ∧
    fault_of (set_cell_value 10 0 1 "=A1+1".toList sum_sheet) = some Fault.outOfBounds ∧
    c_string ((int_bytes 0 ++ int_bytes 1).drop "=2+3".toList.length) = some [Char.ofNat 1] ∧
    ref_row [Char.ofNat 1] = -49 ∧ ref_col [Char.ofNat 1] = -64 ∧
    (∀ fuel, computed_text 0 1 (set_cell_value fuel 0 1 "=A1+1".toList sum_sheet)
      ≠ .ok (some "6.0".toList)) ∧
    computed_text 0 1
      (set_cell_value 10 0 0 "=5".toList model_init >>= set_cell_value 10 0 1 "=A1+1".toList)
      = .ok (some "5.0".toList) := by
  refine ⟨by decide, by decide, by decide, by decide, by decide, ?_, by decide⟩
  intro fuel
  have t1 : "=A1+1".toList = ['=', 'A', '1', '+', '1'] := rfl
  have hb : inBounds 0 1 = true := by decide
  have hne : ¬ ((0 : Int) = 0 ∧ (0 : Int) = 1) := by decide
  have hev := evaluate_A1_plus_1 fuel
    (setCell sum_sheet 0 1 { sum_sheet.spreadsheet 0 1 with
      type := valueType.FORMULA, formula := some ['=', 'A', '1', '+', '1'] })
    (by rw [setCell_other _ _ _ _ _ _ hne]; decide)
    (by rw [setCell_other _ _ _ _ _ _ hne]; decide)
    (by simp only [scan_finds]; rw [setCell_other _ _ _ _ _ _ hne]; decide)
  rw [t1]
  simp only [set_cell_value, hb, if_true, List.head?_cons]
  revert hev
  cases evaluate_formula fuel ['=', 'A', '1', '+', '1'] 0 1
    (setCell sum_sheet 0 1 { sum_sheet.spreadsheet 0 1 with
      type := valueType.FORMULA, formula := some ['=', 'A', '1', '+', '1'] }) with
  | error e => intro _; simp [computed_text]
  | ok q => intro h; simp [returns] at h

/-! ## Propagation to direct dependents (C4) -/

/-- C4, the code at the spec's example and at the failing input.  With B1 =
`"=A1+1"`, setting A1 to `"10"` leaves B1 with the computed text `"11.0"`.  With
C1 = `"=1"` and B1 = `"=C1+A1"`, the reference to A1 is never evaluated: A1 gets
no dependent, and setting A1 to `"10"` notifies the display for A1 alone and
leaves B1 at `"1.0"`. -/
theorem propagation_direct_dependent_cases :
    computed_text 0 1
      (set_cell_value 10 0 1 "=A1+1".toList model_init >>= set_cell_value 10 0 0 "10".toList)
      = .ok (some "11.0".toList) ∧
    dependents 0 0
      (set_cell_value 10 0 2 "=1".toList model_init >>= set_cell_value 10 0 1 "=C1+A1".toList)
      = .ok [] ∧
    computed_text 0 1
      (set_cell_value 10 0 2 "=1".toList model_init >>= set_cell_value 10 0 1 "=C1+A1".toList
        >>= set_cell_value 10 0 0 "10".toList)
      = .ok (some "1.0".toList) ∧
    displayed
      (set_cell_value 10 0 2 "=1".toList model_init >>= set_cell_value 10 0 1 "=C1+A1".toList
        >>= set_cell_value 10 0 0 "10".toList)
      = .ok [(0, 0, "10.0".toList), (0, 1, "1.0".toList), (0, 2, "1.0".toList)] := by
  decide

/-! ## Evaluation in states of the same content -/

theorem ContentEq.refl_eq (s : Model) : ContentEq s s :=
  ⟨fun _ _ => rfl, fun _ _ => rfl, fun _ _ => rfl⟩

theorem ContentEq.symm_eq {s t : Model} (h : ContentEq s t) : ContentEq t s :=
  ⟨fun r c => (h.type_eq r c).symm, fun r c => (h.value_eq r c).symm,
   fun r c => (h.formula_eq r c).symm⟩

theorem ContentEq.trans_eq {s t u : Model} (h : ContentEq s t) (k : ContentEq t u) :
    ContentEq s u :=
  ⟨fun r c => (k.type_eq r c).trans (h.type_eq r c),
   fun r c => (k.value_eq r c).trans (h.value_eq r c),
   fun r c => (k.formula_eq r c).trans (h.formula_eq r c)⟩

theorem SameContent.contentEq {s t : Model} (h : SameContent s t) : ContentEq s t :=
  ⟨h.type_eq, h.value_eq, h.formula_eq⟩

theorem contentEq_save (s : Model) (save : List Char) :
    ContentEq s { s with strtok_save := save } :=
  ⟨fun _ _ => rfl, fun _ _ => rfl, fun _ _ => rfl⟩

theorem contentEq_step {s t : Model} (h : ContentEq s t) (row col drow dcol : Int)
    (x y : List Char) :
    ContentEq { add_dependency s row col drow dcol with strtok_save := x }
      { add_dependency t row col drow dcol with strtok_save := y } := by
  have hs := (add_dependency_frame s row col drow dcol).1.contentEq
  have ht := (add_dependency_frame t row col drow dcol).1.contentEq
  exact ((contentEq_save _ x).symm_eq.trans_eq (hs.symm_eq.trans_eq (h.trans_eq ht))).trans_eq
    (contentEq_save _ y)

theorem contentEq_grid (s t : Model) (h : t.spreadsheet = s.spreadsheet) : ContentEq s t :=
  ⟨fun _ _ => by rw [h], fun _ _ => by rw [h], fun _ _ => by rw [h]⟩

theorem scan_finds_iff (s : Model) (r c : Int) :
    scan_finds s r c = true ↔ (r, c) ∈ (s.spreadsheet r c).dependencies := by
  simp only [scan_finds, List.any_eq_true, Bool.and_eq_true, decide_eq_true_eq]
  constructor
  · rintro ⟨⟨a, b⟩, hmem, h1, h2⟩
    simp only at h1 h2
    subst h1
    subst h2
    exact hmem
  · intro h
    exact ⟨(r, c), h, rfl, rfl⟩

theorem scanEq_refl (s : Model) : ScanEq s s := fun _ _ => rfl

theorem scanEq_trans {s t u : Model} (h : ScanEq s t) (k : ScanEq t u) : ScanEq s u :=
  fun r c => (k r c).trans (h r c)

theorem scanEq_symm {s t : Model} (h : ScanEq s t) : ScanEq t s :=
  fun r c => (h r c).symm

theorem scanEq_grid (s t : Model) (h : t.spreadsheet = s.spreadsheet) : ScanEq s t := by
  intro r c
  simp only [scan_finds, h]

/-- The scan after a dependency is recorded, in terms of the scan before. -/
theorem scan_add_dependency (s : Model) (row col drow dcol r c : Int) :
    scan_finds (add_dependency s row col drow dcol) r c =
      (scan_finds s r c ||
        (decide (r = row ∧ c = col) && decide (drow = row ∧ dcol = col))) := by
  by_cases hfound : scan_finds s row col = true
  · have e : add_dependency s row col drow dcol = s := by
      unfold add_dependency
      rw [if_pos hfound]
    rw [e]
    by_cases hrc : r = row ∧ c = col
    · obtain ⟨rfl, rfl⟩ := hrc
      simp [hfound]
    · simp [hrc]
  · have e : add_dependency s row col drow dcol = setCell s row col
        { s.spreadsheet row col with
          dependencies := (drow, dcol) :: (s.spreadsheet row col).dependencies } := by
      unfold add_dependency
      rw [if_neg hfound]
    rw [e]
    by_cases hrc : r = row ∧ c = col
    · obtain ⟨rfl, rfl⟩ := hrc
      have hf : scan_finds s r c = false := by simpa using hfound
      simp only [scan_finds, setCell_same, List.any_cons] at hf ⊢
      rw [hf]
      simp [Bool.or_comm]
    · simp only [scan_finds, setCell_other _ _ _ _ _ _ hrc, hrc, decide_False, Bool.false_and,
        Bool.or_false]

theorem scanEq_step {s t : Model} (h : ScanEq s t) (row col drow dcol : Int)
    (x y : List Char) :
    ScanEq { add_dependency s row col drow dcol with strtok_save := x }
      { add_dependency t row col drow dcol with strtok_save := y } := by
  intro r c
  show scan_finds (add_dependency t row col drow dcol) r c
    = scan_finds (add_dependency s row col drow dcol) r c
  rw [scan_add_dependency, scan_add_dependency, h r c]

/-- Recording a dependent other than the referenced cell itself changes the
outcome of no scan. -/
theorem scanEq_add_dependency (s : Model) (row col drow dcol : Int)
    (hne : ¬ (row = drow ∧ col = dcol)) (x : List Char) :
    ScanEq s { add_dependency s row col drow dcol with strtok_save := x } := by
  intro r c
  show scan_finds (add_dependency s row col drow dcol) r c = scan_finds s r c
  rw [scan_add_dependency]
  have : ¬ (drow = row ∧ dcol = col) := fun e => hne ⟨e.1.symm, e.2.symm⟩
  simp [this]

/-- In two states of the same content and the same scans, with `strtok` at the
same position, the position after a recursive call is the same. -/
theorem strtok_after_call_content (f : List Char) (row col drow dcol : Int) (s t : Model)
    (hc : ContentEq s t) (hs : ScanEq s t) (hsv : t.strtok_save = s.strtok_save)
    (hown : t.strtok_in_copy = s.strtok_in_copy) :
    (∀ s2, strtok_after_call f row col drow dcol s = .ok s2 →
      ∃ t2, strtok_after_call f row col drow dcol t = .ok t2 ∧ ContentEq s2 t2 ∧
        ScanEq s2 t2 ∧ t2.strtok_save = s2.strtok_save ∧
        t2.strtok_in_copy = s2.strtok_in_copy) ∧
    (∀ e, strtok_after_call f row col drow dcol s = .error e →
      strtok_after_call f row col drow dcol t = .error e) := by
  have hgrid : ∀ (x : List Char) (b : Bool),
      ContentEq { s with strtok_save := x, strtok_in_copy := b }
        { t with strtok_save := x, strtok_in_copy := b } ∧
      ScanEq { s with strtok_save := x, strtok_in_copy := b }
        { t with strtok_save := x, strtok_in_copy := b } :=
    fun x b => ⟨⟨hc.type_eq, hc.value_eq, hc.formula_eq⟩, hs⟩
  have both_error : ∀ e0 : Fault,
      strtok_after_call f row col drow dcol s = .error e0 →
      strtok_after_call f row col drow dcol t = .error e0 →
      (∀ s2, strtok_after_call f row col drow dcol s = .ok s2 →
        ∃ t2, strtok_after_call f row col drow dcol t = .ok t2 ∧ ContentEq s2 t2 ∧
          ScanEq s2 t2 ∧ t2.strtok_save = s2.strtok_save ∧
          t2.strtok_in_copy = s2.strtok_in_copy) ∧
      (∀ e, strtok_after_call f row col drow dcol s = .error e →
        strtok_after_call f row col drow dcol t = .error e) := by
    intro e0 es et
    rw [es, et]
    constructor
    · intro s2 h
      simp at h
    · intro e h
      exact h
  have both_ok : ∀ s3 t3 : Model,
      strtok_after_call f row col drow dcol s = .ok s3 →
      strtok_after_call f row col drow dcol t = .ok t3 →
      ContentEq s3 t3 → ScanEq s3 t3 → t3.strtok_save = s3.strtok_save →
      t3.strtok_in_copy = s3.strtok_in_copy →
      (∀ s2, strtok_after_call f row col drow dcol s = .ok s2 →
        ∃ t2, strtok_after_call f row col drow dcol t = .ok t2 ∧ ContentEq s2 t2 ∧
          ScanEq s2 t2 ∧ t2.strtok_save = s2.strtok_save ∧
          t2.strtok_in_copy = s2.strtok_in_copy) ∧
      (∀ e, strtok_after_call f row col drow dcol s = .error e →
        strtok_after_call f row col drow dcol t = .error e) := by
    intro s3 t3 es et k1 k2 k3 k4
    rw [es, et]
    constructor
    · intro s2 h
      simp only [Except.ok.injEq] at h
      subst h
      exact ⟨t3, rfl, k1, k2, k3, k4⟩
    · intro e h
      simp at h
  have hst := hs row col
  by_cases h1 : s.strtok_in_copy = true
  · have h1t : t.strtok_in_copy = true := hown.trans h1
    by_cases h2 : 16 ≤ f.length
    · exact both_ok { s with strtok_in_copy := false } { t with strtok_in_copy := false }
        (by simp only [strtok_after_call, h1, h2, if_true, if_false,
            Bool.false_eq_true])
        (by simp only [strtok_after_call, h1t, h2, if_true, if_false,
            Bool.false_eq_true])
        ⟨hc.type_eq, hc.value_eq, hc.formula_eq⟩ hs hsv rfl
    · by_cases h3 : scan_finds s row col = true
      · exact both_error Fault.freedMemory
          (by simp only [strtok_after_call, h1, h2, h3, if_true, if_false,
            Bool.false_eq_true])
          (by simp only [strtok_after_call, h1t, h2, hst.trans h3, if_true, if_false,
            Bool.false_eq_true])
      · have h3 : scan_finds s row col = false := by simpa using h3
        have h3t : scan_finds t row col = false := hst.trans h3
        cases hcs : c_string ((int_bytes drow ++ int_bytes dcol).drop f.length) with
        | none =>
          exact both_error Fault.freedMemory
            (by simp only [strtok_after_call, h1, h2, h3, hcs, if_true, if_false,
            Bool.false_eq_true])
            (by simp only [strtok_after_call, h1t, h2, h3t, hcs, if_true, if_false,
            Bool.false_eq_true])
        | some x =>
          by_cases h4 : (x.all fun c => decide (c ≠ '+') && decide (c.toNat < 128)) = true
          · exact both_ok { s with strtok_save := x, strtok_in_copy := false }
              { t with strtok_save := x, strtok_in_copy := false }
              (by simp only [strtok_after_call, h1, h2, h3, hcs, h4, if_true, if_false,
            Bool.false_eq_true])
              (by simp only [strtok_after_call, h1t, h2, h3t, hcs, h4, if_true, if_false,
            Bool.false_eq_true])
              (hgrid _ _).1 (hgrid _ _).2 rfl rfl
          · exact both_error Fault.freedMemory
              (by simp only [strtok_after_call, h1, h2, h3, hcs, h4, if_true, if_false,
            Bool.false_eq_true])
              (by simp only [strtok_after_call, h1t, h2, h3t, hcs, h4, if_true, if_false,
            Bool.false_eq_true])
  · have h1 : s.strtok_in_copy = false := by simpa using h1
    have h1t : t.strtok_in_copy = false := hown.trans h1
    exact both_ok s t (by simp only [strtok_after_call, h1, if_true, if_false,
            Bool.false_eq_true])
      (by simp only [strtok_after_call, h1t, if_true, if_false,
            Bool.false_eq_true]) hc hs hsv hown

theorem resEq_error (e : Fault) : ResEq (.error e) (.error e) := by
  simp [ResEq]

/-- In two states of the same content and the same scans an evaluation ends in
the same fault or gives the same value. -/
theorem evaluate_content (fuel : Nat) :
    (∀ f drow dcol s t, ContentEq s t → ScanEq s t →
      ResEq (evaluate_formula fuel f drow dcol s) (evaluate_formula fuel f drow dcol t)) ∧
    (∀ comp res drow dcol s t, ContentEq s t → ScanEq s t → t.strtok_save = s.strtok_save →
      t.strtok_in_copy = s.strtok_in_copy →
      ResEq (evaluate_formula_loop fuel comp res drow dcol s)
        (evaluate_formula_loop fuel comp res drow dcol t)) := by
  induction fuel with
  | zero =>
    constructor
    · intro f drow dcol s t _ _
      rw [evaluate_formula_zero, evaluate_formula_zero]
      exact resEq_error _
    · intro comp res drow dcol s t _ _ _ _
      rw [loop_zero, loop_zero]
      exact resEq_error _
  | succ n ih =>
    obtain ⟨ihE, ihL⟩ := ih
    constructor
    · intro f drow dcol s t hc hsc
      cases f with
      | nil =>
        simp only [evaluate_formula]
        exact resEq_error _
      | cons c body =>
        rw [evaluate_formula_succ, evaluate_formula_succ]
        exact ihL _ _ _ _ _ _ ⟨hc.type_eq, hc.value_eq, hc.formula_eq⟩ hsc rfl rfl
    · intro comp res drow dcol s t hc hsc hs hown
      cases comp with
      | none =>
        rw [loop_none, loop_none]
        exact ⟨rfl, hc, hsc, hs, hown⟩
      | some comp =>
        by_cases hnum : is_number comp = true
        · rw [loop_number _ _ _ _ _ _ hnum, loop_number _ _ _ _ _ _ hnum, hs]
          exact ihL _ _ _ _ _ _ ⟨hc.type_eq, hc.value_eq, hc.formula_eq⟩ hsc rfl hown
        · have hnum' : is_number comp = false := by simpa using hnum
          have hown' : ∀ (u v : Model) (x y : List Char),
              v.strtok_in_copy = u.strtok_in_copy →
              ({ add_dependency v (ref_row comp) (ref_col comp) drow dcol with
                  strtok_save := y } : Model).strtok_in_copy =
                ({ add_dependency u (ref_row comp) (ref_col comp) drow dcol with
                  strtok_save := x } : Model).strtok_in_copy := by
            intro u v x y huv
            show (add_dependency v _ _ _ _).strtok_in_copy = (add_dependency u _ _ _ _).strtok_in_copy
            unfold add_dependency
            split <;> split <;> simpa using huv
          by_cases hb : inBounds (ref_row comp) (ref_col comp) = true
          · have hty := hc.type_eq (ref_row comp) (ref_col comp)
            have hv := hc.value_eq (ref_row comp) (ref_col comp)
            have hf := hc.formula_eq (ref_row comp) (ref_col comp)
            cases htype : (s.spreadsheet (ref_row comp) (ref_col comp)).type with
            | TEXT =>
              rw [loop_ref_text _ _ _ _ _ s hnum' hb htype,
                loop_ref_text _ _ _ _ _ t hnum' hb (hty.trans htype), hs]
              exact ihL _ _ _ _ _ _ (contentEq_step hc _ _ _ _ _ _) (scanEq_step hsc _ _ _ _ _ _)
                rfl (hown' _ _ _ _ hown)
            | NUMBER =>
              cases hval : (s.spreadsheet (ref_row comp) (ref_col comp)).value with
              | none =>
                rw [loop_ref_number_null _ _ _ _ _ s hnum' hb htype hval,
                  loop_ref_number_null _ _ _ _ _ t hnum' hb (hty.trans htype) (hv.trans hval)]
                exact resEq_error _
              | some v =>
                rw [loop_ref_number _ _ _ _ _ s v hnum' hb htype hval,
                  loop_ref_number _ _ _ _ _ t v hnum' hb (hty.trans htype) (hv.trans hval), hs]
                exact ihL _ _ _ _ _ _ (contentEq_step hc _ _ _ _ _ _)
                  (scanEq_step hsc _ _ _ _ _ _) rfl (hown' _ _ _ _ hown)
            | FORMULA =>
              cases hfor : (s.spreadsheet (ref_row comp) (ref_col comp)).formula with
              | none =>
                rw [loop_ref_formula_null _ _ _ _ _ s hnum' hb htype hfor,
                  loop_ref_formula_null _ _ _ _ _ t hnum' hb (hty.trans htype) (hf.trans hfor)]
                exact resEq_error _
              | some f =>
                rw [loop_ref_formula _ _ _ _ _ s f hnum' hb htype hfor,
                  loop_ref_formula _ _ _ _ _ t f hnum' hb (hty.trans htype) (hf.trans hfor)]
                have hrec := ihE f (ref_row comp) (ref_col comp) s t hc hsc
                revert hrec
                cases evaluate_formula n f (ref_row comp) (ref_col comp) s with
                | error e =>
                  cases evaluate_formula n f (ref_row comp) (ref_col comp) t with
                  | error e' => exact fun h => h
                  | ok q => intro h; simp [ResEq] at h
                | ok p =>
                  cases evaluate_formula n f (ref_row comp) (ref_col comp) t with
                  | error e' => intro h; simp [ResEq] at h
                  | ok q =>
                    obtain ⟨v, s1⟩ := p
                    obtain ⟨w, t1⟩ := q
                    intro h
                    obtain ⟨rfl, hc1, hsc1, hs1, hown1⟩ := h
                    have hac := strtok_after_call_content f (ref_row comp) (ref_col comp)
                      drow dcol s1 t1 hc1 hsc1 hs1 hown1
                    simp only
                    cases hs2 : strtok_after_call f (ref_row comp) (ref_col comp)
                        drow dcol s1 with
                    | error e =>
                      rw [hac.2 e hs2]
                      exact resEq_error _
                    | ok s2 =>
                      obtain ⟨t2, ht2, hc2, hsc2, hsv2, hown2⟩ := hac.1 s2 hs2
                      rw [ht2]
                      simp only [hsv2]
                      exact ihL _ _ _ _ _ _ (contentEq_step hc2 _ _ _ _ _ _)
                        (scanEq_step hsc2 _ _ _ _ _ _) rfl (hown' _ _ _ _ hown2)
          · have hb' : inBounds (ref_row comp) (ref_col comp) = false := by simpa using hb
            rw [loop_out_of_bounds _ _ _ _ _ s hnum' hb', loop_out_of_bounds _ _ _ _ _ t hnum' hb']
            exact resEq_error _

/-! ## The position of `strtok` when an evaluation returns -/

theorem loop_none_ok (fuel : Nat) (res v : Dbl) (drow dcol : Int) (s t : Model)
    (h : evaluate_formula_loop fuel none res drow dcol s = .ok (v, t)) : v = res ∧ t = s := by
  cases fuel with
  | zero => rw [loop_zero] at h; simp at h
  | succ n =>
    rw [loop_none] at h
    simp only [Except.ok.injEq, Prod.mk.injEq] at h
    exact ⟨h.1.symm, h.2.symm⟩

/-- When an evaluation returns, `strtok` has reached the end of the text it was
splitting. -/
theorem evaluate_save (fuel : Nat) :
    (∀ f drow dcol s v t, evaluate_formula fuel f drow dcol s = .ok (v, t) →
      t.strtok_save = []) ∧
    (∀ comp res drow dcol s v t, evaluate_formula_loop fuel comp res drow dcol s = .ok (v, t) →
      (comp = none → s.strtok_save = []) → t.strtok_save = []) := by
  induction fuel with
  | zero =>
    constructor
    · intro f drow dcol s v t h
      rw [evaluate_formula_zero] at h
      simp at h
    · intro comp res drow dcol s v t h
      rw [loop_zero] at h
      simp at h
  | succ n ih =>
    obtain ⟨ihE, ihL⟩ := ih
    constructor
    · intro f drow dcol s v t h
      cases f with
      | nil => simp [evaluate_formula] at h
      | cons c body =>
        rw [evaluate_formula_succ] at h
        exact ihL _ _ _ _ _ _ _ h (fun hn => strtok_none _ hn)
    · intro comp res drow dcol s v t h hsave
      cases comp with
      | none =>
        rw [loop_none] at h
        simp only [Except.ok.injEq, Prod.mk.injEq] at h
        rw [← h.2]
        exact hsave rfl
      | some comp =>
        by_cases hnum : is_number comp = true
        · rw [loop_number _ _ _ _ _ _ hnum] at h
          exact ihL _ _ _ _ _ _ _ h (fun hn => strtok_none _ hn)
        · have hnum' : is_number comp = false := by simpa using hnum
          by_cases hb : inBounds (ref_row comp) (ref_col comp) = true
          · cases htype : (s.spreadsheet (ref_row comp) (ref_col comp)).type with
            | TEXT =>
              rw [loop_ref_text _ _ _ _ _ s hnum' hb htype] at h
              exact ihL _ _ _ _ _ _ _ h (fun hn => strtok_none _ hn)
            | NUMBER =>
              cases hval : (s.spreadsheet (ref_row comp) (ref_col comp)).value with
              | none =>
                rw [loop_ref_number_null _ _ _ _ _ s hnum' hb htype hval] at h
                simp at h
              | some w =>
                rw [loop_ref_number _ _ _ _ _ s w hnum' hb htype hval] at h
                exact ihL _ _ _ _ _ _ _ h (fun hn => strtok_none _ hn)
            | FORMULA =>
              cases hfor : (s.spreadsheet (ref_row comp) (ref_col comp)).formula with
              | none =>
                rw [loop_ref_formula_null _ _ _ _ _ s hnum' hb htype hfor] at h
                simp at h
              | some f =>
                rw [loop_ref_formula _ _ _ _ _ s f hnum' hb htype hfor] at h
                cases hev : evaluate_formula n f (ref_row comp) (ref_col comp) s with
                | error e =>
                  rw [hev] at h
                  simp at h
                | ok q =>
                  obtain ⟨w, s1⟩ := q
                  rw [hev] at h
                  simp only at h
                  cases hac : strtok_after_call f (ref_row comp) (ref_col comp) drow dcol s1 with
                  | error e =>
                    rw [hac] at h
                    simp at h
                  | ok s2 =>
                    rw [hac] at h
                    exact ihL _ _ _ _ _ _ _ h (fun hn => strtok_none _ hn)
          · have hb' : inBounds (ref_row comp) (ref_col comp) = false := by simpa using hb
            rw [loop_out_of_bounds _ _ _ _ _ s hnum' hb'] at h
            simp at h

/-- What a recursive call made for a cell of the grid leaves of the loop, when
the loop returns: the dependency is recorded and the loop ends. -/
theorem loop_after_call_ok (fuel : Nat) (f : List Char) (res v w : Dbl) (row col drow dcol : Int)
    (s s1 s2 t : Model) (hb : inBounds drow dcol = true)
    (hev : evaluate_formula fuel f row col s = .ok (w, s1))
    (hac : strtok_after_call f row col drow dcol s1 = .ok s2)
    (h : evaluate_formula_loop fuel (strtok s2.strtok_save).1 res drow dcol
      { add_dependency s2 row col drow dcol with strtok_save := (strtok s2.strtok_save).2 }
      = .ok (v, t)) :
    v = res ∧ t = { add_dependency s2 row col drow dcol with strtok_save := [] } := by
  have hsv := (evaluate_save fuel).1 _ _ _ _ _ _ hev
  have hafter := strtok_after_call_grid f row col drow dcol s1 s2 hb hsv hac
  cases fuel with
  | zero => rw [loop_zero] at h; simp at h
  | succ m =>
    rcases loop_after_call m res row col drow dcol s2 hafter with e | e
    · rw [e] at h
      simp only [Except.ok.injEq, Prod.mk.injEq] at h
      exact ⟨h.1.symm, h.2.symm⟩
    · rw [e] at h
      simp at h

/-! ## A formula that comes to a reference to its own cell -/

theorem passed_congr {s t : Model} (h : ContentEq s t) (comp : List Char) (hp : Passed s comp) :
    Passed t comp := by
  rcases hp with hp | ⟨h1, h2, h3⟩
  · exact Or.inl hp
  · refine Or.inr ⟨h1, ?_, ?_⟩
    · rw [h.type_eq]
      exact h2
    · rw [h.type_eq, h.value_eq]
      exact h3

theorem selfLoop_congr {s t : Model} (h : ContentEq s t) (drow dcol : Int)
    (comp save : List Char) (hl : SelfLoop s drow dcol comp save) :
    SelfLoop t drow dcol comp save := by
  induction hl with
  | hit comp save h1 h2 h3 => exact SelfLoop.hit comp save h1 h2 h3
  | skip comp save next rest h1 h2 _ ih =>
    exact SelfLoop.skip comp save next rest (passed_congr h comp h1) h2 ih

/-- What the loop does at a component it passes. -/
theorem loop_passed (fuel : Nat) (comp : List Char) (res : Dbl) (drow dcol : Int) (s : Model)
    (hp : Passed s comp) :
    ∃ res1 u, ContentEq s u ∧ u.strtok_save = (strtok s.strtok_save).2 ∧
      u.strtok_in_copy = s.strtok_in_copy ∧ u.display = s.display ∧
      (∀ r c, (s.spreadsheet r c).dependencies <:+ (u.spreadsheet r c).dependencies) ∧
      (∀ r c, (u.spreadsheet r c).computed_value = (s.spreadsheet r c).computed_value) ∧
      ((is_number comp = true ∨ ¬ (ref_row comp = drow ∧ ref_col comp = dcol)) → ScanEq s u) ∧
      evaluate_formula_loop (fuel + 1) (some comp) res drow dcol s =
        evaluate_formula_loop fuel (strtok s.strtok_save).1 res1 drow dcol u := by
  have hadd : ∀ x : List Char,
      ({ add_dependency s (ref_row comp) (ref_col comp) drow dcol with
        strtok_save := x } : Model).strtok_in_copy = s.strtok_in_copy := by
    intro x
    show (add_dependency s _ _ _ _).strtok_in_copy = s.strtok_in_copy
    unfold add_dependency
    split <;> rfl
  have hfr := add_dependency_frame s (ref_row comp) (ref_col comp) drow dcol
  by_cases hnum : is_number comp = true
  · exact ⟨_, _, contentEq_save s _, rfl, rfl, rfl, fun _ _ => List.suffix_refl _,
      fun _ _ => rfl, fun _ => scanEq_grid _ _ rfl, loop_number _ _ _ _ _ _ hnum⟩
  · have hnum' : is_number comp = false := by simpa using hnum
    rcases hp with hp | ⟨hb, hnf, hval⟩
    · exact absurd hp hnum
    · cases htype : (s.spreadsheet (ref_row comp) (ref_col comp)).type with
      | FORMULA => exact absurd htype hnf
      | TEXT =>
        refine ⟨res, { add_dependency s (ref_row comp) (ref_col comp) drow dcol with
            strtok_save := (strtok s.strtok_save).2 }, ?_, rfl, hadd _, hfr.2.display_eq,
          hfr.1.deps_suffix, hfr.2.computed_eq, ?_, loop_ref_text _ _ _ _ _ s hnum' hb htype⟩
        · exact hfr.1.contentEq.trans_eq (contentEq_save _ _)
        · intro hne
          exact scanEq_add_dependency s _ _ _ _ (hne.resolve_left (by rw [hnum']; decide)) _
      | NUMBER =>
        cases hv : (s.spreadsheet (ref_row comp) (ref_col comp)).value with
        | none => exact absurd hv (hval htype)
        | some w =>
          refine ⟨res + (strtod w).1,
            { add_dependency s (ref_row comp) (ref_col comp) drow dcol with
              strtok_save := (strtok s.strtok_save).2 }, ?_, rfl, hadd _, hfr.2.display_eq,
            hfr.1.deps_suffix, hfr.2.computed_eq, ?_,
            loop_ref_number _ _ _ _ _ s w hnum' hb htype hv⟩
          · exact hfr.1.contentEq.trans_eq (contentEq_save _ _)
          · intro hne
            exact scanEq_add_dependency s _ _ _ _ (hne.resolve_left (by rw [hnum']; decide)) _

/-- A loop that is about to come to a reference to its own cell runs out of
fuel, if every evaluation of that cell's formula with less fuel does. -/
theorem selfLoop_loop (s0 : Model) (drow dcol : Int) (f0 : List Char)
    (hb : inBounds drow dcol = true)
    (hty : (s0.spreadsheet drow dcol).type = valueType.FORMULA)
    (hfor : (s0.spreadsheet drow dcol).formula = some f0)
    (comp save : List Char) (hl : SelfLoop s0 drow dcol comp save) :
    ∀ (k : Nat) (s : Model) (res : Dbl), ContentEq s0 s → s.strtok_save = save →
      (∀ m, m < k → ∀ u, ContentEq s0 u →
        evaluate_formula m f0 drow dcol u = .error .outOfFuel) →
      evaluate_formula_loop k (some comp) res drow dcol s = .error .outOfFuel := by
  induction hl with
  | hit comp save h1 h2 h3 =>
    intro k s res hsh _ hless
    cases k with
    | zero => rw [loop_zero]
    | succ j =>
      rw [loop_ref_formula j comp res drow dcol s f0 h1 (by rw [h2, h3]; exact hb)
        (by rw [h2, h3, hsh.type_eq]; exact hty) (by rw [h2, h3, hsh.formula_eq]; exact hfor)]
      have hr := hless j (Nat.lt_succ_self j) s hsh
      rw [h2, h3, hr]
  | skip comp save next rest h1 h2 _ ih =>
    intro k s res hsh hsv hless
    cases k with
    | zero => rw [loop_zero]
    | succ j =>
      have hless' : ∀ m, m < j → ∀ u, ContentEq s0 u →
          evaluate_formula m f0 drow dcol u = .error .outOfFuel :=
        fun m hm u hu => hless m (Nat.lt_succ_of_lt hm) u hu
      obtain ⟨res1, u, hu, husv, -, -, -, -, -, hstep⟩ :=
        loop_passed j comp res drow dcol s (passed_congr hsh comp h1)
      rw [hstep, hsv, h2]
      exact ih j u res1 (hsh.trans_eq hu) (by rw [husv, hsv, h2]) hless'

/-- Evaluating the formula of a cell whose loop comes to a reference to the
cell itself runs out of any fuel. -/
theorem selfLoop_diverges (s0 : Model) (drow dcol : Int) (x : Char) (body comp save : List Char)
    (hb : inBounds drow dcol = true)
    (hty : (s0.spreadsheet drow dcol).type = valueType.FORMULA)
    (hfor : (s0.spreadsheet drow dcol).formula = some (x :: body))
    (htok : strtok body = (some comp, save)) (hl : SelfLoop s0 drow dcol comp save) (n : Nat) :
    ∀ s, ContentEq s0 s → evaluate_formula n (x :: body) drow dcol s = .error .outOfFuel := by
  induction n using Nat.strong_induction_on with
  | _ n ih =>
    intro s hsh
    cases n with
    | zero => rw [evaluate_formula_zero]
    | succ k =>
      rw [evaluate_formula_succ, htok]
      exact selfLoop_loop s0 drow dcol (x :: body) hb hty hfor comp save hl k _ _
        ⟨hsh.type_eq, hsh.value_eq, hsh.formula_eq⟩ rfl
        (fun m hm u hu => ih m (Nat.lt_succ_of_lt hm) u hu)

/-- A returning evaluation of the formula of a Formula cell of the grid changes
the outcome of no scan: it puts no cell on its own dependents list. -/
theorem evaluate_scan (fuel : Nat) :
    (∀ f drow dcol s v t, evaluate_formula fuel f drow dcol s = .ok (v, t) →
      inBounds drow dcol = true → (s.spreadsheet drow dcol).type = valueType.FORMULA →
      (s.spreadsheet drow dcol).formula = some f → ScanEq s t) ∧
    (∀ comp res drow dcol s v t,
      evaluate_formula_loop fuel comp res drow dcol s = .ok (v, t) →
      inBounds drow dcol = true →
      (∀ c, comp = some c → ¬ SelfLoop s drow dcol c s.strtok_save) → ScanEq s t) := by
  induction fuel with
  | zero =>
    constructor
    · intro f drow dcol s v t h
      rw [evaluate_formula_zero] at h
      simp at h
    · intro comp res drow dcol s v t h
      rw [loop_zero] at h
      simp at h
  | succ n ih =>
    obtain ⟨ihE, ihL⟩ := ih
    constructor
    · intro f drow dcol s v t h hb hty hfor
      cases f with
      | nil => simp [evaluate_formula] at h
      | cons x body =>
        have h0 := h
        rw [evaluate_formula_succ] at h
        have hs0 : ContentEq s { s with strtok_save := (strtok body).2, strtok_in_copy := true } :=
          contentEq_grid _ _ rfl
        refine scanEq_trans
          (scanEq_grid s { s with strtok_save := (strtok body).2, strtok_in_copy := true } rfl)
          (ihL _ _ _ _ _ _ _ h hb ?_)
        intro c hc hl
        have htok : strtok body = (some c, (strtok body).2) := by
          rw [← hc]
        have hdiv := selfLoop_diverges s drow dcol x body c (strtok body).2 hb hty hfor htok
          (selfLoop_congr hs0.symm_eq _ _ _ _ hl) (n + 1) s (ContentEq.refl_eq s)
        rw [h0] at hdiv
        simp at hdiv
    · intro comp res drow dcol s v t h hb hnl
      cases comp with
      | none =>
        rw [loop_none] at h
        simp only [Except.ok.injEq, Prod.mk.injEq] at h
        rw [← h.2]
        exact scanEq_refl s
      | some comp =>
        have hnl0 := hnl comp rfl
        have hself : is_number comp = false →
            ¬ (ref_row comp = drow ∧ ref_col comp = dcol) :=
          fun hnum e => hnl0 (SelfLoop.hit comp _ hnum e.1 e.2)
        by_cases hp : Passed s comp
        · have hne : is_number comp = true ∨ ¬ (ref_row comp = drow ∧ ref_col comp = dcol) := by
            by_cases hnum : is_number comp = true
            · exact Or.inl hnum
            · exact Or.inr (hself (by simpa using hnum))
          obtain ⟨res1, u, hu, husv, -, -, -, -, hscan, hstep⟩ :=
            loop_passed n comp res drow dcol s hp
          rw [hstep] at h
          refine scanEq_trans (hscan hne) (ihL _ _ _ _ _ _ _ h hb ?_)
          intro c hc hl
          apply hnl0
          refine SelfLoop.skip comp s.strtok_save c (strtok s.strtok_save).2 hp ?_
            (selfLoop_congr hu.symm_eq _ _ _ _ (by rw [husv] at hl; exact hl))
          rw [← hc]
        · have hnum' : is_number comp = false := by
            by_contra hnum
            exact hp (Or.inl (by simpa using hnum))
          have hne := hself hnum'
          by_cases hbc : inBounds (ref_row comp) (ref_col comp) = true
          · cases htype : (s.spreadsheet (ref_row comp) (ref_col comp)).type with
            | TEXT =>
              exact absurd (Or.inr ⟨hbc, by rw [htype]; decide, by rw [htype]; intro e; cases e⟩) hp
            | NUMBER =>
              cases hval : (s.spreadsheet (ref_row comp) (ref_col comp)).value with
              | none =>
                rw [loop_ref_number_null _ _ _ _ _ s hnum' hbc htype hval] at h
                simp at h
              | some w =>
                exact absurd (Or.inr ⟨hbc, by rw [htype]; decide, by rw [hval]; intro _ e; cases e⟩)
                  hp
            | FORMULA =>
              cases hfor : (s.spreadsheet (ref_row comp) (ref_col comp)).formula with
              | none =>
                rw [loop_ref_formula_null _ _ _ _ _ s hnum' hbc htype hfor] at h
                simp at h
              | some g =>
                rw [loop_ref_formula _ _ _ _ _ s g hnum' hbc htype hfor] at h
                cases hev : evaluate_formula n g (ref_row comp) (ref_col comp) s with
                | error e =>
                  rw [hev] at h
                  simp at h
                | ok q =>
                  obtain ⟨w, s1⟩ := q
                  rw [hev] at h
                  simp only at h
                  cases hac : strtok_after_call g (ref_row comp) (ref_col comp) drow dcol s1 with
                  | error e =>
                    rw [hac] at h
                    simp at h
                  | ok s2 =>
                    rw [hac] at h
                    simp only at h
                    have hs1 : ScanEq s s1 := ihE _ _ _ _ _ _ hev hbc htype hfor
                    obtain ⟨g1, -, -⟩ := strtok_after_call_ok _ _ _ _ _ _ _ hac
                    obtain ⟨-, rfl⟩ := loop_after_call_ok n g _ v w _ _ drow dcol s s1 s2 t hb
                      hev hac h
                    exact scanEq_trans hs1 (scanEq_trans (scanEq_grid s1 s2 g1)
                      (scanEq_add_dependency s2 _ _ _ _ hne _))
          · have hb' : inBounds (ref_row comp) (ref_col comp) = false := by simpa using hbc
            rw [loop_out_of_bounds _ _ _ _ _ s hnum' hb'] at h
            simp at h

/-! ## What a propagation pass recomputes (C5) -/

theorem sprintf_1f_ok (x : Dbl) (str : List Char) (h : sprintf_1f x = .ok str) :
    str = Dbl.fmt1 x := by
  unfold sprintf_1f at h
  split at h
  · simpa using h.symm
  · simp at h

/-- The steps of the loop of `update_dependents`, when it returns. -/
theorem update_dependents_loop_cons (fuel : Nat) (row col : Int) (rest : List (Int × Int))
    (s t : Model) (h : update_dependents_loop fuel ((row, col) :: rest) s = .ok t) :
    inBounds row col = true ∧
    (((s.spreadsheet row col).type ≠ valueType.FORMULA ∧
        update_dependents_loop fuel rest s = .ok t) ∨
     ((s.spreadsheet row col).type = valueType.FORMULA ∧
      ∃ f result s1, (s.spreadsheet row col).formula = some f ∧
        evaluate_formula fuel f row col s = .ok (result, s1) ∧
        sprintf_1f result = .ok (Dbl.fmt1 result) ∧
        update_dependents_loop fuel rest
          (update_cell_display row col (Dbl.fmt1 result)
            (setCell s1 row col
              { s1.spreadsheet row col with computed_value := some (Dbl.fmt1 result) })) = .ok t)) := by
  simp only [update_dependents_loop] at h
  split at h
  · rename_i hb
    refine ⟨hb, ?_⟩
    split at h
    · rename_i hty
      right
      refine ⟨hty, ?_⟩
      split at h
      · rename_i f hf
        split at h
        · rename_i result s1 hev
          split at h
          · rename_i str hstr
            have e := sprintf_1f_ok _ _ hstr
            subst e
            exact ⟨f, result, s1, hf, hev, hstr, h⟩
          · simp at h
        · simp at h
      · simp at h
    · rename_i hty
      exact Or.inl ⟨hty, h⟩
  · simp at h

/-- A propagation pass only adds to the display log. -/
theorem update_dependents_loop_display (fuel : Nat) (l : List (Int × Int)) :
    ∀ s t, update_dependents_loop fuel l s = .ok t → s.display <:+ t.display := by
  induction l with
  | nil =>
    intro s t h
    simp only [update_dependents_loop, Except.ok.injEq] at h
    subst h
    exact List.suffix_refl _
  | cons d rest ih =>
    intro s t h
    obtain ⟨row, col⟩ := d
    obtain ⟨-, h1 | ⟨-, f, result, s1, -, hev, -, h1⟩⟩ := update_dependents_loop_cons _ _ _ _ _ _ h
    · exact ih _ _ h1.2
    · have h2 := ih _ _ h1
      have h3 := ((evaluate_frame fuel).1 _ _ _ _ _ _ hev).2.display_eq
      simp only [update_cell_display, setCell_display] at h2
      rw [h3] at h2
      exact (List.suffix_cons _ _).trans h2

/-- A propagation pass leaves alone the computed text of every cell that is
not on the list it walks. -/
theorem update_dependents_loop_others (fuel : Nat) (l : List (Int × Int)) :
    ∀ s t, update_dependents_loop fuel l s = .ok t → ∀ r c, (r, c) ∉ l →
      (t.spreadsheet r c).computed_value = (s.spreadsheet r c).computed_value := by
  induction l with
  | nil =>
    intro s t h r c _
    simp only [update_dependents_loop, Except.ok.injEq] at h
    subst h
    rfl
  | cons d rest ih =>
    intro s t h r c hmem
    obtain ⟨row, col⟩ := d
    have hne : ¬ (r = row ∧ c = col) := fun e => hmem (by simp [e.1, e.2])
    have hrest : (r, c) ∉ rest := fun e => hmem (List.mem_cons_of_mem _ e)
    obtain ⟨-, h1 | ⟨-, f, result, s1, -, hev, -, h1⟩⟩ := update_dependents_loop_cons _ _ _ _ _ _ h
    · exact ih _ _ h1.2 r c hrest
    · rw [ih _ _ h1 r c hrest]
      simp only [update_cell_display]
      rw [setCell_other _ _ _ _ _ _ hne]
      exact ((evaluate_frame fuel).1 _ _ _ _ _ _ hev).2.computed_eq r c

/-- Storing a cell with the dependents list it had changes the outcome of no
scan. -/
theorem scanEq_setCell (s : Model) (row col : Int) (k : cell)
    (hk : k.dependencies = (s.spreadsheet row col).dependencies) :
    ScanEq s (setCell s row col k) := by
  intro r c
  by_cases hrc : r = row ∧ c = col
  · obtain ⟨rfl, rfl⟩ := hrc
    simp only [scan_finds, setCell_same, hk]
  · simp only [scan_finds, setCell_other _ _ _ _ _ _ hrc]

/-- A propagation pass changes the outcome of no scan. -/
theorem update_dependents_loop_scan (fuel : Nat) (l : List (Int × Int)) :
    ∀ s t, update_dependents_loop fuel l s = .ok t → ScanEq s t := by
  induction l with
  | nil =>
    intro s t h
    simp only [update_dependents_loop, Except.ok.injEq] at h
    subst h
    exact scanEq_refl _
  | cons d rest ih =>
    intro s t h
    obtain ⟨row, col⟩ := d
    obtain ⟨hb, h1 | ⟨hty, f, result, s1, hf, hev, -, h1⟩⟩ :=
      update_dependents_loop_cons _ _ _ _ _ _ h
    · exact ih _ _ h1.2
    · have hs1 := (evaluate_scan fuel).1 _ _ _ _ _ _ hev hb hty hf
      have hs2 := scanEq_setCell s1 row col
        { s1.spreadsheet row col with computed_value := some (Dbl.fmt1 result) } rfl
      have hs3 : ScanEq
          (setCell s1 row col
            { s1.spreadsheet row col with computed_value := some (Dbl.fmt1 result) })
          (update_cell_display row col (Dbl.fmt1 result)
            (setCell s1 row col
              { s1.spreadsheet row col with computed_value := some (Dbl.fmt1 result) })) :=
        scanEq_grid _ _ rfl
      exact scanEq_trans hs1 (scanEq_trans hs2 (scanEq_trans hs3 (ih _ _ h1)))

/-- A propagation pass leaves every Formula cell on the list it walks with the
rendering of its formula's value in the final state, and the display has been
told that text. -/
theorem update_dependents_loop_recomputes (fuel : Nat) (l : List (Int × Int)) :
    ∀ s t, update_dependents_loop fuel l s = .ok t → ∀ d ∈ l,
      (t.spreadsheet d.1 d.2).type = valueType.FORMULA →
      ∃ f v u, (t.spreadsheet d.1 d.2).formula = some f ∧
        evaluate_formula fuel f d.1 d.2 t = .ok (v, u) ∧
        (t.spreadsheet d.1 d.2).computed_value = some (Dbl.fmt1 v) ∧
        (d.1, d.2, Dbl.fmt1 v) ∈ t.display := by
  induction l with
  | nil => intro s t _ d hd; cases hd
  | cons d0 rest ih =>
    intro s t h d hd hty
    obtain ⟨row, col⟩ := d0
    have hst := update_dependents_loop_content _ _ _ _ h
    obtain ⟨-, h1 | ⟨hty0, f, result, s1, hf, hev, -, h1⟩⟩ :=
      update_dependents_loop_cons _ _ _ _ _ _ h
    · by_cases hmem : d ∈ rest
      · exact ih _ _ h1.2 d hmem hty
      · have hd0 : d = (row, col) := by
          rcases List.mem_cons.1 hd with e | e
          · exact e
          · exact absurd e hmem
        subst hd0
        exact absurd ((hst.type_eq row col).symm.trans hty) h1.1
    · by_cases hmem : d ∈ rest
      · exact ih _ _ h1 d hmem hty
      · have hd0 : d = (row, col) := by
          rcases List.mem_cons.1 hd with e | e
          · exact e
          · exact absurd e hmem
        subst hd0
        have hres := (evaluate_content fuel).1 f row col s t hst.contentEq
          (update_dependents_loop_scan _ _ _ _ h)
        rw [hev] at hres
        cases het : evaluate_formula fuel f row col t with
        | error e => rw [het] at hres; simp [ResEq] at hres
        | ok q =>
          obtain ⟨w, u⟩ := q
          rw [het] at hres
          obtain ⟨rfl, -, -, -, -⟩ := hres
          refine ⟨f, result, u, (hst.formula_eq row col).trans hf, het, ?_, ?_⟩
          · rw [update_dependents_loop_others _ _ _ _ h1 row col hmem]
            simp [update_cell_display]
          · exact (update_dependents_loop_display _ _ _ _ h1).subset
              (by simp [update_cell_display])

/-- The three ways `set_cell_value` can return: the state `u` the cell is
written in, before the display is told and dependents are recomputed. -/
theorem set_cell_value_ok (fuel : Nat) (row col : Int) (text : List Char) (s t : Model)
    (h : set_cell_value fuel row col text s = .ok t) :
    inBounds row col = true ∧ ∃ u, show_and_update fuel row col u = .ok t ∧
      ((text.head? = some '=' ∧ ∃ result s1,
          evaluate_formula fuel text row col
            (setCell s row col
              { s.spreadsheet row col with type := .FORMULA, formula := some text })
            = .ok (result, s1) ∧
          sprintf_1f result = .ok (Dbl.fmt1 result) ∧
          u = setCell s1 row col
            { s1.spreadsheet row col with
              value := some text, computed_value := some (Dbl.fmt1 result) }) ∨
       (text.head? ≠ some '=' ∧ is_number text = true ∧
          sprintf_1f (strtod text).1 = .ok (Dbl.fmt1 (strtod text).1) ∧
          u = setCell s row col
            { s.spreadsheet row col with
              type := .NUMBER, value := some (Dbl.fmt1 (strtod text).1),
              computed_value := some (Dbl.fmt1 (strtod text).1), formula := none }) ∨
       (text.head? ≠ some '=' ∧ is_number text = false ∧
          u = setCell s row col
            { s.spreadsheet row col with
              type := .TEXT, value := some text, computed_value := some text,
              formula := none })) := by
  unfold set_cell_value at h
  split at h
  · rename_i hb
    refine ⟨hb, ?_⟩
    split at h
    · rename_i heq
      split at h
      · rename_i result s1 hev
        split at h
        · rename_i str hstr
          have e := sprintf_1f_ok _ _ hstr
          subst e
          exact ⟨_, h, Or.inl ⟨heq, result, s1, hev, hstr, rfl⟩⟩
        · simp at h
      · simp at h
    · rename_i hne
      split at h
      · rename_i hnum
        split at h
        · rename_i str hstr
          have e := sprintf_1f_ok _ _ hstr
          subst e
          exact ⟨_, h, Or.inr (Or.inl ⟨hne, hnum, hstr, rfl⟩)⟩
        · simp at h
      · rename_i hnum
        exact ⟨_, h, Or.inr (Or.inr ⟨hne, by simpa using hnum, rfl⟩)⟩
  · simp at h

/-- The state in which `set_cell_value` starts the propagation differs from
the state it was called in by the written cell and by dependencies recorded. -/
theorem set_cell_value_pre (fuel : Nat) (row col : Int) (text : List Char) (s t : Model)
    (h : set_cell_value fuel row col text s = .ok t) :
    ∃ u, update_dependents_loop fuel (u.spreadsheet row col).dependencies u = .ok t ∧
      (∀ r c, ¬ (r = row ∧ c = col) →
        (u.spreadsheet r c).computed_value = (s.spreadsheet r c).computed_value ∧
        (u.spreadsheet r c).type = (s.spreadsheet r c).type ∧
        (u.spreadsheet r c).value = (s.spreadsheet r c).value ∧
        (u.spreadsheet r c).formula = (s.spreadsheet r c).formula) ∧
      (∀ r c, (s.spreadsheet r c).dependencies <:+ (u.spreadsheet r c).dependencies) ∧
      u.display = (row, col, ((u.spreadsheet row col).computed_value).getD []) :: s.display := by
  obtain ⟨hb, u, hu, hcase⟩ := set_cell_value_ok fuel row col text s t h
  simp only [show_and_update, update_dependents, hb, if_true] at hu
  refine ⟨_, hu, ?_, ?_, ?_⟩
  · intro r c hne
    simp only [update_cell_display]
    rcases hcase with ⟨-, result, s1, hev, -, rfl⟩ | ⟨-, -, -, rfl⟩ | ⟨-, -, rfl⟩
    · have hf := (evaluate_frame fuel).1 _ _ _ _ _ _ hev
      rw [setCell_other _ _ _ _ _ _ hne, hf.2.computed_eq, hf.1.type_eq, hf.1.value_eq,
        hf.1.formula_eq, setCell_other _ _ _ _ _ _ hne]
      exact ⟨rfl, rfl, rfl, rfl⟩
    · rw [setCell_other _ _ _ _ _ _ hne]
      exact ⟨rfl, rfl, rfl, rfl⟩
    · rw [setCell_other _ _ _ _ _ _ hne]
      exact ⟨rfl, rfl, rfl, rfl⟩
  · intro r c
    simp only [update_cell_display]
    have key : ∀ (w : Model) (k : cell), k.dependencies = (w.spreadsheet row col).dependencies →
        (w.spreadsheet r c).dependencies <:+ ((setCell w row col k).spreadsheet r c).dependencies := by
      intro w k hk
      by_cases hrc : r = row ∧ c = col
      · obtain ⟨rfl, rfl⟩ := hrc
        rw [setCell_same, hk]
      · rw [setCell_other _ _ _ _ _ _ hrc]
    rcases hcase with ⟨-, result, s1, hev, -, rfl⟩ | ⟨-, -, -, rfl⟩ | ⟨-, -, rfl⟩
    · have hf := (evaluate_frame fuel).1 _ _ _ _ _ _ hev
      have k1 := key s { s.spreadsheet row col with
        type := valueType.FORMULA, formula := some text } rfl
      exact (k1.trans (hf.1.deps_suffix r c)).trans (key s1 _ rfl)
    · exact key s _ rfl
    · exact key s _ rfl
  · simp only [update_cell_display]
    rcases hcase with ⟨-, result, s1, hev, -, rfl⟩ | ⟨-, -, -, rfl⟩ | ⟨-, -, rfl⟩
    · have hf := (evaluate_frame fuel).1 _ _ _ _ _ _ hev
      simp [hf.2.display_eq]
    · simp
    · simp

/-- C5, as amended. Propagation is not transitive: when `set_cell_value` on the
cell `(row, col)` returns, every Formula cell that was on that cell's dependents
list holds the rendering of its formula's value in the new grid, and the
display has been told it; every cell other than `(row, col)` that is not on
that cell's dependents list keeps the computed text it had. -/
theorem propagation_direct_only (fuel : Nat) (row col : Int) (text : List Char) (s t : Model)
    (h : set_cell_value fuel row col text s = .ok t) :
    (∀ d ∈ (s.spreadsheet row col).dependencies,
      (t.spreadsheet d.1 d.2).type = valueType.FORMULA →
      ∃ f v u, (t.spreadsheet d.1 d.2).formula = some f ∧
        evaluate_formula fuel f d.1 d.2 t = .ok (v, u) ∧
        (t.spreadsheet d.1 d.2).computed_value = some (Dbl.fmt1 v) ∧
        (d.1, d.2, Dbl.fmt1 v) ∈ t.display) ∧
    (∀ r c, ¬ (r = row ∧ c = col) → (r, c) ∉ (t.spreadsheet row col).dependencies →
      (t.spreadsheet r c).computed_value = (s.spreadsheet r c).computed_value) := by
  obtain ⟨u, hu, hother, hdeps, -⟩ := set_cell_value_pre fuel row col text s t h
  constructor
  · intro d hd hty
    exact update_dependents_loop_recomputes fuel _ u t hu d ((hdeps row col).subset hd) hty
  · intro r c hne hmem
    have hsub := (update_dependents_loop_content fuel _ u t hu).deps_suffix row col
    rw [update_dependents_loop_others fuel _ u t hu r c (fun e => hmem (hsub.subset e))]
    exact (hother r c hne).1

theorem ok_final (e : Except Fault Model) (h : returns e = true) : e = .ok (final e) := by
  cases e with
  | error f => simp [returns] at h
  | ok s => rfl

/-- C5, the claim as stated fails: after `A1 = "1"`, `B1 = "=A1"`, `C1 = "=B1"`,
setting A1 to `"2"` returns, recomputes B1 to `"2.0"` and leaves the computed
text of C1 at `"1.0"`, not `"2.0"`. -/
theorem propagation_not_transitive :
    returns (set_cell_value 10 0 0 "1".toList model_init >>= set_cell_value 10 0 1 "=A1".toList
      >>= set_cell_value 10 0 2 "=B1".toList) = true ∧
    computed_text 0 1 (set_cell_value 10 0 0 "2".toList chain_sheet)
      = .ok (some "2.0".toList) ∧
    computed_text 0 2 (set_cell_value 10 0 0 "2".toList chain_sheet)
      = .ok (some "1.0".toList) ∧
    computed_text 0 2 (set_cell_value 10 0 0 "2".toList chain_sheet)
      ≠ .ok (some "2.0".toList) := by
  decide

theorem propagation_direct_only_witness :
    set_cell_value 10 0 0 "2".toList chain_sheet
      = .ok (final (set_cell_value 10 0 0 "2".toList chain_sheet)) ∧
    ((final (set_cell_value 10 0 0 "2".toList chain_sheet)).spreadsheet 0 2).computed_value
      = (chain_sheet.spreadsheet 0 2).computed_value :=
  ⟨ok_final _ (by decide),
   (propagation_direct_only 10 0 0 "2".toList chain_sheet
      (final (set_cell_value 10 0 0 "2".toList chain_sheet)) (ok_final _ (by decide))).2
      0 2 (by decide) (by decide)⟩

/-! ## The text of a rendered number -/

theorem digitChar_isDigit (d : Nat) : (Dbl.digitChar d).isDigit = true := by
  unfold Dbl.digitChar
  split <;> decide

theorem decDigits_digits (fuel : Nat) : ∀ n acc, ∃ ds, Dbl.decDigits (fuel + 1) n acc = ds ++ acc ∧
    ds ≠ [] ∧ ∀ c ∈ ds, c.isDigit = true := by
  induction fuel with
  | zero =>
    intro n acc
    refine ⟨[Dbl.digitChar n], ?_, by simp, ?_⟩
    · simp only [Dbl.decDigits]
      split <;> rfl
    · intro c hc
      rw [List.mem_singleton.1 hc]
      exact digitChar_isDigit n
  | succ k ih =>
    intro n acc
    by_cases hn : n < 10
    · refine ⟨[Dbl.digitChar n], ?_, by simp, ?_⟩
      · rw [Dbl.decDigits]
        simp [hn]
      · intro c hc
        rw [List.mem_singleton.1 hc]
        exact digitChar_isDigit n
    · obtain ⟨ds, h1, h2, h3⟩ := ih (n / 10) (Dbl.digitChar n :: acc)
      refine ⟨ds ++ [Dbl.digitChar n], ?_, by simp, ?_⟩
      · rw [Dbl.decDigits]
        simp [hn, h1]
      · intro c hc
        rcases List.mem_append.1 hc with h | h
        · exact h3 c h
        · rw [List.mem_singleton.1 h]
          exact digitChar_isDigit n

theorem natRepr_digits (n : Nat) : Dbl.natRepr n ≠ [] ∧ ∀ c ∈ Dbl.natRepr n, c.isDigit = true := by
  obtain ⟨ds, h1, h2, h3⟩ := decDigits_digits n n []
  unfold Dbl.natRepr
  rw [h1, List.append_nil]
  exact ⟨h2, h3⟩

/-- A finite number is rendered as an optional sign, digits, a point and one
digit. -/
theorem fmt1_finite (x : Dbl) (h : x.isFinite = true) : OneDecimal (Dbl.fmt1 x) := by
  cases x with
  | nan s => simp [Dbl.isFinite] at h
  | inf s => simp [Dbl.isFinite] at h
  | fin s m e =>
    simp only [Dbl.fmt1]
    exact ⟨_, _, _, rfl, by cases s <;> simp, (natRepr_digits _).1, (natRepr_digits _).2,
      digitChar_isDigit _⟩

/-- No rendered number begins with `=`. -/
theorem fmt1_head (x : Dbl) : (Dbl.fmt1 x).head? ≠ some '=' := by
  cases x with
  | nan s => cases s <;> decide
  | inf s => cases s <;> decide
  | fin s m e =>
    cases s with
    | true => simp [Dbl.fmt1]
    | false =>
      obtain ⟨h1, h2⟩ := natRepr_digits
        ((if 0 ≤ e then m * 2 ^ e.toNat * 10
          else Dbl.roundHalfEven (m * 10) (2 ^ (-e).toNat)) / 10)
      simp only [Dbl.fmt1]
      generalize Dbl.natRepr _ = l at h1 h2 ⊢
      cases l with
      | nil => exact absurd rfl h1
      | cons c cs =>
        have hc := h2 c (List.mem_cons_self _ _)
        intro heq
        simp at heq
        rw [heq] at hc
        exact absurd hc (by decide)

/-! ## Formula cells in the states the program can be in (C6) -/

/-- After a propagation pass the computed text of a cell is what it was, or
the cell is a Formula cell and its computed text is the rendering of a number. -/
theorem update_dependents_loop_computed (fuel : Nat) (l : List (Int × Int)) :
    ∀ s t, update_dependents_loop fuel l s = .ok t → ∀ r c,
      (t.spreadsheet r c).computed_value = (s.spreadsheet r c).computed_value ∨
      ((t.spreadsheet r c).type = valueType.FORMULA ∧
        ∃ v, (t.spreadsheet r c).computed_value = some (Dbl.fmt1 v)) := by
  induction l with
  | nil =>
    intro s t h r c
    simp only [update_dependents_loop, Except.ok.injEq] at h
    subst h
    exact Or.inl rfl
  | cons d rest ih =>
    intro s t h r c
    obtain ⟨row, col⟩ := d
    have hst := update_dependents_loop_content _ _ _ _ h
    obtain ⟨-, h1 | ⟨hty, f, result, s1, -, hev, -, h1⟩⟩ :=
      update_dependents_loop_cons _ _ _ _ _ _ h
    · exact ih _ _ h1.2 r c
    · rcases ih _ _ h1 r c with h2 | h2
      · by_cases hrc : r = row ∧ c = col
        · obtain ⟨rfl, rfl⟩ := hrc
          right
          exact ⟨(hst.type_eq r c).trans hty, result, by rw [h2]; simp [update_cell_display]⟩
        · left
          rw [h2]
          simp only [update_cell_display]
          rw [setCell_other _ _ _ _ _ _ hrc]
          exact ((evaluate_frame fuel).1 _ _ _ _ _ _ hev).2.computed_eq r c
      · exact Or.inr h2

theorem formulaInv_init : FormulaInv model_init := by
  intro r c h
  simp [model_init] at h

theorem formulaInv_clear (row col : Int) (s t : Model) (hs : FormulaInv s)
    (h : clear_cell row col s = .ok t) : FormulaInv t := by
  unfold clear_cell at h
  split at h
  · simp only [Except.ok.injEq] at h
    subst h
    intro r c hty
    by_cases hrc : r = row ∧ c = col
    · obtain ⟨rfl, rfl⟩ := hrc
      simp [update_cell_display] at hty
    · simp only [update_cell_display] at hty ⊢
      rw [setCell_other _ _ _ _ _ _ hrc] at hty ⊢
      exact hs r c hty
  · simp at h

theorem formulaInv_set (fuel : Nat) (row col : Int) (text : List Char) (s t : Model)
    (hs : FormulaInv s) (h : set_cell_value fuel row col text s = .ok t) : FormulaInv t := by
  obtain ⟨hb, u, hu, hcase⟩ := set_cell_value_ok fuel row col text s t h
  have hut := show_and_update_content fuel row col u t hu
  simp only [show_and_update, update_dependents, hb, if_true] at hu
  have hcomp := update_dependents_loop_computed fuel _ _ t hu
  -- the invariant holds in the state the cell is written in
  have hinv : FormulaInv u := by
    intro r c hty
    by_cases hrc : r = row ∧ c = col
    · obtain ⟨rfl, rfl⟩ := hrc
      rcases hcase with ⟨hhead, result, s1, hev, -, rfl⟩ | ⟨-, -, -, rfl⟩ | ⟨-, -, rfl⟩
      · have hf := ((evaluate_frame fuel).1 _ _ _ _ _ _ hev).1.formula_eq r c
        rw [setCell_same] at hf
        simp only [setCell_same]
        exact ⟨text, rfl, hf, hhead, result, rfl⟩
      · simp at hty
      · simp at hty
    · have key : (u.spreadsheet r c).type = (s.spreadsheet r c).type ∧
          (u.spreadsheet r c).value = (s.spreadsheet r c).value ∧
          (u.spreadsheet r c).formula = (s.spreadsheet r c).formula ∧
          (u.spreadsheet r c).computed_value = (s.spreadsheet r c).computed_value := by
        rcases hcase with ⟨-, result, s1, hev, -, rfl⟩ | ⟨-, -, -, rfl⟩ | ⟨-, -, rfl⟩
        · have hf := (evaluate_frame fuel).1 _ _ _ _ _ _ hev
          rw [setCell_other _ _ _ _ _ _ hrc, hf.1.type_eq, hf.1.value_eq, hf.1.formula_eq,
            hf.2.computed_eq, setCell_other _ _ _ _ _ _ hrc]
          exact ⟨rfl, rfl, rfl, rfl⟩
        · rw [setCell_other _ _ _ _ _ _ hrc]
          exact ⟨rfl, rfl, rfl, rfl⟩
        · rw [setCell_other _ _ _ _ _ _ hrc]
          exact ⟨rfl, rfl, rfl, rfl⟩
      rw [key.1] at hty
      obtain ⟨f, h1, h2, h3, v, h4⟩ := hs r c hty
      exact ⟨f, key.2.1.trans h1, key.2.2.1.trans h2, h3, v, key.2.2.2.trans h4⟩
  intro r c hty
  rw [hut.type_eq] at hty
  obtain ⟨f, h1, h2, h3, v, h4⟩ := hinv r c hty
  refine ⟨f, (hut.value_eq r c).trans h1, (hut.formula_eq r c).trans h2, h3, ?_⟩
  rcases hcomp r c with h5 | h5
  · exact ⟨v, by rw [h5]; simpa [update_cell_display] using h4⟩
  · exact h5.2

theorem reachable_formulaInv (s : Model) (h : Reachable s) : FormulaInv s := by
  induction h with
  | init => exact formulaInv_init
  | set fuel row col text s t _ hset ih => exact formulaInv_set fuel row col text s t ih hset
  | clear row col s t _ hclear ih => exact formulaInv_clear row col s t ih hclear

/-- C6. In every state the program can be in and for every cell of the grid:
if the cell is a Formula cell, `get_textual_value` returns its formula source,
a text beginning with `=` that is not the cell's computed text; if it is a
Number or Text cell, `get_textual_value` returns its computed text (the empty
text when there is none). -/
theorem get_textual_value_asymmetric (s : Model) (hs : Reachable s) (row col : Int)
    (hb : inBounds row col = true) :
    ((s.spreadsheet row col).type = valueType.FORMULA →
      ∃ f, (s.spreadsheet row col).formula = some f ∧ f.head? = some '=' ∧
        get_textual_value row col s = .ok f ∧
        (s.spreadsheet row col).computed_value ≠ some f) ∧
    ((s.spreadsheet row col).type ≠ valueType.FORMULA →
      get_textual_value row col s = .ok (((s.spreadsheet row col).computed_value).getD [])) := by
  constructor
  · intro hty
    obtain ⟨f, h1, h2, h3, v, h4⟩ := reachable_formulaInv s hs row col hty
    refine ⟨f, h2, h3, by simp [get_textual_value, hb, hty, h1], ?_⟩
    rw [h4]
    intro heq
    have := fmt1_head v
    rw [Option.some.inj heq] at this
    exact this h3
  · intro hty
    simp [get_textual_value, hb, hty]

theorem reachable_number_sheet : Reachable number_sheet :=
  Reachable.set 4 0 0 "3.0".toList model_init _ Reachable.init (ok_final _ (by decide))

theorem reachable_formula_sheet : Reachable formula_sheet :=
  Reachable.set 4 0 1 "=A1+5".toList number_sheet _ reachable_number_sheet
    (ok_final _ (by decide))

theorem get_textual_value_asymmetric_witness :
    (formula_sheet.spreadsheet 0 1).type = valueType.FORMULA ∧
    (formula_sheet.spreadsheet 0 1).computed_value = some "8.0".toList ∧
    (∃ f, (formula_sheet.spreadsheet 0 1).formula = some f ∧ f.head? = some '=' ∧
      get_textual_value 0 1 formula_sheet = .ok f ∧
      (formula_sheet.spreadsheet 0 1).computed_value ≠ some f) :=
  ⟨by decide, by decide,
   (get_textual_value_asymmetric formula_sheet reachable_formula_sheet 0 1 (by decide)).1
     (by decide)⟩

/-! ## Number cells (C7) -/

/-- No text beginning with `=` is a number for `is_number`. -/
theorem is_number_head (text : List Char) (h : is_number text = true) :
    text.head? ≠ some '=' := by
  intro hhead
  cases text with
  | nil => simp at hhead
  | cons c cs =>
    simp only [List.head?_cons, Option.some.injEq] at hhead
    subst hhead
    have e1 : isspace '=' = false := by decide
    have e2 : toupper 61 = 61 := by decide
    have e3 : digitVal 10 '=' = none := by decide
    have hst : strtod ('=' :: cs) = (Dbl.zero, '=' :: cs) := by
      simp [strtod, readUnsigned, stripWord, readNumber, readDigits, List.dropWhile, e1, e2, e3]
    simp [is_number, hst] at h

/-- C7, as amended. For a text that `is_number` accepts: whenever
`set_cell_value` returns, the cell is a Number cell whose raw text and computed
text are the `%.1f` rendering of the value read by `strtod`, and when that value
is finite the rendering is an optional sign, digits, a point and one digit.
The call returns when the cell is in the grid, the rendering fits the 20
bytes allocated, and every dependent of the cell is a cell of the grid that is
the cell itself or holds no formula. -/
theorem number_cell_one_decimal (fuel : Nat) (row col : Int) (text : List Char) (s : Model)
    (hnum : is_number text = true) :
    (∀ t, set_cell_value fuel row col text s = .ok t →
      (t.spreadsheet row col).type = valueType.NUMBER ∧
      (t.spreadsheet row col).computed_value = some (Dbl.fmt1 (strtod text).1) ∧
      (t.spreadsheet row col).value = some (Dbl.fmt1 (strtod text).1) ∧
      ((strtod text).1.isFinite = true → OneDecimal (Dbl.fmt1 (strtod text).1))) ∧
    (inBounds row col = true → (Dbl.fmt1 (strtod text).1).length + 1 ≤ 20 →
      (∀ d ∈ (s.spreadsheet row col).dependencies, inBounds d.1 d.2 = true ∧
        (d = (row, col) ∨ (s.spreadsheet d.1 d.2).type ≠ valueType.FORMULA)) →
      returns (set_cell_value fuel row col text s) = true) := by
  have hhead := is_number_head text hnum
  constructor
  · intro t h
    obtain ⟨hb, u, hu, hcase⟩ := set_cell_value_ok fuel row col text s t h
    have hut := show_and_update_content fuel row col u t hu
    simp only [show_and_update, update_dependents, hb, if_true] at hu
    have hcomp := update_dependents_loop_computed fuel _ _ t hu row col
    rcases hcase with ⟨h1, -⟩ | ⟨-, -, -, rfl⟩ | ⟨-, h1, -⟩
    · exact absurd h1 hhead
    · have hty := hut.type_eq row col
      have hv := hut.value_eq row col
      simp only [setCell_same] at hty hv
      refine ⟨hty, ?_, hv, fmt1_finite _⟩
      rcases hcomp with h5 | h5
      · rw [h5]
        simp [update_cell_display]
      · rw [hty] at h5
        exact absurd h5.1 (by decide)
    · rw [hnum] at h1
      exact absurd h1 (by decide)
  · intro hb hfit hdeps
    have hs : sprintf_1f (strtod text).1 = .ok (Dbl.fmt1 (strtod text).1) := by
      simp [sprintf_1f, hfit]
    simp only [set_cell_value, hb, if_true, hhead, if_false, hnum, hs, show_and_update,
      update_dependents]
    rw [update_dependents_loop_skip]
    · rfl
    · intro d hd
      simp only [update_cell_display, setCell_same] at hd ⊢
      obtain ⟨h1, h2⟩ := hdeps d hd
      refine ⟨h1, ?_⟩
      by_cases hrc : d.1 = row ∧ d.2 = col
      · rw [hrc.1, hrc.2, setCell_same]
        simp
      · rw [setCell_other _ _ _ _ _ _ hrc]
        rcases h2 with h2 | h2
        · exact absurd ⟨congrArg Prod.fst h2, congrArg Prod.snd h2⟩ hrc
        · exact h2

theorem not_oneDecimal_inf : ¬ OneDecimal ['i', 'n', 'f'] := by
  rintro ⟨sign, ds, d, h, -, -, -, hd⟩
  have h2 := congrArg List.getLast? h
  simp at h2
  rw [← h2] at hd
  exact absurd hd (by decide)

/-- C7, the claim as stated fails: `"inf"` is a numeric literal for `is_number`,
and `set_cell_value(A1, "inf")` returns with A1 a Number cell whose computed
text is `"inf"`, which has no decimal point. -/
theorem number_cell_inf :
    is_number "inf".toList = true ∧
    computed_text 0 0 (set_cell_value 0 0 0 "inf".toList model_init)
      = .ok (some "inf".toList) ∧
    ¬ OneDecimal "inf".toList :=
  ⟨by decide, by decide, not_oneDecimal_inf⟩

theorem number_cell_one_decimal_witness :
    is_number "42".toList = true ∧
    computed_text 0 0 (set_cell_value 0 0 0 "42".toList model_init)
      = .ok (some "42.0".toList) ∧
    returns (set_cell_value 0 0 0 "42".toList model_init) = true ∧
    OneDecimal (Dbl.fmt1 (strtod "42".toList).1) :=
  ⟨by decide, by decide,
   (number_cell_one_decimal 0 0 0 "42".toList model_init (by decide)).2 (by decide) (by decide)
     (by intro d hd; cases hd),
   ((number_cell_one_decimal 0 0 0 "42".toList model_init (by decide)).1
     (final (set_cell_value 0 0 0 "42".toList model_init)) (ok_final _ (by decide))).2.2.2
     (by decide)⟩

/-! ## Setting the same formula twice (C8) -/

/-- C8, the code at the failing input: on the initial grid, setting B1 to
`"=A1"` twice returns with the computed text `"0.0"` both times, and leaves B1
twice on the dependents list of A1. -/
theorem dependency_added_twice :
    computed_text 0 1 (set_cell_value 4 0 1 "=A1".toList model_init) = .ok (some "0.0".toList) ∧
    dependents 0 0 (set_cell_value 4 0 1 "=A1".toList model_init) = .ok [(0, 1)] ∧
    computed_text 0 1
      (set_cell_value 4 0 1 "=A1".toList model_init >>= set_cell_value 4 0 1 "=A1".toList)
      = .ok (some "0.0".toList) ∧
    dependents 0 0
      (set_cell_value 4 0 1 "=A1".toList model_init >>= set_cell_value 4 0 1 "=A1".toList)
      = .ok [(0, 1), (0, 1)] := by
  decide

/-! ## Formulas that refer to each other (C9) -/

/-- While A1 holds `"=B1"` and B1 holds `"=A1"`, evaluating either formula runs
out of any fuel. -/
theorem cycle_diverges (fuel : Nat) :
    ∀ (s : Model) (drow dcol : Int) (res : Dbl),
      (s.spreadsheet 0 0).type = valueType.FORMULA →
      (s.spreadsheet 0 0).formula = some ['=', 'B', '1'] →
      (s.spreadsheet 0 1).type = valueType.FORMULA →
      (s.spreadsheet 0 1).formula = some ['=', 'A', '1'] →
      evaluate_formula fuel ['=', 'A', '1'] drow dcol s = .error .outOfFuel ∧
      evaluate_formula fuel ['=', 'B', '1'] drow dcol s = .error .outOfFuel ∧
      evaluate_formula_loop fuel (some ['A', '1']) res drow dcol s = .error .outOfFuel ∧
      evaluate_formula_loop fuel (some ['B', '1']) res drow dcol s = .error .outOfFuel := by
  have a1 : strtok ['A', '1'] = (some ['A', '1'], []) := by decide
  have a2 : is_number ['A', '1'] = false := by decide
  have a3 : ref_row ['A', '1'] = 0 := by decide
  have a4 : ref_col ['A', '1'] = 0 := by decide
  have b1 : strtok ['B', '1'] = (some ['B', '1'], []) := by decide
  have b2 : is_number ['B', '1'] = false := by decide
  have b3 : ref_row ['B', '1'] = 0 := by decide
  have b4 : ref_col ['B', '1'] = 1 := by decide
  induction fuel with
  | zero =>
    intro s drow dcol res _ _ _ _
    exact ⟨evaluate_formula_zero _ _ _ _, evaluate_formula_zero _ _ _ _, loop_zero _ _ _ _ _,
      loop_zero _ _ _ _ _⟩
  | succ n ih =>
    intro s drow dcol res hA hAf hB hBf
    refine ⟨?_, ?_, ?_, ?_⟩
    · rw [evaluate_formula_succ, a1]
      exact (ih { s with strtok_save := [], strtok_in_copy := true } drow dcol Dbl.zero hA hAf hB hBf).2.2.1
    · rw [evaluate_formula_succ, b1]
      exact (ih { s with strtok_save := [], strtok_in_copy := true } drow dcol Dbl.zero hA hAf hB hBf).2.2.2
    · rw [loop_ref_formula n ['A', '1'] res drow dcol s ['=', 'B', '1'] a2
        (by rw [a3, a4]; decide) (by rw [a3, a4]; exact hA) (by rw [a3, a4]; exact hAf)]
      rw [(ih s (ref_row ['A', '1']) (ref_col ['A', '1']) res hA hAf hB hBf).2.1]
    · rw [loop_ref_formula n ['B', '1'] res drow dcol s ['=', 'A', '1'] b2
        (by rw [b3, b4]; decide) (by rw [b3, b4]; exact hB) (by rw [b3, b4]; exact hBf)]
      rw [(ih s (ref_row ['B', '1']) (ref_col ['B', '1']) res hA hAf hB hBf).1]

/-- Closing the cycle never returns (shared by the statements below). -/
theorem close_cycle_diverges (fuel : Nat) (s : Model)
    (hA : (s.spreadsheet 0 0).type = valueType.FORMULA)
    (hAf : (s.spreadsheet 0 0).formula = some ['=', 'B', '1']) :
    set_cell_value fuel 0 1 ['=', 'A', '1'] s = .error .outOfFuel := by
  have hb : inBounds 0 1 = true := by decide
  have hne : ¬ ((0 : Int) = 0 ∧ (0 : Int) = 1) := by decide
  have h := (cycle_diverges fuel
    (setCell s 0 1 { s.spreadsheet 0 1 with
      type := valueType.FORMULA, formula := some ['=', 'A', '1'] }) 0 1 Dbl.zero
    (by rw [setCell_other _ _ _ _ _ _ hne]; exact hA)
    (by rw [setCell_other _ _ _ _ _ _ hne]; exact hAf)
    (by rw [setCell_same]) (by rw [setCell_same])).1
  simp only [set_cell_value, hb, if_true, List.head?_cons, h]

/-- C9, as amended. The code has no cycle guard and no `CircularReference`
result: in every state where A1 is a Formula cell with the source `"=B1"`, the
call `set_cell_value(B1, "=A1")` that closes the cycle runs out of any fuel,
that is, it recurses without end and does not return. -/
theorem circular_formula_never_returns (fuel : Nat) (s : Model)
    (hA : (s.spreadsheet 0 0).type = valueType.FORMULA)
    (hAf : (s.spreadsheet 0 0).formula = some "=B1".toList) :
    set_cell_value fuel 0 1 "=A1".toList s = .error .outOfFuel :=
  close_cycle_diverges fuel s hA hAf

theorem circular_formula_never_returns_witness :
    returns (set_cell_value 4 0 0 "=B1".toList model_init) = true ∧
    set_cell_value 1000 0 1 "=A1".toList half_cycle_sheet = .error .outOfFuel :=
  ⟨by decide, circular_formula_never_returns 1000 half_cycle_sheet (by decide) (by decide)⟩

/-- C9, the claim as stated fails: after `A1 = "=B1"`, which returns, no amount
of fuel lets `set_cell_value(B1, "=A1")` end in anything but running out of
fuel; it reports no circular reference and returns no state. -/
theorem circular_formula_no_error :
    returns (set_cell_value 4 0 0 "=B1".toList model_init) = true ∧
    ¬ ∃ fuel, set_cell_value fuel 0 1 "=A1".toList half_cycle_sheet ≠ .error .outOfFuel := by
  refine ⟨by decide, ?_⟩
  rintro ⟨fuel, h⟩
  exact h (close_cycle_diverges fuel half_cycle_sheet (by decide) (by decide))

/-! ## Termination (C10) -/

theorem strtok_shorter (x t rest : List Char) (h : strtok x = (some t, rest)) :
    rest.length < x.length := by
  unfold strtok at h
  split at h
  · simp at h
  · rename_i c cs heq
    simp only [Prod.mk.injEq] at h
    rw [← h.2]
    have h1 : (List.dropWhile (fun c => decide (c = '+')) x).length ≤ x.length :=
      (List.dropWhile_sublist _).length_le
    have h2 : (List.dropWhile (fun c => decide (c ≠ '+')) (c :: cs)).length ≤ (c :: cs).length :=
      (List.dropWhile_sublist _).length_le
    rw [heq] at h1
    have h3 : (List.dropWhile (fun c => decide (c ≠ '+')) (c :: cs)).tail.length
        ≤ (List.dropWhile (fun c => decide (c ≠ '+')) (c :: cs)).length - 1 := by
      rw [List.length_tail]
    have h4 : 0 < (c :: cs).length := by simp
    by_cases h5 : (List.dropWhile (fun c => decide (c ≠ '+')) (c :: cs)).length = 0
    · omega
    · omega


theorem shapeEq_save {s0 s : Model} (h : ShapeEq s0 s) (x : List Char) :
    ShapeEq s0 { s with strtok_save := x } :=
  ⟨h.type_eq, h.formula_eq⟩

theorem shapeEq_grid {s0 s : Model} (h : ShapeEq s0 s) (t : Model)
    (ht : t.spreadsheet = s.spreadsheet) : ShapeEq s0 t :=
  ⟨fun r c => by rw [ht]; exact h.type_eq r c, fun r c => by rw [ht]; exact h.formula_eq r c⟩

theorem strtok_after_call_error (f : List Char) (row col drow dcol : Int) (s : Model) (e : Fault)
    (h : strtok_after_call f row col drow dcol s = .error e) : e = Fault.freedMemory := by
  unfold strtok_after_call at h
  split at h
  · split at h
    · simp at h
    · split at h
      · simpa using h.symm
      · split at h
        · split at h
          · simp at h
          · simpa using h.symm
        · simpa using h.symm
  · simp at h

/-- After a recursive call made for a cell of the grid the loop does not run
out of fuel, if it has any. -/
theorem loop_after_call_ne (fuel : Nat) (hf : 1 ≤ fuel) (f : List Char) (res w : Dbl)
    (row col drow dcol : Int) (s s1 s2 : Model) (hb : inBounds drow dcol = true)
    (hev : evaluate_formula fuel f row col s = .ok (w, s1))
    (hac : strtok_after_call f row col drow dcol s1 = .ok s2) :
    evaluate_formula_loop fuel (strtok s2.strtok_save).1 res drow dcol
      { add_dependency s2 row col drow dcol with strtok_save := (strtok s2.strtok_save).2 }
      ≠ .error .outOfFuel := by
  have hsv := (evaluate_save fuel).1 _ _ _ _ _ _ hev
  have hafter := strtok_after_call_grid f row col drow dcol s1 s2 hb hsv hac
  obtain ⟨m, rfl⟩ : ∃ m, fuel = m + 1 := ⟨fuel - 1, by omega⟩
  rcases loop_after_call m res row col drow dcol s2 hafter with e | e
  · rw [e]
    simp
  · rw [e]
    simp

theorem shapeEq_step {s0 s : Model} (h : ShapeEq s0 s) (row col drow dcol : Int)
    (x : List Char) :
    ShapeEq s0 { add_dependency s row col drow dcol with strtok_save := x } := by
  have hs := (add_dependency_frame s row col drow dcol).1
  exact ⟨fun r c => (hs.type_eq r c).trans (h.type_eq r c),
    fun r c => (hs.formula_eq r c).trans (h.formula_eq r c)⟩

theorem shapeEq_of_sameContent {s0 s t : Model} (h : ShapeEq s0 s) (k : SameContent s t) :
    ShapeEq s0 t :=
  ⟨fun r c => (k.type_eq r c).trans (h.type_eq r c),
   fun r c => (k.formula_eq r c).trans (h.formula_eq r c)⟩

theorem tokens_succ (k : Nat) (x t rest : List Char) (h : strtok x = (some t, rest)) :
    tokens (k + 1) x = t :: tokens k rest := by
  simp [tokens, h]

theorem loop_none_ne (fuel : Nat) (hf : 1 ≤ fuel) (res : Dbl) (drow dcol : Int) (s : Model) :
    evaluate_formula_loop fuel none res drow dcol s ≠ .error .outOfFuel := by
  obtain ⟨m, rfl⟩ : ∃ m, fuel = m + 1 := ⟨fuel - 1, by omega⟩
  rw [loop_none]
  simp

/-- The loop of `evaluate_formula` ends when every component it can meet that
refers to a Formula cell has a formula whose evaluation ends. -/
theorem loop_halts (s0 : Model) (n : Nat) :
    ∀ save : List Char, save.length = n → ∀ comp : Option (List Char),
      (∀ c, comp = some c → GoodComponent s0 c) →
      (∀ k c, c ∈ tokens k save → GoodComponent s0 c) →
      ∃ N, ∀ fuel, N ≤ fuel → ∀ s res drow dcol, inBounds drow dcol = true → ShapeEq s0 s →
        s.strtok_save = save →
        evaluate_formula_loop fuel comp res drow dcol s ≠ .error .outOfFuel := by
  induction n using Nat.strong_induction_on with
  | _ n ih =>
    intro save hlen comp hcomp htok
    -- the rest of the loop, after the current component
    have hcont : ∃ M, ∀ fuel, M ≤ fuel → ∀ s res drow dcol, inBounds drow dcol = true →
        ShapeEq s0 s → s.strtok_save = (strtok save).2 →
        evaluate_formula_loop fuel (strtok save).1 res drow dcol s ≠ .error .outOfFuel := by
      cases hs : strtok save with
      | mk nxt rest =>
        cases nxt with
        | none => exact ⟨1, fun fuel hf s res drow dcol _ _ _ => loop_none_ne fuel hf _ _ _ _⟩
        | some c =>
          have hlt := strtok_shorter save c rest hs
          refine ih rest.length (by omega) rest rfl (some c) ?_ ?_
          · intro c' hc'
            cases hc'
            exact htok 1 c (by rw [tokens_succ 0 save c rest hs]; simp)
          · intro k c' hc'
            exact htok (k + 1) c' (by rw [tokens_succ k save c rest hs]; simp [hc'])
    obtain ⟨M, hM⟩ := hcont
    cases comp with
    | none => exact ⟨1, fun fuel hf s res drow dcol _ _ _ => loop_none_ne fuel hf _ _ _ _⟩
    | some comp =>
      have hgood := hcomp comp rfl
      by_cases hnum : is_number comp = true
      · refine ⟨M + 1, fun fuel hf s res drow dcol hbd hsh hsv => ?_⟩
        obtain ⟨m, rfl⟩ : ∃ m, fuel = m + 1 := ⟨fuel - 1, by omega⟩
        rw [loop_number _ _ _ _ _ _ hnum, hsv]
        exact hM m (by omega) _ _ _ _ hbd (shapeEq_save hsh _) rfl
      · have hnum' : is_number comp = false := by simpa using hnum
        by_cases hb : inBounds (ref_row comp) (ref_col comp) = true
        · cases htype : (s0.spreadsheet (ref_row comp) (ref_col comp)).type with
          | TEXT =>
            refine ⟨M + 1, fun fuel hf s res drow dcol hbd hsh hsv => ?_⟩
            obtain ⟨m, rfl⟩ : ∃ m, fuel = m + 1 := ⟨fuel - 1, by omega⟩
            rw [loop_ref_text _ _ _ _ _ s hnum' hb ((hsh.type_eq _ _).trans htype), hsv]
            exact hM m (by omega) _ _ _ _ hbd (shapeEq_step hsh _ _ _ _ _) rfl
          | NUMBER =>
            refine ⟨M + 1, fun fuel hf s res drow dcol hbd hsh hsv => ?_⟩
            obtain ⟨m, rfl⟩ : ∃ m, fuel = m + 1 := ⟨fuel - 1, by omega⟩
            cases hval : (s.spreadsheet (ref_row comp) (ref_col comp)).value with
            | none =>
              rw [loop_ref_number_null _ _ _ _ _ s hnum' hb ((hsh.type_eq _ _).trans htype) hval]
              simp
            | some w =>
              rw [loop_ref_number _ _ _ _ _ s w hnum' hb ((hsh.type_eq _ _).trans htype) hval,
                hsv]
              exact hM m (by omega) _ _ _ _ hbd (shapeEq_step hsh _ _ _ _ _) rfl
          | FORMULA =>
            cases hfor : (s0.spreadsheet (ref_row comp) (ref_col comp)).formula with
            | none =>
              refine ⟨1, fun fuel hf s res drow dcol hbd hsh hsv => ?_⟩
              obtain ⟨m, rfl⟩ : ∃ m, fuel = m + 1 := ⟨fuel - 1, by omega⟩
              rw [loop_ref_formula_null _ _ _ _ _ s hnum' hb ((hsh.type_eq _ _).trans htype)
                ((hsh.formula_eq _ _).trans hfor)]
              simp
            | some g =>
              obtain ⟨G, hG⟩ := hgood hnum' hb htype g hfor
              refine ⟨G + 2, fun fuel hf s res drow dcol hbd hsh hsv => ?_⟩
              obtain ⟨m, rfl⟩ : ∃ m, fuel = m + 1 := ⟨fuel - 1, by omega⟩
              rw [loop_ref_formula _ _ _ _ _ s g hnum' hb ((hsh.type_eq _ _).trans htype)
                ((hsh.formula_eq _ _).trans hfor)]
              have hne := hG m (by omega) s (ref_row comp) (ref_col comp) hb hsh
              cases hev : evaluate_formula m g (ref_row comp) (ref_col comp) s with
              | error e =>
                rw [hev] at hne
                simpa using hne
              | ok q =>
                obtain ⟨w, s1⟩ := q
                simp only
                cases hac : strtok_after_call g (ref_row comp) (ref_col comp) drow dcol s1 with
                | error e =>
                  rw [strtok_after_call_error _ _ _ _ _ _ _ hac]
                  simp
                | ok s2 =>
                  exact loop_after_call_ne m (by omega) g _ w _ _ drow dcol s s1 s2 hbd hev hac
        · have hb' : inBounds (ref_row comp) (ref_col comp) = false := by simpa using hb
          refine ⟨1, fun fuel hf s res drow dcol hbd hsh hsv => ?_⟩
          obtain ⟨m, rfl⟩ : ∃ m, fuel = m + 1 := ⟨fuel - 1, by omega⟩
          rw [loop_out_of_bounds _ _ _ _ _ s hnum' hb']
          simp

/-- Evaluating a formula ends when each of its components that refers to a
Formula cell names a formula whose evaluation ends. -/
theorem formula_halts (s0 : Model) (f : List Char)
    (h : ∀ k c, c ∈ tokens k f.tail → GoodComponent s0 c) : Halts s0 f := by
  cases f with
  | nil =>
    refine ⟨1, fun fuel hf s drow dcol _ _ => ?_⟩
    obtain ⟨m, rfl⟩ : ∃ m, fuel = m + 1 := ⟨fuel - 1, by omega⟩
    simp [evaluate_formula]
  | cons c body =>
    simp only [List.tail_cons] at h
    have hloop : ∃ N, ∀ fuel, N ≤ fuel → ∀ s res drow dcol, inBounds drow dcol = true →
        ShapeEq s0 s → s.strtok_save = (strtok body).2 →
        evaluate_formula_loop fuel (strtok body).1 res drow dcol s ≠ .error .outOfFuel := by
      cases hs : strtok body with
      | mk nxt rest =>
        refine loop_halts s0 rest.length rest rfl nxt ?_ ?_
        · intro t ht
          subst ht
          exact h 1 t (by rw [tokens_succ 0 body t rest hs]; simp)
        · intro k t ht
          cases nxt with
          | none =>
            have := strtok_none body (by rw [hs])
            rw [hs] at this
            simp only at this
            subst this
            cases k with
            | zero => simp [tokens] at ht
            | succ k => simp [tokens, strtok_nil] at ht
          | some t0 => exact h (k + 1) t (by rw [tokens_succ k body t0 rest hs]; simp [ht])
    obtain ⟨N, hN⟩ := hloop
    refine ⟨N + 1, fun fuel hf s drow dcol hbd hsh => ?_⟩
    obtain ⟨m, rfl⟩ : ∃ m, fuel = m + 1 := ⟨fuel - 1, by omega⟩
    rw [evaluate_formula_succ]
    exact hN m (by omega) _ _ _ _ hbd (shapeEq_grid hsh _ rfl) rfl

/-- When the references between formulas contain no cycle, evaluating the
formula of any Formula cell ends. -/
theorem cell_halts (s0 : Model) (hwf : WellFounded (Refers s0)) (b : Int × Int) :
    ∀ f, (s0.spreadsheet b.1 b.2).type = valueType.FORMULA →
      (s0.spreadsheet b.1 b.2).formula = some f → Halts s0 f := by
  induction b using hwf.induction with
  | _ b ih =>
    intro f hty hf
    apply formula_halts
    intro k c hc hnum hb htype g hg
    exact ih (ref_row c, ref_col c) ⟨hty, f, c, k, hf, hc, hnum, hb, rfl⟩ g htype hg

/-- When the references between formulas contain no cycle, one amount of fuel
is enough to evaluate the formula of any Formula cell of the grid. -/
theorem uniform_halts (s0 : Model) (hwf : WellFounded (Refers s0)) :
    ∃ N, ∀ row col f, inBounds row col = true →
      (s0.spreadsheet row col).type = valueType.FORMULA →
      (s0.spreadsheet row col).formula = some f →
      ∀ fuel, N ≤ fuel → ∀ s drow dcol, inBounds drow dcol = true → ShapeEq s0 s →
        evaluate_formula fuel f drow dcol s ≠ .error .outOfFuel := by
  have h : ∀ b : Int × Int, ∃ N, ∀ f,
      (s0.spreadsheet b.1 b.2).type = valueType.FORMULA →
      (s0.spreadsheet b.1 b.2).formula = some f →
      ∀ fuel, N ≤ fuel → ∀ s drow dcol, inBounds drow dcol = true → ShapeEq s0 s →
        evaluate_formula fuel f drow dcol s ≠ .error .outOfFuel := by
    intro b
    by_cases hty : (s0.spreadsheet b.1 b.2).type = valueType.FORMULA
    · cases hfor : (s0.spreadsheet b.1 b.2).formula with
      | none => exact ⟨0, fun f _ hf => by simp at hf⟩
      | some g =>
        obtain ⟨G, hG⟩ := cell_halts s0 hwf b g hty hfor
        refine ⟨G, fun f _ hf => ?_⟩
        simp only [Option.some.injEq] at hf
        subst hf
        exact hG
    · exact ⟨0, fun f h1 => absurd h1 hty⟩
  choose G hG using h
  refine ⟨(Finset.Icc ((0 : Int), (0 : Int)) (9, 9)).sup G, ?_⟩
  intro row col f hb hty hfor fuel hfuel
  have hmem : (row, col) ∈ Finset.Icc ((0 : Int), (0 : Int)) (9, 9) := by
    simp only [inBounds, ROWS, COLS, Bool.and_eq_true, decide_eq_true_eq] at hb
    rw [Finset.mem_Icc]
    constructor
    · exact ⟨hb.1.1.1, hb.1.2⟩
    · exact ⟨by show row ≤ 9; omega, by show col ≤ 9; omega⟩
  exact hG (row, col) f hty hfor fuel (le_trans (Finset.le_sup hmem) hfuel)

/-- With fuel enough to evaluate the formula of any Formula cell of the grid, a
propagation pass over any list of cells ends. -/
theorem update_halts (s0 : Model) (N : Nat)
    (hN : ∀ row col f, inBounds row col = true →
      (s0.spreadsheet row col).type = valueType.FORMULA →
      (s0.spreadsheet row col).formula = some f →
      ∀ fuel, N ≤ fuel → ∀ s drow dcol, inBounds drow dcol = true → ShapeEq s0 s →
        evaluate_formula fuel f drow dcol s ≠ .error .outOfFuel)
    (fuel : Nat) (hfuel : N ≤ fuel) (l : List (Int × Int)) :
    ∀ s, ShapeEq s0 s → update_dependents_loop fuel l s ≠ .error .outOfFuel := by
  induction l with
  | nil => intro s _; simp [update_dependents_loop]
  | cons d rest ih =>
    intro s hsh
    obtain ⟨row, col⟩ := d
    by_cases hb : inBounds row col = true
    · by_cases hty : (s0.spreadsheet row col).type = valueType.FORMULA
      · cases hfor : (s0.spreadsheet row col).formula with
        | none =>
          simp [update_dependents_loop, hb, (hsh.type_eq row col).trans hty,
            (hsh.formula_eq row col).trans hfor]
        | some f =>
          have hne := hN row col f hb hty hfor fuel hfuel s row col hb hsh
          simp only [update_dependents_loop, hb, (hsh.type_eq row col).trans hty,
            (hsh.formula_eq row col).trans hfor, if_true]
          cases hev : evaluate_formula fuel f row col s with
          | error e =>
            rw [hev] at hne
            simpa using hne
          | ok q =>
            obtain ⟨w, s1⟩ := q
            have hs1 := ((evaluate_frame fuel).1 _ _ _ _ _ _ hev).1
            simp only
            cases hstr : sprintf_1f w with
            | error e =>
              unfold sprintf_1f at hstr
              split at hstr
              · simp at hstr
              · simp only [Except.error.injEq] at hstr
                subst hstr
                simp
            | ok str =>
              simp only
              apply ih
              exact shapeEq_of_sameContent (shapeEq_of_sameContent
                (shapeEq_of_sameContent hsh hs1) (store_computed_content s1 row col (some str)))
                (update_cell_display_content row col str _)
      · have hty' : ¬ (s.spreadsheet row col).type = valueType.FORMULA := by
          rw [hsh.type_eq row col]
          exact hty
        simp only [update_dependents_loop, hb, hty', if_true, if_false]
        exact ih s hsh
    · have hb' : inBounds row col = false := by simpa using hb
      simp [update_dependents_loop, hb']

theorem shapeEq_store {s0 s : Model} (h : ShapeEq s0 s) (row col : Int) (k : cell)
    (hty : k.type = (s.spreadsheet row col).type)
    (hfor : k.formula = (s.spreadsheet row col).formula) :
    ShapeEq s0 (setCell s row col k) := by
  constructor <;> intro r c <;> by_cases hrc : r = row ∧ c = col
  · obtain ⟨rfl, rfl⟩ := hrc
    rw [setCell_same, hty]
    exact h.type_eq r c
  · rw [setCell_other _ _ _ _ _ _ hrc]
    exact h.type_eq r c
  · obtain ⟨rfl, rfl⟩ := hrc
    rw [setCell_same, hfor]
    exact h.formula_eq r c
  · rw [setCell_other _ _ _ _ _ _ hrc]
    exact h.formula_eq r c

theorem shapeEq_setCell (s : Model) (row col : Int) (k k' : cell) (hty : k'.type = k.type)
    (hfor : k'.formula = k.formula) : ShapeEq (setCell s row col k) (setCell s row col k') := by
  constructor <;> intro r c <;> by_cases hrc : r = row ∧ c = col
  · obtain ⟨rfl, rfl⟩ := hrc
    rw [setCell_same, setCell_same, hty]
  · rw [setCell_other _ _ _ _ _ _ hrc, setCell_other _ _ _ _ _ _ hrc]
  · obtain ⟨rfl, rfl⟩ := hrc
    rw [setCell_same, setCell_same, hfor]
  · rw [setCell_other _ _ _ _ _ _ hrc, setCell_other _ _ _ _ _ _ hrc]

theorem shapeEq_display {s0 s : Model} (h : ShapeEq s0 s) (row col : Int) (text : List Char) :
    ShapeEq s0 (update_cell_display row col text s) :=
  ⟨h.type_eq, h.formula_eq⟩

theorem sprintf_1f_error (x : Dbl) (e : Fault) (h : sprintf_1f x = .error e) :
    e = Fault.bufferOverflow := by
  unfold sprintf_1f at h
  split at h
  · simp at h
  · simpa using h.symm

/-- While A1 holds `"=A1"`, evaluating that formula runs out of any fuel. -/
theorem self_diverges (fuel : Nat) :
    ∀ (s : Model) (drow dcol : Int) (res : Dbl),
      (s.spreadsheet 0 0).type = valueType.FORMULA →
      (s.spreadsheet 0 0).formula = some ['=', 'A', '1'] →
      evaluate_formula fuel ['=', 'A', '1'] drow dcol s = .error .outOfFuel ∧
      evaluate_formula_loop fuel (some ['A', '1']) res drow dcol s = .error .outOfFuel := by
  have a1 : strtok ['A', '1'] = (some ['A', '1'], []) := by decide
  have a2 : is_number ['A', '1'] = false := by decide
  have a3 : ref_row ['A', '1'] = 0 := by decide
  have a4 : ref_col ['A', '1'] = 0 := by decide
  induction fuel with
  | zero =>
    intro s drow dcol res _ _
    exact ⟨evaluate_formula_zero _ _ _ _, loop_zero _ _ _ _ _⟩
  | succ n ih =>
    intro s drow dcol res hA hAf
    constructor
    · rw [evaluate_formula_succ, a1]
      exact (ih { s with strtok_save := [], strtok_in_copy := true } drow dcol Dbl.zero hA hAf).2
    · rw [loop_ref_formula n ['A', '1'] res drow dcol s ['=', 'A', '1'] a2
        (by rw [a3, a4]; decide) (by rw [a3, a4]; exact hA) (by rw [a3, a4]; exact hAf)]
      rw [(ih s (ref_row ['A', '1']) (ref_col ['A', '1']) res hA hAf).1]

/-- C10, the claim as stated fails: on the initial grid no amount of fuel lets
`set_cell_value(A1, "=A1")` end in anything but running out of fuel, and after
`A1 = "=B1"` none lets `set_cell_value(B1, "=A1")` do so: the calls recurse
without end and do not return. -/
theorem self_reference_never_returns :
    (¬ ∃ fuel, set_cell_value fuel 0 0 "=A1".toList model_init ≠ .error .outOfFuel) ∧
    (¬ ∃ fuel, set_cell_value fuel 0 1 "=A1".toList half_cycle_sheet ≠ .error .outOfFuel) := by
  constructor
  · rintro ⟨fuel, h⟩
    apply h
    have hb : inBounds 0 0 = true := by decide
    have t1 : "=A1".toList = ['=', 'A', '1'] := rfl
    have hd := (self_diverges fuel
      (setCell model_init 0 0 { model_init.spreadsheet 0 0 with
        type := valueType.FORMULA, formula := some ['=', 'A', '1'] }) 0 0 Dbl.zero
      (by rw [setCell_same]) (by rw [setCell_same])).1
    rw [t1]
    simp only [set_cell_value, hb, if_true, List.head?_cons, hd]
  · rintro ⟨fuel, h⟩
    exact h (close_cycle_diverges fuel half_cycle_sheet (by decide) (by decide))

theorem contentEq_setCell (s : Model) (row col : Int) (k k' : cell) (hty : k'.type = k.type)
    (hval : k'.value = k.value) (hfor : k'.formula = k.formula) :
    ContentEq (setCell s row col k) (setCell s row col k') := by
  constructor <;> intro r c <;> by_cases hrc : r = row ∧ c = col
  · obtain ⟨rfl, rfl⟩ := hrc
    rw [setCell_same, setCell_same, hty]
  · rw [setCell_other _ _ _ _ _ _ hrc, setCell_other _ _ _ _ _ _ hrc]
  · obtain ⟨rfl, rfl⟩ := hrc
    rw [setCell_same, setCell_same, hval]
  · rw [setCell_other _ _ _ _ _ _ hrc, setCell_other _ _ _ _ _ _ hrc]
  · obtain ⟨rfl, rfl⟩ := hrc
    rw [setCell_same, setCell_same, hfor]
  · rw [setCell_other _ _ _ _ _ _ hrc, setCell_other _ _ _ _ _ _ hrc]

/-- A call of `set_cell_value` ends, given enough fuel, in a result or in a
fault other than running out of fuel, when the references between the formulas
of the grid, the text being entered included, contain no cycle. -/
theorem set_cell_value_halts (s : Model) (row col : Int) (text : List Char)
    (hwf : WellFounded (Refers (written s row col text))) :
    ∃ N, ∀ fuel, N ≤ fuel → set_cell_value fuel row col text s ≠ .error .outOfFuel := by
  obtain ⟨N, hN⟩ := uniform_halts (written s row col text) hwf
  refine ⟨N, fun fuel hfuel => ?_⟩
  by_cases hb : inBounds row col = true
  · by_cases hhead : text.head? = some '='
    · have hsh0 : ShapeEq (written s row col text)
          (setCell s row col { s.spreadsheet row col with
            type := valueType.FORMULA, formula := some text }) :=
        shapeEq_setCell s row col _ _ (by simp [classify, hhead]) (by simp [hhead])
      have hne := hN row col text hb (by simp [written, classify, hhead])
        (by simp [written, hhead]) fuel hfuel _ row col hb hsh0
      simp only [set_cell_value, hb, hhead, if_true]
      cases hev : evaluate_formula fuel text row col
          (setCell s row col { s.spreadsheet row col with
            type := valueType.FORMULA, formula := some text }) with
      | error e =>
        rw [hev] at hne
        simpa using hne
      | ok q =>
        obtain ⟨w, s1⟩ := q
        have hs1 := ((evaluate_frame fuel).1 _ _ _ _ _ _ hev).1
        simp only
        cases hstr : sprintf_1f w with
        | error e =>
          rw [sprintf_1f_error w e hstr]
          simp
        | ok str =>
          simp only [show_and_update, update_dependents, hb, if_true]
          apply update_halts (written s row col text) N hN fuel hfuel
          apply shapeEq_display
          apply shapeEq_store (shapeEq_of_sameContent hsh0 hs1) <;> rfl
    · by_cases hnum : is_number text = true
      · simp only [set_cell_value, hb, hhead, hnum, if_true, if_false]
        cases hstr : sprintf_1f (strtod text).1 with
        | error e =>
          rw [sprintf_1f_error _ e hstr]
          simp
        | ok str =>
          simp only [show_and_update, update_dependents, hb, if_true]
          apply update_halts (written s row col text) N hN fuel hfuel
          exact shapeEq_display
            (shapeEq_setCell s row col _ _ (by simp [classify, hhead, hnum])
              (by simp [hhead])) _ _ _
      · simp only [set_cell_value, hb, hhead, hnum, if_true, if_false, show_and_update,
          update_dependents]
        apply update_halts (written s row col text) N hN fuel hfuel
        exact shapeEq_display
          (shapeEq_setCell s row col _ _ (by simp [classify, hhead, hnum])
            (by simp [hhead])) _ _ _
  · have hb' : inBounds row col = false := by simpa using hb
    simp [set_cell_value, hb']

/-- Entering a formula whose evaluation comes to a reference to the cell being
set runs out of any fuel. -/
theorem set_cell_value_self (s : Model) (row col : Int) (body comp save : List Char)
    (hb : inBounds row col = true) (htok : strtok body = (some comp, save))
    (hl : SelfLoop (written s row col ('=' :: body)) row col comp save) (fuel : Nat) :
    set_cell_value fuel row col ('=' :: body) s = .error .outOfFuel := by
  have hc : ContentEq (written s row col ('=' :: body))
      (setCell s row col { s.spreadsheet row col with
        type := valueType.FORMULA, formula := some ('=' :: body) }) :=
    contentEq_setCell s row col _ _ (by simp [classify]) rfl (by simp)
  have hev := selfLoop_diverges (written s row col ('=' :: body)) row col '=' body comp save hb
    (by simp [written, classify]) (by simp [written]) htok hl fuel _ hc
  simp only [set_cell_value, hb, if_true, List.head?_cons, hev]

/-- C10, as amended. `clear_cell` and `get_textual_value` return for all
coordinates in the grid, in every state.  A call of `set_cell_value` ends,
given enough fuel, in a result or in a fault other than running out of fuel,
whenever the references between the formulas of the grid, the text being
entered included, contain no cycle.  A call of `set_cell_value` for a cell of
the grid runs out of any fuel, that is, it recurses without end, when the
evaluation of the formula entered comes to a reference to the cell being set,
every component before it being a number or a reference to a cell of the grid
that holds no formula; so does the call `set_cell_value(B1, "=A1")` while A1
holds the formula `"=B1"`.  A reference to the cell being set that follows a
reference to a Formula cell may not be reached: with C1 = `"=1"`, the call
`set_cell_value(A1, "=C1+A1")` returns and gives A1 the text `"1.0"`. -/
theorem operations_terminate (s : Model) (row col : Int) (text : List Char) :
    (inBounds row col = true →
      returns (clear_cell row col s) = true ∧ returns (get_textual_value row col s) = true) ∧
    (WellFounded (Refers (written s row col text)) →
      ∃ N, ∀ fuel, N ≤ fuel → set_cell_value fuel row col text s ≠ .error .outOfFuel) ∧
    (inBounds row col = true → ∀ body comp save, text = '=' :: body →
      strtok body = (some comp, save) →
      SelfLoop (written s row col text) row col comp save →
      ∀ fuel, set_cell_value fuel row col text s = .error .outOfFuel) ∧
    ((s.spreadsheet 0 0).type = valueType.FORMULA →
      (s.spreadsheet 0 0).formula = some "=B1".toList →
      ∀ fuel, set_cell_value fuel 0 1 "=A1".toList s = .error .outOfFuel) ∧
    computed_text 0 0
      (set_cell_value 10 0 2 "=1".toList model_init >>= set_cell_value 10 0 0 "=C1+A1".toList)
      = .ok (some "1.0".toList) := by
  refine ⟨?_, set_cell_value_halts s row col text, ?_, ?_, by decide⟩
  · intro hb
    simp only [clear_cell, get_textual_value, hb, if_true]
    constructor
    · rfl
    · split <;> rfl
  · intro hb body comp save htext htok hl fuel
    subst htext
    exact set_cell_value_self s row col body comp save hb htok hl fuel
  · intro hA hAf fuel
    exact close_cycle_diverges fuel s hA hAf

theorem tokens_nil (k : Nat) : tokens k [] = [] := by
  cases k with
  | zero => rfl
  | succ k => simp [tokens, strtok_nil]

/-- On the initial grid with `"=B1"` entered in A1, the only reference is the
one from A1 to B1. -/
theorem refers_written_init (a b : Int × Int)
    (h : Refers (written model_init 0 0 "=B1".toList) a b) : b = (0, 0) ∧ a = (0, 1) := by
  have t1 : "=B1".toList = ['=', 'B', '1'] := rfl
  have e1 : strtok ['B', '1'] = (some ['B', '1'], []) := by decide
  have e2 : (ref_row ['B', '1'], ref_col ['B', '1']) = (0, 1) := by decide
  rw [t1] at h
  obtain ⟨b1, b2⟩ := b
  obtain ⟨hty, f, comp, k, hf, hc, -, -, ha⟩ := h
  by_cases hb0 : b1 = 0 ∧ b2 = 0
  · obtain ⟨rfl, rfl⟩ := hb0
    simp only [written, setCell_same, List.head?_cons, if_true, Option.some.injEq] at hf
    subst hf
    cases k with
    | zero => simp [tokens] at hc
    | succ k =>
      simp only [List.tail_cons, tokens, e1, tokens_nil, List.mem_singleton] at hc
      subst hc
      exact ⟨rfl, ha.trans e2⟩
  · simp only [written] at hty
    rw [setCell_other _ _ _ _ _ _ hb0] at hty
    simp [model_init] at hty

theorem operations_terminate_witness :
    (returns (clear_cell 0 0 half_cycle_sheet) = true ∧
      returns (get_textual_value 0 0 half_cycle_sheet) = true) ∧
    (∃ N, ∀ fuel, N ≤ fuel →
      set_cell_value fuel 0 0 "=B1".toList model_init ≠ .error .outOfFuel) ∧
    (∀ fuel, set_cell_value fuel 0 0 "=1+A1".toList model_init = .error .outOfFuel) ∧
    (∀ fuel, set_cell_value fuel 0 1 "=A1".toList half_cycle_sheet = .error .outOfFuel) :=
  ⟨(operations_terminate half_cycle_sheet 0 0 []).1 (by decide),
   (operations_terminate model_init 0 0 "=B1".toList).2.1
    ⟨fun b => Acc.intro b (fun a hab => by
      obtain ⟨-, rfl⟩ := refers_written_init a b hab
      exact Acc.intro _ (fun c hc => by
        have h := (refers_written_init c _ hc).1
        simp at h))⟩,
   (operations_terminate model_init 0 0 "=1+A1".toList).2.2.1 (by decide)
    "1+A1".toList "1".toList "A1".toList rfl (by decide)
    (SelfLoop.skip "1".toList "A1".toList "A1".toList [] (Or.inl (by decide)) (by decide)
      (SelfLoop.hit "A1".toList [] (by decide) (by decide) (by decide))),
   (operations_terminate half_cycle_sheet 0 0 []).2.2.2.1 (by decide) (by decide)⟩

/-! ## References outside the grid (C11) -/

/-- A loop that is about to come to a component naming a cell outside the grid
ends, given fuel for the components that remain, by indexing `spreadsheet`
outside the grid. -/
theorem outsideLoop_loop (s0 : Model) (comp save : List Char) (hl : OutsideLoop s0 comp save) :
    ∀ (s : Model) (res : Dbl) (drow dcol : Int), ContentEq s0 s → s.strtok_save = save →
      ∀ fuel, save.length + 1 ≤ fuel →
        evaluate_formula_loop fuel (some comp) res drow dcol s = .error .outOfBounds := by
  induction hl with
  | hit comp save h1 h2 =>
    intro s res drow dcol _ _ fuel hfuel
    obtain ⟨m, rfl⟩ : ∃ m, fuel = m + 1 := ⟨fuel - 1, by omega⟩
    exact loop_out_of_bounds m comp res drow dcol s h1 h2
  | skip comp save next rest h1 h2 _ ih =>
    intro s res drow dcol hsh hsv fuel hfuel
    obtain ⟨m, rfl⟩ : ∃ m, fuel = m + 1 := ⟨fuel - 1, by omega⟩
    have hlt := strtok_shorter save next rest h2
    obtain ⟨res1, u, hu, husv, -, -, -, -, -, hstep⟩ :=
      loop_passed m comp res drow dcol s (passed_congr hsh comp h1)
    rw [hstep, hsv, h2]
    exact ih u res1 drow dcol (hsh.trans_eq hu) (by rw [husv, hsv, h2]) m (by omega)

/-- C11, as amended. The code has no bounds check and no `InvalidReference`
result.  Whenever the evaluation of the formula entered in a cell of the grid
comes to a component that is not a number and that, read as a reference, names
coordinates outside the grid, every component before it being a number or a
reference to a cell of the grid that holds no formula, the call
`set_cell_value` ends, given fuel for the components of the formula, in the
fault of indexing `spreadsheet` outside the grid, which C leaves undefined.  A
component that follows a reference to a Formula cell may not be reached: with
C1 = `"=1"`, the call `set_cell_value(A1, "=C1+Z1")` returns and gives A1 the
text `"1.0"`. -/
theorem reference_outside_grid (fuel : Nat) (row col : Int) (body comp save : List Char)
    (s : Model) (hb : inBounds row col = true) (htok : strtok body = (some comp, save))
    (hl : OutsideLoop (written s row col ('=' :: body)) comp save)
    (hfuel : body.length + 2 ≤ fuel) :
    set_cell_value fuel row col ('=' :: body) s = .error .outOfBounds ∧
    computed_text 0 0
      (set_cell_value 10 0 2 "=1".toList model_init >>= set_cell_value 10 0 0 "=C1+Z1".toList)
      = .ok (some "1.0".toList) := by
  refine ⟨?_, by decide⟩
  have hc : ContentEq (written s row col ('=' :: body))
      (setCell s row col { s.spreadsheet row col with
        type := valueType.FORMULA, formula := some ('=' :: body) }) :=
    contentEq_setCell s row col _ _ (by simp [classify]) rfl (by simp)
  have hlt := strtok_shorter body comp save htok
  obtain ⟨m, rfl⟩ : ∃ m, fuel = m + 1 := ⟨fuel - 1, by omega⟩
  have hev : evaluate_formula (m + 1) ('=' :: body) row col
      (setCell s row col { s.spreadsheet row col with
        type := valueType.FORMULA, formula := some ('=' :: body) }) = .error .outOfBounds := by
    rw [evaluate_formula_succ, htok]
    refine outsideLoop_loop _ comp save hl _ _ _ _ ?_ ?_ m (by omega)
    · exact ⟨hc.type_eq, hc.value_eq, hc.formula_eq⟩
    · rfl
  simp only [set_cell_value, hb, if_true, List.head?_cons, hev]

theorem reference_outside_grid_witness :
    set_cell_value 6 0 0 "=1+Z1".toList model_init = .error .outOfBounds :=
  (reference_outside_grid 6 0 0 "1+Z1".toList "1".toList "Z1".toList model_init (by decide)
    (by decide)
    (OutsideLoop.skip "1".toList "Z1".toList "Z1".toList [] (Or.inl (by decide)) (by decide)
      (OutsideLoop.hit "Z1".toList [] (by decide) (by decide)))
    (by decide)).1

/-- C11, the claim as stated fails: `"=Z1"` names column 25, outside the grid,
and `set_cell_value(A1, "=Z1")` reports no invalid reference: the evaluation
indexes `spreadsheet[0][25]`, outside the grid, which is the fault
`outOfBounds`. -/
theorem reference_Z1_indexes_outside :
    ref_row "Z1".toList = 0 ∧ ref_col "Z1".toList = 25 ∧ inBounds 0 25 = false ∧
    fault_of (set_cell_value 5 0 0 "=Z1".toList model_init) = some Fault.outOfBounds := by
  decide

/-! ## The formula without terms (C12) -/

theorem evaluate_empty (fuel : Nat) (drow dcol : Int) (s : Model) :
    evaluate_formula (fuel + 2) ['='] drow dcol s
      = .ok (Dbl.zero, { s with strtok_save := [], strtok_in_copy := true }) := by
  rw [evaluate_formula_succ, strtok_nil, loop_none]

theorem evaluate_empty_ok (fuel : Nat) (drow dcol : Int) (s t : Model) (v : Dbl)
    (h : evaluate_formula fuel ['='] drow dcol s = .ok (v, t)) : v = Dbl.zero := by
  cases fuel with
  | zero => rw [evaluate_formula_zero] at h; simp at h
  | succ n =>
    cases n with
    | zero => rw [evaluate_formula_succ, loop_zero] at h; simp at h
    | succ m =>
      rw [evaluate_empty] at h
      simp only [Except.ok.injEq, Prod.mk.injEq] at h
      exact h.1.symm

/-- C12, as amended. The code has no `EmptyFormula` result: whenever
`set_cell_value(row, col, "=")` returns, the cell is a Formula cell with the raw
text `"="` and the computed text `"0.0"`; and it does return, for a cell of the
grid whose dependents are other cells of the grid that hold no formula. -/
theorem empty_formula_is_zero (fuel : Nat) (row col : Int) (s : Model) :
    (∀ t, set_cell_value fuel row col "=".toList s = .ok t →
      (t.spreadsheet row col).type = valueType.FORMULA ∧
      (t.spreadsheet row col).value = some "=".toList ∧
      (t.spreadsheet row col).computed_value = some "0.0".toList) ∧
    (inBounds row col = true →
      (∀ d ∈ (s.spreadsheet row col).dependencies, inBounds d.1 d.2 = true ∧ d ≠ (row, col) ∧
        (s.spreadsheet d.1 d.2).type ≠ valueType.FORMULA) →
      returns (set_cell_value (fuel + 2) row col "=".toList s) = true) := by
  have t1 : "=".toList = ['='] := rfl
  have t2 : "0.0".toList = ['0', '.', '0'] := rfl
  have e0 : Dbl.fmt1 Dbl.zero = ['0', '.', '0'] := by decide
  have e1 : sprintf_1f Dbl.zero = .ok ['0', '.', '0'] := by decide
  rw [t1, t2]
  constructor
  · intro t h
    obtain ⟨hb, u, hu, hcase⟩ := set_cell_value_ok fuel row col ['='] s t h
    have hut := show_and_update_content fuel row col u t hu
    simp only [show_and_update, update_dependents, hb, if_true] at hu
    rcases hcase with ⟨-, result, s1, hev, -, rfl⟩ | ⟨h1, -⟩ | ⟨h1, -⟩
    · have hz := evaluate_empty_ok _ _ _ _ _ _ hev
      subst hz
      have hf := ((evaluate_frame fuel).1 _ _ _ _ _ _ hev).1
      have hty : (t.spreadsheet row col).type = valueType.FORMULA := by
        rw [hut.type_eq, setCell_same]
        simpa using hf.type_eq row col
      have hfor : (t.spreadsheet row col).formula = some ['='] := by
        rw [hut.formula_eq, setCell_same]
        simpa using hf.formula_eq row col
      refine ⟨hty, by rw [hut.value_eq, setCell_same], ?_⟩
      by_cases hmem : (row, col) ∈ ((update_cell_display row col
          (((setCell s1 row col { s1.spreadsheet row col with
            value := some ['='], computed_value := some (Dbl.fmt1 Dbl.zero) }).spreadsheet
              row col).computed_value.getD [])
          (setCell s1 row col { s1.spreadsheet row col with
            value := some ['='], computed_value := some (Dbl.fmt1 Dbl.zero) })).spreadsheet
              row col).dependencies
      · obtain ⟨f, v, w, h1, h2, h3, -⟩ :=
          update_dependents_loop_recomputes fuel _ _ t hu (row, col) hmem hty
        simp only at h1 h2 h3
        rw [hfor] at h1
        simp only [Option.some.injEq] at h1
        subst h1
        rw [h3, evaluate_empty_ok _ _ _ _ _ _ h2, e0]
      · rw [update_dependents_loop_others fuel _ _ t hu row col hmem]
        simp [update_cell_display, e0]
    · simp at h1
    · simp at h1
  · intro hb hdeps
    have hev := evaluate_empty fuel row col
      (setCell s row col { s.spreadsheet row col with
        type := valueType.FORMULA, formula := some ['='] })
    simp only [set_cell_value, hb, if_true, List.head?_cons, hev, e1, show_and_update,
      update_dependents, setCell_same, Option.getD_some]
    rw [update_dependents_loop_skip]
    · rfl
    · intro d hd
      simp only [update_cell_display, setCell_same] at hd ⊢
      obtain ⟨h1, h2, h3⟩ := hdeps d hd
      refine ⟨h1, ?_⟩
      have hd' : ¬ (d.1 = row ∧ d.2 = col) := fun h => h2 (Prod.ext h.1 h.2)
      rw [setCell_other _ _ _ _ _ _ hd']
      simp only
      rw [setCell_other _ _ _ _ _ _ hd']
      exact h3

theorem empty_formula_is_zero_witness :
    returns (set_cell_value 2 0 0 "=".toList model_init) = true ∧
    ((final (set_cell_value 2 0 0 "=".toList model_init)).spreadsheet 0 0).computed_value
      = some "0.0".toList :=
  ⟨(empty_formula_is_zero 0 0 0 model_init).2 (by decide) (by intro d hd; cases hd),
   ((empty_formula_is_zero 2 0 0 model_init).1 _ (ok_final _ (by decide))).2.2⟩

/-- C12, the claim as stated fails: on the initial grid `set_cell_value(A1, "=")`
returns, with no fault, and leaves A1 a Formula cell showing `"0.0"`. -/
theorem empty_formula_accepted :
    fault_of (set_cell_value 2 0 0 "=".toList model_init) = none ∧
    computed_text 0 0 (set_cell_value 2 0 0 "=".toList model_init)
      = .ok (some "0.0".toList) := by
  decide

/-! ## Clearing a cell (C13, C16) -/

/-- C13, the code at the failing input: after `A1 = "42"`, `clear_cell(A1)`
returns; A1 is then a Text cell without raw text or formula source and the
display was told `""`, but the computed text is still `"42.0"`, and that is
what `get_textual_value(A1)` returns. -/
theorem clear_cell_keeps_computed :
    returns (clear_cell 0 0 answer_sheet) = true ∧
    ((final (clear_cell 0 0 answer_sheet)).spreadsheet 0 0).type = valueType.TEXT ∧
    ((final (clear_cell 0 0 answer_sheet)).spreadsheet 0 0).value = none ∧
    ((final (clear_cell 0 0 answer_sheet)).spreadsheet 0 0).formula = none ∧
    (final (clear_cell 0 0 answer_sheet)).display.head? = some (0, 0, []) ∧
    ((final (clear_cell 0 0 answer_sheet)).spreadsheet 0 0).computed_value
      = some "42.0".toList ∧
    (clear_cell 0 0 answer_sheet >>= get_textual_value 0 0) = .ok "42.0".toList := by
  decide

/-- C16. For every state and every cell of the grid, `clear_cell` returns,
leaves the dependents list (and the computed text) of the cell as they were,
and leaves every other cell as it was. -/
theorem clear_cell_frame (row col : Int) (s : Model) (hb : inBounds row col = true) :
    ∃ t, clear_cell row col s = .ok t ∧
      (t.spreadsheet row col).dependencies = (s.spreadsheet row col).dependencies ∧
      (t.spreadsheet row col).computed_value = (s.spreadsheet row col).computed_value ∧
      ∀ r c, ¬ (r = row ∧ c = col) → t.spreadsheet r c = s.spreadsheet r c := by
  have h : clear_cell row col s = .ok (update_cell_display row col []
      (setCell s row col
        { s.spreadsheet row col with value := none, formula := none, type := .TEXT })) := by
    simp only [clear_cell, hb, if_true]
  refine ⟨_, h, ?_, ?_, ?_⟩
  · simp [update_cell_display]
  · simp [update_cell_display]
  · intro r c hrc
    simp only [update_cell_display]
    exact setCell_other _ _ _ _ _ _ hrc

theorem clear_cell_frame_witness :
    ∃ t, clear_cell 0 1 formula_sheet = .ok t ∧
      (t.spreadsheet 0 1).dependencies = (formula_sheet.spreadsheet 0 1).dependencies ∧
      (t.spreadsheet 0 1).computed_value = (formula_sheet.spreadsheet 0 1).computed_value ∧
      ∀ r c, ¬ (r = 0 ∧ c = 1) → t.spreadsheet r c = formula_sheet.spreadsheet r c :=
  clear_cell_frame 0 1 formula_sheet (by decide)

/-! ## Reading a cell reference (C14) -/

/-- C14, as amended. A component read as a cell reference gives the column
`toupper(first character) - 'A'` and the row `second character - '1'`; whatever
follows the second character is not read.  So `"A1"` and `"a1"` give row 0 and
column 0, and `"A10"` gives row 0 and column 0 as well. -/
theorem reference_reads_two_characters (c0 c1 : Char) (rest : List Char) :
    ref_col (c0 :: c1 :: rest) = (toupper c0.toNat : Int) - 65 ∧
    ref_row (c0 :: c1 :: rest) = (c1.toNat : Int) - 49 ∧
    (ref_row "A1".toList, ref_col "A1".toList) = (0, 0) ∧
    (ref_row "a1".toList, ref_col "a1".toList) = (0, 0) ∧
    (ref_row "A10".toList, ref_col "A10".toList) = (0, 0) := by
  refine ⟨?_, ?_, by decide, by decide, by decide⟩
  · simp [ref_col, charAt]
  · simp [ref_row, charAt]

/-- C14, the claim as stated fails: `"A10"` is read as row 0, not row 9, so
with A1 = `"7"` the formula `"=A10"` in B1 shows the value of A1. -/
theorem reference_A10_is_A1 :
    ref_row "A10".toList = 0 ∧ ref_row "A10".toList ≠ 9 ∧
    computed_text 0 1
      (set_cell_value 4 0 0 "7".toList model_init >>= set_cell_value 4 0 1 "=A10".toList)
      = .ok (some "7.0".toList) := by
  decide

/-! ## Dependents lists only grow (C17) -/

/-- C17. Whatever operation takes a state to the next, a returning call of
`set_cell_value`, `clear_cell`, `evaluate_formula` or `update_dependents`
(`get_textual_value` changes no state), the dependents list each cell had
before is the tail end of the list it has afterwards. -/
theorem dependents_only_grow (s t : Model) (h : Step s t) (r c : Int) :
    (s.spreadsheet r c).dependencies <:+ (t.spreadsheet r c).dependencies := by
  rcases h with ⟨fuel, row, col, text, h⟩ | ⟨row, col, h⟩ | ⟨fuel, f, drow, dcol, v, h⟩ |
    ⟨fuel, row, col, h⟩
  · obtain ⟨u, hu, -, hdeps, -⟩ := set_cell_value_pre fuel row col text s t h
    exact (hdeps r c).trans ((update_dependents_loop_content fuel _ u t hu).deps_suffix r c)
  · unfold clear_cell at h
    split at h
    · simp only [Except.ok.injEq] at h
      subst h
      by_cases hrc : r = row ∧ c = col
      · obtain ⟨rfl, rfl⟩ := hrc
        simp [update_cell_display]
      · simp only [update_cell_display]
        rw [setCell_other _ _ _ _ _ _ hrc]
    · simp at h
  · exact ((evaluate_frame fuel).1 _ _ _ _ _ _ h).1.deps_suffix r c
  · exact (update_dependents_content fuel row col s t h).deps_suffix r c

theorem dependents_only_grow_witness :
    (ref_sheet.spreadsheet 0 0).dependencies = [(0, 1)] ∧
    set_cell_value 4 0 1 "=C1".toList ref_sheet
      = .ok (final (set_cell_value 4 0 1 "=C1".toList ref_sheet)) ∧
    (ref_sheet.spreadsheet 0 0).dependencies <:+
      ((final (set_cell_value 4 0 1 "=C1".toList ref_sheet)).spreadsheet 0 0).dependencies :=
  ⟨by decide, ok_final _ (by decide),
   dependents_only_grow ref_sheet (final (set_cell_value 4 0 1 "=C1".toList ref_sheet))
     (Or.inl ⟨4, 0, 1, "=C1".toList, ok_final _ (by decide)⟩) 0 0⟩

/-! ## The formula source of a cell (C19) -/

theorem sourceInv_init : SourceInv model_init (fun _ _ => none) := by
  intro r c
  constructor
  · intro h
    simp [model_init] at h
  · intro h
    simp [model_init] at h

theorem sourceInv_clear (row col : Int) (s t : Model) (e : Int → Int → Option (List Char))
    (hs : SourceInv s e) (h : clear_cell row col s = .ok t) :
    SourceInv t (fun r c => if r = row ∧ c = col then none else e r c) := by
  unfold clear_cell at h
  split at h
  · simp only [Except.ok.injEq] at h
    subst h
    intro r c
    by_cases hrc : r = row ∧ c = col
    · obtain ⟨rfl, rfl⟩ := hrc
      simp [update_cell_display]
    · simp only [update_cell_display, hrc, if_false]
      rw [setCell_other _ _ _ _ _ _ hrc]
      exact hs r c
  · simp at h

theorem sourceInv_set (fuel : Nat) (row col : Int) (text : List Char) (s t : Model)
    (e : Int → Int → Option (List Char)) (hs : SourceInv s e)
    (h : set_cell_value fuel row col text s = .ok t) :
    SourceInv t (fun r c => if r = row ∧ c = col then some text else e r c) := by
  obtain ⟨hb, u, hu, hcase⟩ := set_cell_value_ok fuel row col text s t h
  have hut := show_and_update_content fuel row col u t hu
  intro r c
  rw [hut.type_eq, hut.formula_eq]
  by_cases hrc : r = row ∧ c = col
  · obtain ⟨rfl, rfl⟩ := hrc
    simp only [and_self, if_true]
    rcases hcase with ⟨hhead, result, s1, hev, -, rfl⟩ | ⟨-, -, -, rfl⟩ | ⟨-, -, rfl⟩
    · have hf := ((evaluate_frame fuel).1 _ _ _ _ _ _ hev).1
      have h1 := hf.type_eq r c
      have h2 := hf.formula_eq r c
      rw [setCell_same] at h1 h2
      simp only [setCell_same]
      rw [h1, h2]
      exact ⟨fun _ => rfl, fun _ => ⟨text, rfl, rfl, hhead⟩⟩
    · simp
    · simp
  · simp only [hrc, if_false]
    have key : (u.spreadsheet r c).type = (s.spreadsheet r c).type ∧
        (u.spreadsheet r c).formula = (s.spreadsheet r c).formula := by
      rcases hcase with ⟨-, result, s1, hev, -, rfl⟩ | ⟨-, -, -, rfl⟩ | ⟨-, -, rfl⟩
      · have hf := ((evaluate_frame fuel).1 _ _ _ _ _ _ hev).1
        rw [setCell_other _ _ _ _ _ _ hrc, hf.type_eq, hf.formula_eq,
          setCell_other _ _ _ _ _ _ hrc]
        exact ⟨rfl, rfl⟩
      · rw [setCell_other _ _ _ _ _ _ hrc]
        exact ⟨rfl, rfl⟩
      · rw [setCell_other _ _ _ _ _ _ hrc]
        exact ⟨rfl, rfl⟩
    rw [key.1, key.2]
    exact hs r c

theorem entered_sourceInv (s : Model) (e : Int → Int → Option (List Char))
    (h : Entered s e) : SourceInv s e := by
  induction h with
  | init => exact sourceInv_init
  | set fuel row col text s t e _ hset ih => exact sourceInv_set fuel row col text s t e ih hset
  | clear row col s t e _ hclear ih => exact sourceInv_clear row col s t e ih hclear

/-- C19. In every state the program can be in, with `e` the text last entered
into each cell: a cell has a formula source only when it is a Formula cell, and
the source of a Formula cell is the text last entered into it, which begins
with `=`; and a returning `update_dependents` changes no cell's kind, raw text
or formula source. -/
theorem formula_source_invariant (s : Model) (e : Int → Int → Option (List Char))
    (h : Entered s e) (r c : Int) :
    ((s.spreadsheet r c).formula ≠ none → (s.spreadsheet r c).type = valueType.FORMULA) ∧
    ((s.spreadsheet r c).type = valueType.FORMULA →
      ∃ f, (s.spreadsheet r c).formula = some f ∧ e r c = some f ∧ f.head? = some '=') ∧
    (∀ fuel row col t, update_dependents fuel row col s = .ok t →
      (t.spreadsheet r c).type = (s.spreadsheet r c).type ∧
      (t.spreadsheet r c).value = (s.spreadsheet r c).value ∧
      (t.spreadsheet r c).formula = (s.spreadsheet r c).formula) := by
  refine ⟨(entered_sourceInv s e h r c).1, (entered_sourceInv s e h r c).2, ?_⟩
  intro fuel row col t ht
  have hc := update_dependents_content fuel row col s t ht
  exact ⟨hc.type_eq r c, hc.value_eq r c, hc.formula_eq r c⟩

theorem formula_source_invariant_witness :
    (formula_sheet.spreadsheet 0 1).type = valueType.FORMULA ∧
    ∃ f, (formula_sheet.spreadsheet 0 1).formula = some f ∧
      (if (0 : Int) = 0 ∧ (1 : Int) = 1 then some "=A1+5".toList
        else if (0 : Int) = 0 ∧ (1 : Int) = 0 then some "3.0".toList else none) = some f ∧
      f.head? = some '=' :=
  ⟨by decide,
   (formula_source_invariant formula_sheet _
     (Entered.set 4 0 1 "=A1+5".toList number_sheet formula_sheet _
       (Entered.set 4 0 0 "3.0".toList model_init number_sheet _ Entered.init
         (ok_final _ (by decide)))
       (ok_final _ (by decide))) 0 1).2.1 (by decide)⟩

/-! ## Growth of a dependents list under recomputation (C20) -/

/-- When A1 is no Formula cell, a returning evaluation of `"=A1"` records one
dependency on A1 and changes nothing else but the position of `strtok`. -/
theorem evaluate_ref_A1 (fuel : Nat) (drow dcol : Int) (s t : Model) (v : Dbl)
    (hA : (s.spreadsheet 0 0).type ≠ valueType.FORMULA)
    (h : evaluate_formula fuel ['=', 'A', '1'] drow dcol s = .ok (v, t)) :
    t = { add_dependency { s with strtok_save := [], strtok_in_copy := true } 0 0 drow dcol with strtok_save := [] } := by
  have a1 : strtok ['A', '1'] = (some ['A', '1'], []) := by decide
  have a2 : is_number ['A', '1'] = false := by decide
  have a3 : ref_row ['A', '1'] = 0 := by decide
  have a4 : ref_col ['A', '1'] = 0 := by decide
  have a5 : inBounds (ref_row ['A', '1']) (ref_col ['A', '1']) = true := by decide
  cases fuel with
  | zero => rw [evaluate_formula_zero] at h; simp at h
  | succ n =>
    rw [evaluate_formula_succ, a1] at h
    cases n with
    | zero => rw [loop_zero] at h; simp at h
    | succ m =>
      cases hty : (s.spreadsheet 0 0).type with
      | FORMULA => exact absurd hty hA
      | TEXT =>
        rw [loop_ref_text m _ _ _ _ _ a2 a5 (by rw [a3, a4]; exact hty)] at h
        simp only [strtok_nil, a3, a4] at h
        exact (loop_none_ok _ _ _ _ _ _ _ h).2
      | NUMBER =>
        cases hval : (s.spreadsheet 0 0).value with
        | none =>
          rw [loop_ref_number_null m _ _ _ _ _ a2 a5 (by rw [a3, a4]; exact hty)
            (by rw [a3, a4]; exact hval)] at h
          simp at h
        | some w =>
          rw [loop_ref_number m _ _ _ _ _ w a2 a5 (by rw [a3, a4]; exact hty)
            (by rw [a3, a4]; exact hval)] at h
          simp only [strtok_nil, a3, a4] at h
          exact (loop_none_ok _ _ _ _ _ _ _ h).2

/-- While every node of A1's list is B1, recording B1 on A1 puts one more node
in front. -/
theorem add_dependency_B1 (s : Model)
    (hdeps : ∀ x ∈ (s.spreadsheet 0 0).dependencies, x = ((0 : Int), (1 : Int))) :
    ((add_dependency s 0 0 0 1).spreadsheet 0 0).dependencies
      = (0, 1) :: (s.spreadsheet 0 0).dependencies := by
  have hany : scan_finds s 0 0 = false := by
    unfold scan_finds
    rw [List.any_eq_false]
    intro x hx
    rw [hdeps x hx]
    decide
  simp [add_dependency, hany]

/-- A propagation pass over `k` nodes that are all B1, while A1 is no Formula
cell: A1's list gets `k` more nodes, all B1, and the display is told `k` more
texts. -/
theorem double_pass (fuel : Nat) (k : Nat) :
    ∀ s t : Model, (s.spreadsheet 0 0).type ≠ valueType.FORMULA → OnlyB1 s →
      update_dependents_loop fuel (List.replicate k (0, 1)) s = .ok t →
      OnlyB1 t ∧
      (t.spreadsheet 0 0).dependencies.length = k + (s.spreadsheet 0 0).dependencies.length ∧
      t.display.length = k + s.display.length := by
  induction k with
  | zero =>
    intro s t _ hs h
    simp only [List.replicate, update_dependents_loop, Except.ok.injEq] at h
    subst h
    exact ⟨hs, by simp, by simp⟩
  | succ k ih =>
    intro s t hA hs h
    rw [List.replicate_succ] at h
    obtain ⟨hB, hBf, hdeps⟩ := hs
    obtain ⟨-, h1 | ⟨-, f, result, s1, hf, hev, -, h1⟩⟩ :=
      update_dependents_loop_cons _ _ _ _ _ _ h
    · exact absurd hB h1.1
    · rw [hBf] at hf
      simp only [Option.some.injEq] at hf
      subst hf
      have hs1 := evaluate_ref_A1 fuel 0 1 s s1 result hA hev
      have hne : ¬ ((0 : Int) = 0 ∧ (0 : Int) = 1) := by decide
      have hfr := (evaluate_frame fuel).1 _ _ _ _ _ _ hev
      have hd1 : (s1.spreadsheet 0 0).dependencies = (0, 1) :: (s.spreadsheet 0 0).dependencies := by
        rw [hs1]
        exact add_dependency_B1 { s with strtok_save := [], strtok_in_copy := true } hdeps
      obtain ⟨h2, h3, h4⟩ := ih _ t
        (by
          simp only [update_cell_display]
          rw [setCell_other _ _ _ _ _ _ hne, hfr.1.type_eq]
          exact hA)
        (by
          refine ⟨?_, ?_, ?_⟩
          · simp only [update_cell_display, setCell_same]
            rw [hfr.1.type_eq]
            exact hB
          · simp only [update_cell_display, setCell_same]
            rw [hfr.1.formula_eq]
            exact hBf
          · simp only [update_cell_display]
            rw [setCell_other _ _ _ _ _ _ hne, hd1]
            intro x hx
            rcases List.mem_cons.1 hx with e | e
            · exact e
            · exact hdeps x e)
        h1
      refine ⟨h2, ?_, ?_⟩
      · rw [h3]
        simp only [update_cell_display]
        rw [setCell_other _ _ _ _ _ _ hne, hd1, List.length_cons]
        omega
      · rw [h4]
        simp only [update_cell_display, setCell_display, List.length_cons, hfr.2.display_eq]
        omega

/-- One `set_cell_value` on A1 with a text that is no formula, while every node
of A1's list is B1 with the source `"=A1"`: when it returns, the list has
doubled and the display was told one text for A1 and one for each node the
list had. -/
theorem set_A1_doubles (fuel : Nat) (text : List Char) (s t : Model) (hs : OnlyB1 s)
    (htext : text.head? ≠ some '=') (h : set_cell_value fuel 0 0 text s = .ok t) :
    OnlyB1 t ∧
    (t.spreadsheet 0 0).dependencies.length = 2 * (s.spreadsheet 0 0).dependencies.length ∧
    t.display.length = s.display.length + 1 + (s.spreadsheet 0 0).dependencies.length := by
  obtain ⟨hB, hBf, hdeps⟩ := hs
  obtain ⟨hb, u, hu, hcase⟩ := set_cell_value_ok fuel 0 0 text s t h
  simp only [show_and_update, update_dependents, hb, if_true] at hu
  have hne : ¬ ((0 : Int) = 0 ∧ (1 : Int) = 0) := by decide
  have key : (u.spreadsheet 0 0).type ≠ valueType.FORMULA ∧
      (u.spreadsheet 0 0).dependencies = (s.spreadsheet 0 0).dependencies ∧
      u.spreadsheet 0 1 = s.spreadsheet 0 1 ∧ u.display = s.display := by
    rcases hcase with ⟨h1, -⟩ | ⟨-, -, -, rfl⟩ | ⟨-, -, rfl⟩
    · exact absurd h1 htext
    · exact ⟨by simp, by simp, setCell_other _ _ _ _ _ _ hne, rfl⟩
    · exact ⟨by simp, by simp, setCell_other _ _ _ _ _ _ hne, rfl⟩
  obtain ⟨k1, k2, k3, k4⟩ := key
  have hrep : (u.spreadsheet 0 0).dependencies
      = List.replicate (s.spreadsheet 0 0).dependencies.length (0, 1) := by
    rw [k2]
    exact List.eq_replicate_iff.2 ⟨rfl, hdeps⟩
  simp only [update_cell_display] at hu
  rw [hrep] at hu
  obtain ⟨h2, h3, h4⟩ := double_pass fuel _ _ t (by simpa [update_cell_display] using k1)
    ⟨by simpa [k3] using hB, by simpa [k3] using hBf, by simpa [k2] using hdeps⟩ hu
  refine ⟨h2, ?_, ?_⟩
  · rw [h3]
    simp only [k2]
    omega
  · rw [h4]
    simp only [List.length_cons, k4]
    omega

theorem onlyB1_ref_sheet :
    OnlyB1 ref_sheet ∧ (ref_sheet.spreadsheet 0 0).dependencies.length = 1 := by
  refine ⟨⟨by decide, by decide, ?_⟩, by decide⟩
  have e : (ref_sheet.spreadsheet 0 0).dependencies = [(0, 1)] := by decide
  rw [e]
  simp

/-- A run of calls of `set_cell_value` on A1 with texts that are no formulas
doubles A1's list at each call. -/
theorem set_A1_each_doubles (fuel : Nat) (texts : List (List Char)) :
    ∀ s t : Model, OnlyB1 s → (∀ x ∈ texts, x.head? ≠ some '=') →
      set_A1_each fuel texts s = .ok t →
      OnlyB1 t ∧
      (t.spreadsheet 0 0).dependencies.length
        = 2 ^ texts.length * (s.spreadsheet 0 0).dependencies.length := by
  induction texts with
  | nil =>
    intro s t hs _ h
    simp only [set_A1_each, Except.ok.injEq] at h
    subst h
    exact ⟨hs, by simp⟩
  | cons text rest ih =>
    intro s t hs htexts h
    simp only [set_A1_each] at h
    split at h
    · rename_i u hu
      obtain ⟨h1, h2, -⟩ := set_A1_doubles fuel text s u hs
        (htexts text (List.mem_cons_self _ _)) hu
      obtain ⟨h3, h4⟩ := ih u t h1 (fun x hx => htexts x (List.mem_cons_of_mem _ hx)) h
      refine ⟨h3, ?_⟩
      rw [h4, h2, List.length_cons, pow_succ]
      ring
    · simp at h

theorem evaluate_ref_A1_text (fuel : Nat) (drow dcol : Int) (s : Model)
    (hA : (s.spreadsheet 0 0).type = valueType.TEXT) :
    evaluate_formula (fuel + 3) ['=', 'A', '1'] drow dcol s
      = .ok (Dbl.zero,
          { add_dependency { s with strtok_save := [], strtok_in_copy := true } 0 0 drow dcol with strtok_save := [] }) := by
  have a1 : strtok ['A', '1'] = (some ['A', '1'], []) := by decide
  have a2 : is_number ['A', '1'] = false := by decide
  have a3 : ref_row ['A', '1'] = 0 := by decide
  have a4 : ref_col ['A', '1'] = 0 := by decide
  have a5 : inBounds (ref_row ['A', '1']) (ref_col ['A', '1']) = true := by decide
  rw [evaluate_formula_succ, a1,
    loop_ref_text (fuel + 1) _ _ _ _ _ a2 a5 (by rw [a3, a4]; exact hA)]
  simp only [strtok_nil, a3, a4]
  rw [loop_none]

/-- While A1 is a Text cell and B1 holds `"=A1"`, a propagation pass over any
number of nodes that are all B1 returns. -/
theorem pass_returns (fuel : Nat) (k : Nat) :
    ∀ s : Model, (s.spreadsheet 0 0).type = valueType.TEXT →
      (s.spreadsheet 0 1).type = valueType.FORMULA →
      (s.spreadsheet 0 1).formula = some ['=', 'A', '1'] →
      returns (update_dependents_loop (fuel + 3) (List.replicate k (0, 1)) s) = true := by
  have hb : inBounds 0 1 = true := by decide
  have e1 : sprintf_1f Dbl.zero = .ok ['0', '.', '0'] := by decide
  have hne : ¬ ((0 : Int) = 0 ∧ (0 : Int) = 1) := by decide
  induction k with
  | zero => intro s _ _ _; rfl
  | succ k ih =>
    intro s hA hB hBf
    rw [List.replicate_succ]
    simp only [update_dependents_loop, hb, hB, hBf, if_true, evaluate_ref_A1_text fuel 0 1 s hA,
      e1]
    apply ih
    · simp only [update_cell_display]
      rw [setCell_other _ _ _ _ _ _ hne]
      simp only
      rw [add_dependency_type]
      exact hA
    · simp only [update_cell_display, setCell_same]
      rw [add_dependency_type]
      exact hB
    · simp only [update_cell_display, setCell_same]
      rw [(add_dependency_frame _ 0 0 0 1).1.formula_eq]
      exact hBf

theorem evaluate_ref_A1_number (fuel : Nat) (drow dcol : Int) (s : Model) (w : List Char)
    (hA : (s.spreadsheet 0 0).type = valueType.NUMBER)
    (hw : (s.spreadsheet 0 0).value = some w) :
    evaluate_formula (fuel + 3) ['=', 'A', '1'] drow dcol s
      = .ok (Dbl.zero + (strtod w).1,
          { add_dependency { s with strtok_save := [], strtok_in_copy := true } 0 0 drow dcol with strtok_save := [] }) := by
  have a1 : strtok ['A', '1'] = (some ['A', '1'], []) := by decide
  have a2 : is_number ['A', '1'] = false := by decide
  have a3 : ref_row ['A', '1'] = 0 := by decide
  have a4 : ref_col ['A', '1'] = 0 := by decide
  have a5 : inBounds (ref_row ['A', '1']) (ref_col ['A', '1']) = true := by decide
  rw [evaluate_formula_succ, a1,
    loop_ref_number (fuel + 1) _ _ _ _ _ w a2 a5 (by rw [a3, a4]; exact hA)
      (by rw [a3, a4]; exact hw)]
  simp only [strtok_nil, a3, a4]
  rw [loop_none]

/-- While A1 is a Number cell with a raw text and B1 holds `"=A1"`, a
propagation pass over any number of nodes that are all B1 ends: it does not
run out of fuel. -/
theorem pass_ends (fuel : Nat) (k : Nat) (w : List Char) :
    ∀ s : Model, (s.spreadsheet 0 0).type = valueType.NUMBER →
      (s.spreadsheet 0 0).value = some w →
      (s.spreadsheet 0 1).type = valueType.FORMULA →
      (s.spreadsheet 0 1).formula = some ['=', 'A', '1'] →
      update_dependents_loop (fuel + 3) (List.replicate k (0, 1)) s ≠ .error .outOfFuel := by
  have hb : inBounds 0 1 = true := by decide
  have hne : ¬ ((0 : Int) = 0 ∧ (0 : Int) = 1) := by decide
  induction k with
  | zero => intro s _ _ _ _; simp [update_dependents_loop]
  | succ k ih =>
    intro s hA hw hB hBf
    rw [List.replicate_succ]
    simp only [update_dependents_loop, hb, hB, hBf, if_true,
      evaluate_ref_A1_number fuel 0 1 s w hA hw]
    cases hstr : sprintf_1f (Dbl.zero + (strtod w).1) with
    | error e =>
      rw [sprintf_1f_error _ e hstr]
      simp
    | ok str =>
      simp only
      apply ih
      · simp only [update_cell_display]
        rw [setCell_other _ _ _ _ _ _ hne]
        simp only
        rw [add_dependency_type]
        exact hA
      · simp only [update_cell_display]
        rw [setCell_other _ _ _ _ _ _ hne]
        simp only
        rw [(add_dependency_frame _ 0 0 0 1).1.value_eq]
        exact hw
      · simp only [update_cell_display, setCell_same]
        rw [add_dependency_type]
        exact hB
      · simp only [update_cell_display, setCell_same]
        rw [(add_dependency_frame _ 0 0 0 1).1.formula_eq]
        exact hBf

/-- C20. From the initial grid with B1 = `"=A1"`, where A1's dependents list
is the one node B1: after any run of returning calls of `set_cell_value` on A1
with texts that are no formulas, A1's list holds `2 ^ n` nodes for `n` calls,
all of them B1; one more such call, when it returns, doubles the list again and
tells the display one text for A1 and one for each node the list had when the
pass started; the call ends, it does not run out of fuel, and it returns when
the text is not a number. -/
theorem dependents_double (fuel : Nat) (texts : List (List Char))
    (htexts : ∀ x ∈ texts, x.head? ≠ some '=') (t : Model)
    (h : set_A1_each fuel texts ref_sheet = .ok t) :
    (t.spreadsheet 0 0).dependencies = List.replicate (2 ^ texts.length) (0, 1) ∧
    (∀ text u, text.head? ≠ some '=' → set_cell_value fuel 0 0 text t = .ok u →
      (u.spreadsheet 0 0).dependencies = List.replicate (2 * 2 ^ texts.length) (0, 1) ∧
      u.display.length = t.display.length + 1 + 2 ^ texts.length) ∧
    (∀ text, text.head? ≠ some '=' →
      set_cell_value (fuel + 3) 0 0 text t ≠ .error .outOfFuel) ∧
    (∀ text, text.head? ≠ some '=' → is_number text = false →
      returns (set_cell_value (fuel + 3) 0 0 text t) = true) := by
  obtain ⟨h1, h2⟩ := set_A1_each_doubles fuel texts ref_sheet t onlyB1_ref_sheet.1 htexts h
  rw [onlyB1_ref_sheet.2, mul_one] at h2
  have ret : ∀ text, text.head? ≠ some '=' → is_number text = false →
      returns (set_cell_value (fuel + 3) 0 0 text t) = true := by
    intro text htext hnum
    have hb : inBounds 0 0 = true := by decide
    have hne : ¬ ((0 : Int) = 0 ∧ (1 : Int) = 0) := by decide
    have hrep : (t.spreadsheet 0 0).dependencies = List.replicate (2 ^ texts.length) (0, 1) :=
      List.eq_replicate_iff.2 ⟨h2, h1.2.2⟩
    simp only [set_cell_value, hb, if_true, htext, if_false, hnum, Bool.false_eq_true,
      show_and_update, update_dependents, update_cell_display, setCell_same, hrep]
    apply pass_returns
    · simp
    · simp only
      rw [setCell_other _ _ _ _ _ _ hne]
      exact h1.1
    · simp only
      rw [setCell_other _ _ _ _ _ _ hne]
      exact h1.2.1
  refine ⟨List.eq_replicate_iff.2 ⟨h2, h1.2.2⟩, ?_, ?_, ret⟩
  · intro text u htext hu
    obtain ⟨h3, h4, h5⟩ := set_A1_doubles fuel text t u h1 htext hu
    rw [h2] at h4 h5
    exact ⟨List.eq_replicate_iff.2 ⟨h4, h3.2.2⟩, h5⟩
  · intro text htext
    by_cases hnum : is_number text = true
    · have hb : inBounds 0 0 = true := by decide
      have hne : ¬ ((0 : Int) = 0 ∧ (1 : Int) = 0) := by decide
      have hrep : (t.spreadsheet 0 0).dependencies
          = List.replicate (2 ^ texts.length) (0, 1) :=
        List.eq_replicate_iff.2 ⟨h2, h1.2.2⟩
      simp only [set_cell_value, hb, if_true, htext, if_false, hnum]
      cases hstr : sprintf_1f (strtod text).1 with
      | error e =>
        rw [sprintf_1f_error _ e hstr]
        simp
      | ok str =>
        simp only [show_and_update, update_dependents, hb, if_true, update_cell_display,
          setCell_same, hrep]
        apply pass_ends fuel _ str
        · simp
        · simp
        · simp only
          rw [setCell_other _ _ _ _ _ _ hne]
          exact h1.1
        · simp only
          rw [setCell_other _ _ _ _ _ _ hne]
          exact h1.2.1
    · have hr := ret text htext (by simpa using hnum)
      intro he
      rw [he] at hr
      simp [returns] at hr

theorem dependents_double_witness :
    returns (set_cell_value 4 0 1 "=A1".toList model_init) = true ∧
    (ref_sheet.spreadsheet 0 0).dependencies = [(0, 1)] ∧
    returns (set_A1_each 4 ["x".toList, "5".toList] ref_sheet) = true ∧
    ((final (set_A1_each 4 ["x".toList, "5".toList] ref_sheet)).spreadsheet 0 0).dependencies
      = List.replicate (2 ^ 2) (0, 1) :=
  ⟨by decide, by decide, by decide,
   (dependents_double 4 ["x".toList, "5".toList] (by decide)
     (final (set_A1_each 4 ["x".toList, "5".toList] ref_sheet)) (ok_final _ (by decide))).1⟩

/-! ## No cell depends on itself (C18) -/

theorem noSelf_of_scanEq {s t : Model} (h : ScanEq s t) (hs : NoSelf s) : NoSelf t := by
  intro r c hmem
  have h1 := (scan_finds_iff t r c).2 hmem
  rw [h r c] at h1
  exact hs r c ((scan_finds_iff s r c).1 h1)

/-- A returning evaluation of the formula of a Formula cell puts no cell on
its own dependents list. -/
theorem evaluate_noSelf (fuel : Nat) (f : List Char) (drow dcol : Int) (s : Model) (v : Dbl)
    (t : Model) (h : evaluate_formula fuel f drow dcol s = .ok (v, t)) (hs : NoSelf s)
    (hb : inBounds drow dcol = true) (hty : (s.spreadsheet drow dcol).type = valueType.FORMULA)
    (hf : (s.spreadsheet drow dcol).formula = some f) : NoSelf t :=
  noSelf_of_scanEq ((evaluate_scan fuel).1 f drow dcol s v t h hb hty hf) hs

/-- Storing a cell with the dependents list it had keeps `NoSelf`. -/
theorem noSelf_setCell (s : Model) (row col : Int) (k : cell) (h : NoSelf s)
    (hk : k.dependencies = (s.spreadsheet row col).dependencies) :
    NoSelf (setCell s row col k) := by
  intro r c
  by_cases hrc : r = row ∧ c = col
  · obtain ⟨rfl, rfl⟩ := hrc
    rw [setCell_same, hk]
    exact h r c
  · rw [setCell_other _ _ _ _ _ _ hrc]
    exact h r c


theorem update_dependents_loop_noSelf (fuel : Nat) (l : List (Int × Int)) :
    ∀ s t, update_dependents_loop fuel l s = .ok t → NoSelf s → NoSelf t := by
  induction l with
  | nil =>
    intro s t h hs
    simp only [update_dependents_loop, Except.ok.injEq] at h
    subst h
    exact hs
  | cons d rest ih =>
    intro s t h hs
    obtain ⟨row, col⟩ := d
    obtain ⟨hb, h1 | ⟨hty, f, result, s1, hf, hev, -, h1⟩⟩ :=
      update_dependents_loop_cons _ _ _ _ _ _ h
    · exact ih _ _ h1.2 hs
    · have hs1 := evaluate_noSelf fuel _ _ _ _ _ _ hev hs hb hty hf
      exact ih _ _ h1 (noSelf_setCell s1 row col _ hs1 rfl)

theorem noSelf_set (fuel : Nat) (row col : Int) (text : List Char) (s t : Model)
    (hs : NoSelf s) (h : set_cell_value fuel row col text s = .ok t) : NoSelf t := by
  obtain ⟨hb, u, hu, hcase⟩ := set_cell_value_ok fuel row col text s t h
  simp only [show_and_update, update_dependents, hb, if_true] at hu
  refine update_dependents_loop_noSelf fuel _ _ t hu ?_
  have hu' : NoSelf u := by
    rcases hcase with ⟨-, result, s1, hev, -, rfl⟩ | ⟨-, -, -, rfl⟩ | ⟨-, -, rfl⟩
    · have hs1 := evaluate_noSelf fuel _ _ _ _ _ _ hev
        (noSelf_setCell s row col _ hs rfl) hb (by rw [setCell_same]) (by rw [setCell_same])
      exact noSelf_setCell s1 row col _ hs1 rfl
    · exact noSelf_setCell s row col _ hs rfl
    · exact noSelf_setCell s row col _ hs rfl
  exact hu'

theorem noSelf_clear (row col : Int) (s t : Model) (hs : NoSelf s)
    (h : clear_cell row col s = .ok t) : NoSelf t := by
  unfold clear_cell at h
  split at h
  · simp only [Except.ok.injEq] at h
    subst h
    exact noSelf_setCell s row col _ hs rfl
  · simp at h

/-- C18. In every state the program can be in, reached from `model_init`
through returning calls of `set_cell_value` and `clear_cell`, no cell's
dependents list holds the cell's own coordinates (a formula whose reference to
its own cell is evaluated never returns, so the exception the claim allows for
does not arise). -/
theorem no_self_dependency (s : Model) (h : Reachable s) (r c : Int) :
    (r, c) ∉ (s.spreadsheet r c).dependencies := by
  have hall : NoSelf s := by
    induction h with
    | init => intro r c; simp [model_init]
    | set fuel row col text s t _ hset ih => exact noSelf_set fuel row col text s t ih hset
    | clear row col s t _ hclear ih => exact noSelf_clear row col s t ih hclear
  exact hall r c

theorem no_self_dependency_witness :
    (formula_sheet.spreadsheet 0 0).dependencies = [(0, 1)] ∧
    ((0 : Int), (0 : Int)) ∉ (formula_sheet.spreadsheet 0 0).dependencies :=
  ⟨by decide, no_self_dependency formula_sheet reachable_formula_sheet 0 0⟩

/-! ## What a formula adds up (C15) -/

theorem tokens_enough (k : Nat) : ∀ x : List Char, x.length < k →
    tokens k x = tokens (x.length + 1) x := by
  induction k using Nat.strong_induction_on with
  | _ k ih =>
    intro x hx
    cases k with
    | zero => omega
    | succ j =>
      cases hs : strtok x with
      | mk nxt rest =>
        cases nxt with
        | none => simp [tokens, hs]
        | some c =>
          have hlt := strtok_shorter x c rest hs
          rw [tokens_succ j x c rest hs, tokens_succ x.length x c rest hs]
          rw [ih j (Nat.lt_succ_self j) rest (by omega)]
          by_cases hj : x.length < j + 1 ∧ x.length ≠ j
          · rw [ih x.length (by omega) rest hlt]
          · have : x.length = j := by omega
            rw [this]
            exact (ih j (Nat.lt_succ_self j) rest (by omega)).symm ▸ rfl

theorem components_cons (x c rest : List Char) (h : strtok x = (some c, rest)) :
    components x = c :: components rest := by
  unfold components
  rw [tokens_succ x.length x c rest h, tokens_enough x.length rest (strtok_shorter x c rest h)]

theorem components_none (x : List Char) (h : (strtok x).1 = none) : components x = [] := by
  unfold components
  cases hs : strtok x with
  | mk nxt rest =>
    rw [hs] at h
    simp only at h
    subst h
    simp [tokens, hs]

theorem add_term_number (s : Model) (acc : Dbl) (comp : List Char)
    (h : is_number comp = true) : add_term s acc comp = acc + (strtod comp).1 := by
  simp [add_term, h]

theorem add_term_text (s : Model) (acc : Dbl) (comp : List Char) (h : is_number comp = false)
    (hty : (s.spreadsheet (ref_row comp) (ref_col comp)).type = valueType.TEXT) :
    add_term s acc comp = acc := by
  simp [add_term, h, hty]

theorem add_term_ref_number (s : Model) (acc : Dbl) (comp w : List Char)
    (h : is_number comp = false)
    (hty : (s.spreadsheet (ref_row comp) (ref_col comp)).type = valueType.NUMBER)
    (hw : (s.spreadsheet (ref_row comp) (ref_col comp)).computed_value = some w) :
    add_term s acc comp = acc + (strtod w).1 := by
  simp [add_term, h, hty, hw]

/-- The loop of `evaluate_formula` over components that are numbers or
references to cells holding no formula returns the running sum of `add_term`
over the current component and those that follow. -/
theorem loop_sum (s0 : Model) (hnv : NumVal s0) (k : Nat) :
    ∀ (comp : List Char) (res : Dbl) (drow dcol : Int) (s t : Model) (v : Dbl),
      ContentEq s0 s → (∀ c ∈ comp :: components s.strtok_save, Simple s0 c) →
      evaluate_formula_loop k (some comp) res drow dcol s = .ok (v, t) →
      v = (comp :: components s.strtok_save).foldl (add_term s0) res := by
  induction k with
  | zero =>
    intro comp res drow dcol s t v _ _ h
    rw [loop_zero] at h
    simp at h
  | succ k ih =>
    intro comp res drow dcol s t v hc hsimple h
    -- the rest of the loop, after the current component
    have cont : ∀ (res1 : Dbl) (u : Model), ContentEq s0 u →
        u.strtok_save = (strtok s.strtok_save).2 →
        evaluate_formula_loop k (strtok s.strtok_save).1 res1 drow dcol u = .ok (v, t) →
        v = (components s.strtok_save).foldl (add_term s0) res1 := by
      intro res1 u hu hsv hk
      cases hs : strtok s.strtok_save with
      | mk nxt rest =>
        rw [hs] at hk hsv
        cases nxt with
        | none =>
          rw [components_none _ (by rw [hs])]
          exact (loop_none_ok _ _ _ _ _ _ _ hk).1
        | some c =>
          have hcc := components_cons _ c rest hs
          have := ih c res1 drow dcol u t v hu
            (by
              intro x hx
              apply hsimple x
              rw [hcc]
              simp only at hsv
              rw [hsv] at hx
              exact List.mem_cons_of_mem _ hx)
            hk
          simp only at hsv
          rw [hsv] at this
          rw [hcc]
          exact this
    rw [List.foldl_cons]
    have hcomp := hsimple comp (List.mem_cons_self _ _)
    by_cases hnum : is_number comp = true
    · rw [loop_number _ _ _ _ _ _ hnum] at h
      rw [add_term_number s0 res comp hnum]
      exact cont _ _ (hc.trans_eq (contentEq_save s _)) rfl h
    · have hnum' : is_number comp = false := by simpa using hnum
      rcases hcomp with hcomp | ⟨hb, hnf⟩
      · exact absurd hcomp hnum
      · have hstep : ContentEq s0
            { add_dependency s (ref_row comp) (ref_col comp) drow dcol with
              strtok_save := (strtok s.strtok_save).2 } :=
          hc.trans_eq ((add_dependency_frame s _ _ _ _).1.contentEq.trans_eq
            (contentEq_save _ _))
        cases htype : (s0.spreadsheet (ref_row comp) (ref_col comp)).type with
        | FORMULA => exact absurd htype hnf
        | TEXT =>
          rw [loop_ref_text _ _ _ _ _ s hnum' hb ((hc.type_eq _ _).trans htype)] at h
          rw [add_term_text s0 res comp hnum' htype]
          exact cont _ _ hstep rfl h
        | NUMBER =>
          cases hval : (s0.spreadsheet (ref_row comp) (ref_col comp)).value with
          | none =>
            rw [loop_ref_number_null _ _ _ _ _ s hnum' hb ((hc.type_eq _ _).trans htype)
              ((hc.value_eq _ _).trans hval)] at h
            simp at h
          | some w =>
            rw [loop_ref_number _ _ _ _ _ s w hnum' hb ((hc.type_eq _ _).trans htype)
              ((hc.value_eq _ _).trans hval)] at h
            rw [add_term_ref_number s0 res comp w hnum' htype
              ((hnv _ _ htype).symm.trans hval)]
            exact cont _ _ hstep rfl h

/-- A returning evaluation of a formula whose components are numbers or
references to cells holding no formula gives the sum of its terms. -/
theorem evaluate_sum (s0 : Model) (hnv : NumVal s0) (k : Nat) (x : Char) (body : List Char)
    (drow dcol : Int) (s t : Model) (v : Dbl) (hc : ContentEq s0 s)
    (hsimple : ∀ c ∈ components body, Simple s0 c)
    (h : evaluate_formula k (x :: body) drow dcol s = .ok (v, t)) :
    v = sum_of_terms s0 (components body) := by
  cases k with
  | zero => rw [evaluate_formula_zero] at h; simp at h
  | succ j =>
    rw [evaluate_formula_succ] at h
    unfold sum_of_terms
    cases hs : strtok body with
    | mk nxt rest =>
      rw [hs] at h
      cases nxt with
      | none =>
        rw [components_none _ (by rw [hs])]
        exact (loop_none_ok _ _ _ _ _ _ _ h).1
      | some c =>
        rw [components_cons _ c rest hs] at hsimple ⊢
        exact loop_sum s0 hnv j c Dbl.zero drow dcol
          { s with strtok_save := rest, strtok_in_copy := true } t v
          (hc.trans_eq (contentEq_grid s _ rfl)) hsimple h

theorem numVal_init : NumVal model_init := by
  intro r c h
  simp [model_init] at h

theorem numVal_clear (row col : Int) (s t : Model) (hs : NumVal s)
    (h : clear_cell row col s = .ok t) : NumVal t := by
  unfold clear_cell at h
  split at h
  · simp only [Except.ok.injEq] at h
    subst h
    intro r c hty
    by_cases hrc : r = row ∧ c = col
    · obtain ⟨rfl, rfl⟩ := hrc
      simp [update_cell_display] at hty
    · simp only [update_cell_display] at hty ⊢
      rw [setCell_other _ _ _ _ _ _ hrc] at hty ⊢
      exact hs r c hty
  · simp at h

theorem numVal_set (fuel : Nat) (row col : Int) (text : List Char) (s t : Model)
    (hs : NumVal s) (h : set_cell_value fuel row col text s = .ok t) : NumVal t := by
  obtain ⟨hb, u, hu, hcase⟩ := set_cell_value_ok fuel row col text s t h
  have hut := show_and_update_content fuel row col u t hu
  simp only [show_and_update, update_dependents, hb, if_true] at hu
  have hcomp := update_dependents_loop_computed fuel _ _ t hu
  have hinv : NumVal u := by
    intro r c hty
    by_cases hrc : r = row ∧ c = col
    · obtain ⟨rfl, rfl⟩ := hrc
      rcases hcase with ⟨-, result, s1, hev, -, rfl⟩ | ⟨-, -, -, rfl⟩ | ⟨-, -, rfl⟩
      · have hf := ((evaluate_frame fuel).1 _ _ _ _ _ _ hev).1.type_eq r c
        rw [setCell_same] at hf
        simp only [setCell_same] at hty
        rw [hf] at hty
        simp at hty
      · simp
      · simp
    · have key : (u.spreadsheet r c).type = (s.spreadsheet r c).type ∧
          (u.spreadsheet r c).value = (s.spreadsheet r c).value ∧
          (u.spreadsheet r c).computed_value = (s.spreadsheet r c).computed_value := by
        rcases hcase with ⟨-, result, s1, hev, -, rfl⟩ | ⟨-, -, -, rfl⟩ | ⟨-, -, rfl⟩
        · have hf := (evaluate_frame fuel).1 _ _ _ _ _ _ hev
          rw [setCell_other _ _ _ _ _ _ hrc, hf.1.type_eq, hf.1.value_eq,
            hf.2.computed_eq, setCell_other _ _ _ _ _ _ hrc]
          exact ⟨rfl, rfl, rfl⟩
        · rw [setCell_other _ _ _ _ _ _ hrc]
          exact ⟨rfl, rfl, rfl⟩
        · rw [setCell_other _ _ _ _ _ _ hrc]
          exact ⟨rfl, rfl, rfl⟩
      rw [key.1] at hty
      rw [key.2.1, key.2.2]
      exact hs r c hty
  intro r c hty
  rcases hcomp r c with h5 | h5
  · rw [hut.value_eq, h5]
    simp only [update_cell_display]
    exact hinv r c (by rw [← hut.type_eq]; exact hty)
  · rw [hty] at h5
    exact absurd h5.1 (by decide)

theorem reachable_numVal (s : Model) (h : Reachable s) : NumVal s := by
  induction h with
  | init => exact numVal_init
  | set fuel row col text s t _ hset ih => exact numVal_set fuel row col text s t ih hset
  | clear row col s t _ hclear ih => exact numVal_clear row col s t ih hclear

theorem reachable_noSelf (s : Model) (h : Reachable s) : NoSelf s := by
  induction h with
  | init => intro r c; simp [model_init]
  | set fuel row col text s t _ hset ih => exact noSelf_set fuel row col text s t ih hset
  | clear row col s t _ hclear ih => exact noSelf_clear row col s t ih hclear

/-- C15, as amended. Rounding to one decimal happens when a Number cell is
stored as well as when a sum is rendered.  In every state the program can be
in, for a formula whose components are numbers or references to cells of the
grid, other than the cell written, that hold no formula: whenever
`set_cell_value` returns, the cell's computed text is the `%.1f` rendering of
the sum of its terms, where a literal counts for its value and a reference to a
Number cell counts for the value of the text that cell displays; and every
Number cell has its displayed text as raw text. -/
theorem formula_sums_displayed_values (fuel : Nat) (row col : Int) (body : List Char)
    (s t : Model) (hs : Reachable s)
    (hrefs : ∀ c ∈ components body, is_number c = true ∨
      (inBounds (ref_row c) (ref_col c) = true ∧ ¬ (ref_row c = row ∧ ref_col c = col) ∧
        (s.spreadsheet (ref_row c) (ref_col c)).type ≠ valueType.FORMULA))
    (h : set_cell_value fuel row col ('=' :: body) s = .ok t) :
    (t.spreadsheet row col).computed_value
      = some (Dbl.fmt1 (sum_of_terms t (components body))) ∧
    (∀ r c, (t.spreadsheet r c).type = valueType.NUMBER →
      (t.spreadsheet r c).value = (t.spreadsheet r c).computed_value) := by
  refine ⟨?_, reachable_numVal t (Reachable.set fuel row col _ s t hs h)⟩
  obtain ⟨hb, u, hu, hcase⟩ := set_cell_value_ok fuel row col ('=' :: body) s t h
  simp only [show_and_update, update_dependents, hb, if_true] at hu
  rcases hcase with ⟨-, result, s1, hev, -, rfl⟩ | ⟨h1, -⟩ | ⟨h1, -⟩
  · have hfr := (evaluate_frame fuel).1 _ _ _ _ _ _ hev
    -- the state the formula is evaluated in
    have hsimple : ∀ c ∈ components body, Simple
        (setCell s row col { s.spreadsheet row col with
          type := valueType.FORMULA, formula := some ('=' :: body) }) c := by
      intro c hc
      rcases hrefs c hc with h1 | ⟨h1, h2, h3⟩
      · exact Or.inl h1
      · exact Or.inr ⟨h1, by rw [setCell_other _ _ _ _ _ _ h2]; exact h3⟩
    have hnv : NumVal (setCell s row col { s.spreadsheet row col with
        type := valueType.FORMULA, formula := some ('=' :: body) }) := by
      intro r c hty
      by_cases hrc : r = row ∧ c = col
      · obtain ⟨rfl, rfl⟩ := hrc
        simp at hty
      · rw [setCell_other _ _ _ _ _ _ hrc] at hty ⊢
        exact reachable_numVal s hs r c hty
    have hres := evaluate_sum _ hnv fuel '=' body row col _ s1 result
      (ContentEq.refl_eq _) hsimple hev
    -- the cell written is not among its own dependents
    have hns : NoSelf s1 := evaluate_noSelf fuel _ _ _ _ _ _ hev
      (noSelf_setCell s row col _ (reachable_noSelf s hs) rfl) hb (by rw [setCell_same])
      (by rw [setCell_same])
    have hmem : (row, col) ∉ ((update_cell_display row col
        (((setCell s1 row col { s1.spreadsheet row col with
          value := some ('=' :: body),
          computed_value := some (Dbl.fmt1 result) }).spreadsheet row col).computed_value.getD [])
        (setCell s1 row col { s1.spreadsheet row col with
          value := some ('=' :: body),
          computed_value := some (Dbl.fmt1 result) })).spreadsheet row col).dependencies := by
      simp only [update_cell_display, setCell_same]
      exact hns row col
    rw [update_dependents_loop_others fuel _ _ t hu row col hmem]
    simp only [update_cell_display, setCell_same, Option.some.injEq]
    rw [hres]
    -- the terms have the same values in the final state
    have hut := update_dependents_loop_content fuel _ _ t hu
    have hcomp := update_dependents_loop_computed fuel _ _ t hu
    unfold sum_of_terms
    congr 1
    apply List.foldl_ext
    intro acc c hc
    by_cases hnum : is_number c = true
    · rw [add_term_number _ _ _ hnum, add_term_number _ _ _ hnum]
    · have hnum' : is_number c = false := by simpa using hnum
      rcases hrefs c hc with h1 | ⟨-, h2, h3⟩
      · exact absurd h1 hnum
      · have hty : (t.spreadsheet (ref_row c) (ref_col c)).type
            = (s.spreadsheet (ref_row c) (ref_col c)).type := by
          rw [hut.type_eq]
          simp only [update_cell_display]
          rw [setCell_other _ _ _ _ _ _ h2, hfr.1.type_eq, setCell_other _ _ _ _ _ _ h2]
        have hcv : (t.spreadsheet (ref_row c) (ref_col c)).computed_value
            = (s.spreadsheet (ref_row c) (ref_col c)).computed_value := by
          rcases hcomp (ref_row c) (ref_col c) with h5 | h5
          · rw [h5]
            simp only [update_cell_display]
            rw [setCell_other _ _ _ _ _ _ h2, hfr.2.computed_eq, setCell_other _ _ _ _ _ _ h2]
          · rw [hty] at h5
            exact absurd h5.1 h3
        simp only [add_term, hnum', Bool.false_eq_true, if_false]
        rw [setCell_other _ _ _ _ _ _ h2, hty, hcv]
  · simp at h1
  · simp at h1

theorem formula_sums_displayed_values_witness :
    (formula_sheet.spreadsheet 0 1).computed_value
      = some (Dbl.fmt1 (sum_of_terms formula_sheet (components "A1+5".toList))) ∧
    Dbl.fmt1 (sum_of_terms formula_sheet (components "A1+5".toList)) = "8.0".toList :=
  ⟨(formula_sums_displayed_values 4 0 1 "A1+5".toList number_sheet formula_sheet
      reachable_number_sheet (by decide) (ok_final _ (by decide))).1,
   by decide⟩

/-- C15, the claim as stated fails: with A1 = `"0.04"` the raw text stored for
A1 is the rounded `"0.0"`, and B1 = `"=A1+A1+A1"` shows `"0.0"`; the sum of the
values entered, `0.04 + 0.04 + 0.04`, would be rendered `"0.1"`. -/
theorem formula_sums_rounded_texts :
    (set_cell_value 4 0 0 "0.04".toList model_init >>= get_textual_value 0 0)
      = .ok "0.0".toList ∧
    computed_text 0 1
      (set_cell_value 4 0 0 "0.04".toList model_init
        >>= set_cell_value 6 0 1 "=A1+A1+A1".toList)
      = .ok (some "0.0".toList) ∧
    Dbl.fmt1 (Dbl.zero + (strtod "0.04".toList).1 + (strtod "0.04".toList).1
      + (strtod "0.04".toList).1) = "0.1".toList := by
  decide

end Spreadsheet
